import Mathlib

/-! Smuggle: subnet leases, allocation, reaping and watching.

A shallow embedding of the subnet-lease control plane of the overlay fabric:
the IPv4 value types (`internal/types/ipv4.go`), the network configuration
(`internal/types/network.go`), the adaptive subnet allocator
(`internal/network/network.go`), the client bootstrap and heartbeat
(`internal/agent/client`), the server reaper (`internal/agent/server/reaper.go`)
and the watch loop of the variable store (`internal/store/nvar/nvar.go`); then
the peer dispatch, the textual forms of addresses, the CNI configuration and
its file store (`internal/store/file/file.go`), the packet filter
(`internal/network/firewall/iptables`), the retry helper
(`internal/helper/retry/retry.go`) and the agent configuration
(`internal/config`, `internal/cmd/agent/run.go`).

Conventions of the embedding:

* `IPv4Addr` is Go's `uint32`: a natural number below `2^32`; every arithmetic
  operation of the source on it is written with its wrap-around made explicit
  (`add32`, `sub32`, `mul32`, `shl32`).
* `uint` and `int` are 64 bits wide (the agent's network manager only runs on
  Linux, whose supported targets here are 64-bit).
* A pointer that may be nil is an `Option`; dereferencing nil, dividing by zero
  and the run-time check of `rand.Int31n` are `Panic` outcomes.
* `time.Time` is an integer number of nanoseconds, `time.Duration` likewise.
* Calls to the store are recorded as a trace of store operations.
* Libraries outside the repository (go-iptables, go-retry, `os`,
  `path/filepath`, `encoding/json`, `net`) are given by their documented
  behaviour; what they cannot decide alone (random draws, failures of the
  operating system, the time left before a deadline) is a parameter.
-/

namespace Smuggle

/-! ## Machine arithmetic -/

/-- Addition of two `uint32` values. -/
def add32 (a b : Nat) : Nat := (a + b) % 2 ^ 32

/-- Subtraction of two `uint32` values. -/
def sub32 (a b : Nat) : Nat := (a % 2 ^ 32 + (2 ^ 32 - b % 2 ^ 32)) % 2 ^ 32

/-- Multiplication of two `uint32` values. -/
def mul32 (a b : Nat) : Nat := (a * b) % 2 ^ 32

/-- Subtraction of two `uint` (64-bit) values. -/
def sub64 (a b : Nat) : Nat := (a % 2 ^ 64 + (2 ^ 64 - b % 2 ^ 64)) % 2 ^ 64

/-- Left shift of a `uint32` by an unsigned count: a count of 32 or more
shifts every bit out. -/
def shl32 (x s : Nat) : Nat := if s < 32 then (x * 2 ^ s) % 2 ^ 32 else 0

/-- Conversion `int32(x)` of a 64-bit `int`: the low 32 bits, read as a signed
number. -/
def toInt32 (x : Int) : Int :=
  if x % 2 ^ 32 < 2 ^ 31 then x % 2 ^ 32 else x % 2 ^ 32 - 2 ^ 32

/-- Conversion `uint32(x)` (here `IPv4Addr(x)`) of a 64-bit `int`. -/
def toUint32 (x : Int) : Nat := (x % 2 ^ 32).toNat

/-! ## Data model -/

/-- Run-time panics of the Go program that the embedding keeps apart from
returned errors. -/
inductive Panic where
  | nilDereference
  | divideByZero
  | int31nArgument
  deriving DecidableEq, Repr

/-- IPv4Net of `types/ipv4.go`: the network address and the length of the
network part. -/
structure IPv4Net where
  IP : Nat
  Size : Nat
  deriving DecidableEq, Repr

/-- IPv4Config of `types/network.go`. `Network` is a pointer in the source. -/
structure IPv4Config where
  Network : Option IPv4Net
  Min : Nat
  Max : Nat
  Size : Nat
  deriving DecidableEq, Repr

/-- The content of a `json.RawMessage` holding a provider configuration: bytes
that do not decode, or a JSON object, of which the four keys declared by the
vxlan `Config` are kept (a key that is absent is `none`). -/
inductive RawConfig where
  | invalid
  | object (vni port mtu : Option Int) (vtep_mac : Option String)
  deriving DecidableEq, Repr

/-- ProviderConfig of `types/network.go`; a nil `Config` is `none`. -/
structure ProviderConfig where
  Name : String
  Config : Option RawConfig
  deriving DecidableEq, Repr

/-- Network of `types/network.go`. -/
structure Network where
  Name : String
  IPMasq : Option Bool
  IPv4 : Option IPv4Config
  Provider : Option ProviderConfig
  deriving DecidableEq, Repr

/-- Subnet of `types/subnet.go`: the lease of one host in one network. -/
structure Subnet where
  ClientID : String
  NetworkName : String
  Provider : String
  HostIPv4 : Option Nat
  Config : Option RawConfig
  Expiration : Int
  Expired : Bool
  IPv4Network : Option IPv4Net
  MTU : Int
  deriving DecidableEq, Repr

/-- EmptyIPv4Addr of `types/ipv4.go`. -/
def EmptyIPv4Addr : Nat := 0

/-- DefaultSubnetTTL of `types/subnet.go`: 24 hours, in nanoseconds. -/
def DefaultSubnetTTL : Int := 24 * 3600 * 1000000000

/-! ## IPv4 arithmetic (`types/ipv4.go`) -/

/-- IPv4Net.mask: `0xFFFFFFFF << (32 - i.Size)` as a `uint32`. -/
def IPv4Net.mask (i : IPv4Net) : Nat := shl32 0xFFFFFFFF (sub64 32 i.Size)

/-- IPv4Net.NextNetwork: the adjacent network of the same size. -/
def IPv4Net.NextNetwork (i : IPv4Net) : IPv4Net :=
  { IP := add32 i.IP (shl32 1 (sub64 32 i.Size)), Size := i.Size }

/-- IPv4Net.NextAddr: the network with its address incremented by one. -/
def IPv4Net.NextAddr (i : IPv4Net) : IPv4Net :=
  { i with IP := add32 i.IP 1 }

/-- IPv4Net.Overlap: both addresses are masked with the mask of the shorter
network part and compared. -/
def IPv4Net.Overlap (i other : IPv4Net) : Bool :=
  let mask := if i.Size < other.Size then i.mask else other.mask
  (i.IP % 2 ^ 32) &&& mask == (other.IP % 2 ^ 32) &&& mask

/-! ## Network configuration (`types/network.go`) -/

/-- The errors Network.Validate returns. -/
inductive ValidateError where
  | configEmpty
  | networkMissing
  | sizeOutOfRange
  | minOutOfRange
  | providerMissing
  | unsupportedProvider
  deriving DecidableEq, Repr

/-- Network.Validate, with `none` for a nil error. -/
def Network.Validate (n : Network) : Option ValidateError :=
  match n.IPv4 with
  | none => some .configEmpty
  | some v4 =>
    match v4.Network with
    | none => some .networkMissing
    | some net =>
      if v4.Size = 0 ∨ v4.Size > 32 then some .sizeOutOfRange
      else if v4.Min ≠ EmptyIPv4Addr ∧
          (v4.Min < net.IP ∨ v4.Min > sub32 net.NextNetwork.IP 1) then
        some .minOutOfRange
      else
        match n.Provider with
        | none => some .providerMissing
        | some p =>
          if p.Name ≠ "vxlan" then some .unsupportedProvider else none

/-- The part of Network.Canonicalize that fills in `Min`. -/
def canonicalizeMin (v4 : IPv4Config) : Except Panic IPv4Config :=
  if v4.Min = EmptyIPv4Addr then
    match v4.Network with
    | none => .error .nilDereference
    | some net => .ok { v4 with Min := add32 net.IP (shl32 1 (sub64 32 v4.Size)) }
  else .ok v4

/-- The part of Network.Canonicalize that fills in `Max`. -/
def canonicalizeMax (v4 : IPv4Config) : Except Panic IPv4Config :=
  if v4.Max = EmptyIPv4Addr then
    match v4.Network with
    | none => .error .nilDereference
    | some net =>
      .ok { v4 with
        Max := sub32 (sub32 net.NextNetwork.IP (shl32 1 (sub64 32 v4.Size))) 1 }
  else .ok v4

/-- Network.Canonicalize: unset `Min`, `Max` and `IPMasq` receive their
defaults. -/
def Network.Canonicalize (n : Network) : Except Panic Network :=
  let masq : Option Bool := match n.IPMasq with
    | none => some true
    | some b => some b
  match n.IPv4 with
  | none => .ok { n with IPMasq := masq }
  | some v4 =>
    match canonicalizeMin v4 with
    | .error p => .error p
    | .ok v4min =>
      match canonicalizeMax v4min with
      | .error p => .error p
      | .ok v4max => .ok { n with IPv4 := some v4max, IPMasq := masq }

/-! ## Subnet allocation (`network/network.go`) -/

/-- The part of the network Manager that createSubnet reads: the fingerprint
of the host interface. -/
structure Manager where
  ipv4Addr : Nat
  ifaceMTU : Int
  deriving DecidableEq, Repr

deriving instance DecidableEq for Except

/-- Outcomes of GenerateIPv4Subnet other than a subnet: its two returned
errors, a panic, and a sequential loop that never ends. -/
inductive AllocError where
  | invalidRange
  | networkFull
  | panic (p : Panic)
  | diverges
  deriving DecidableEq, Repr

/-- One insertion `usedSubnets[ip] = true` into the set of used addresses,
kept as a list without repetition. -/
def markUsed (used : List Nat) (ip : Nat) : List Nat :=
  if ip ∈ used then used else used ++ [ip]

/-- The body of the loop of GenerateIPv4Subnet that builds the set of used
block addresses: a lease counts when it carries a block and belongs to the
network `name`. -/
def recordLease (name : String) (used : List Nat) (subnet : Subnet) : List Nat :=
  match subnet.IPv4Network with
  | some net => if subnet.NetworkName = name then markUsed used net.IP else used
  | none => used

/-- The set of used block addresses GenerateIPv4Subnet builds from the leases
`subnets`. -/
def usedSubnets (name : String) (subnets : List Subnet) : List Nat :=
  subnets.foldl (recordLease name) []

/-- The comparison `float64(used) / float64(total) >= 0.8`. Both operands are
below `2^53`, so the conversions are exact and the quotient is the correctly
rounded one; the constant is the double `7205759403792794 * 2^-53`, and the
rounded quotient reaches it exactly when `used / total` is at least
`0.8 - 2^-53 / 10`, which for integers with `0 < total < 2^54` is the exact
comparison `4 * total ≤ 5 * used`. -/
def utilizationReached (used : Nat) (total : Int) : Bool :=
  decide (4 * total ≤ 5 * (used : Int))

/-- The function createSubnet. -/
def createSubnet (m : Manager) (now : Int) (id : String) (cfg : Network)
    (v4 : IPv4Config) (ip : Nat) : Except AllocError Subnet :=
  match cfg.Provider with
  | none => .error (.panic .nilDereference)
  | some p =>
    .ok { ClientID := id
          NetworkName := cfg.Name
          Provider := p.Name
          Config := p.Config
          HostIPv4 := some m.ipv4Addr
          Expiration := now + DefaultSubnetTTL
          Expired := false
          MTU := m.ifaceMTU - 50
          IPv4Network := some { IP := ip, Size := v4.Size } }

/-- The function randInt: `lo + int(rnd.Int31n(int32(hi-lo)))`. The generator
is an arbitrary raw value `raw`; `Int31n n` panics unless `n` is positive and
otherwise returns a value in `[0, n)`, here `raw` reduced modulo `n`. -/
def randInt (raw : Nat) (lo hi : Int) : Except AllocError Int :=
  let n := toInt32 (hi - lo)
  if n ≤ 0 then .error (.panic .int31nArgument)
  else .ok (lo + ((raw : Int) % n))

/-- The loop of findSequentialSubnet, started at candidate `candidateIP`;
`fuel` bounds the number of evaluations of the loop condition, `none` is
returned when it runs out, `some none` when the loop ends without a block. -/
def seqLoop (v4 : IPv4Config) (used : List Nat) (subnetSize : Nat) :
    Nat → Nat → Option (Option Nat)
  | 0, _ => none
  | fuel + 1, candidateIP =>
    if candidateIP ≤ v4.Max then
      if candidateIP ∉ used then some (some candidateIP)
      else if candidateIP > sub32 v4.Max subnetSize then some none
      else seqLoop v4 used subnetSize fuel (add32 candidateIP subnetSize)
    else some none

/-- The number of loop-condition evaluations granted to the sequential search:
more than there are `uint32` values. -/
def seqFuel : Nat := 2 ^ 32 + 1

/-- The function findSequentialSubnet. -/
def findSequentialSubnet (m : Manager) (now : Int) (id : String) (cfg : Network)
    (v4 : IPv4Config) (used : List Nat) (subnetSize : Nat) :
    Except AllocError Subnet :=
  match seqLoop v4 used subnetSize seqFuel v4.Min with
  | none => .error .diverges
  | some none => .error .networkFull
  | some (some ip) => createSubnet m now id cfg v4 ip

/-- The probing loop of findRandomSubnet: `remaining` attempts are left,
the current one is number `attempt` and consumes the raw value
`draws attempt`. The result is the block found, or `none` when the attempts
are exhausted. -/
def probeLoop (draws : Nat → Nat) (v4 : IPv4Config) (used : List Nat)
    (subnetSize : Nat) (totalSubnets : Int) :
    Nat → Nat → Except AllocError (Option Nat)
  | 0, _ => .ok none
  | remaining + 1, attempt =>
    match randInt (draws attempt) 0 totalSubnets with
    | .error e => .error e
    | .ok randomIndex =>
      let candidateIP := add32 v4.Min (mul32 (toUint32 randomIndex) subnetSize)
      if candidateIP > v4.Max then
        probeLoop draws v4 used subnetSize totalSubnets remaining (attempt + 1)
      else if candidateIP ∉ used then .ok (some candidateIP)
      else probeLoop draws v4 used subnetSize totalSubnets remaining (attempt + 1)

/-- The number of probing attempts: `max(max(len*3, 100), 1000)`. -/
def maxAttempts (used : List Nat) : Nat := max (max (used.length * 3) 100) 1000

/-- The function findRandomSubnet. -/
def findRandomSubnet (m : Manager) (now : Int) (draws : Nat → Nat) (id : String)
    (cfg : Network) (v4 : IPv4Config) (used : List Nat) (subnetSize : Nat)
    (totalSubnets : Int) : Except AllocError Subnet :=
  match probeLoop draws v4 used subnetSize totalSubnets (maxAttempts used) 0 with
  | .error e => .error e
  | .ok (some ip) => createSubnet m now id cfg v4 ip
  | .ok none => findSequentialSubnet m now id cfg v4 used subnetSize

/-- The block size `uint32(1 << (32 - size))` of GenerateIPv4Subnet. -/
def blockSize (size : Nat) : Nat := shl32 1 (sub64 32 size)

/-- The number of blocks `int((max - min) / subnetSize) + 1` of
GenerateIPv4Subnet, the subtraction and division being those of `uint32`. -/
def totalBlocks (v4 : IPv4Config) : Int :=
  ((sub32 v4.Max v4.Min / blockSize v4.Size : Nat) : Int) + 1

/-- GenerateIPv4Subnet: the lease of host `id` in network `cfg`, given the
leases `subnets` read from the store, the clock `now` and the raw values
`draws` of the random generator. -/
def GenerateIPv4Subnet (m : Manager) (now : Int) (draws : Nat → Nat)
    (id : String) (cfg : Network) (subnets : List Subnet) :
    Except AllocError Subnet :=
  let used := usedSubnets cfg.Name subnets
  match cfg.IPv4 with
  | none => .error (.panic .nilDereference)
  | some v4 =>
    let subnetSize := blockSize v4.Size
    if subnetSize = 0 then .error (.panic .divideByZero)
    else
      let totalSubnets := totalBlocks v4
      if totalSubnets ≤ 0 then .error .invalidRange
      else if utilizationReached used.length totalSubnets then
        findSequentialSubnet m now id cfg v4 used subnetSize
      else
        findRandomSubnet m now draws id cfg v4 used subnetSize totalSubnets

/-! ## Store requests -/

/-- A write request the agent sends to the store: SetSubnet with the lease it
carries, or DeleteSubnet with the network name and client id. -/
inductive StoreOp where
  | setSubnet (subnet : Subnet)
  | deleteSubnet (networkName id : String)
  deriving DecidableEq, Repr

/-! ## Heartbeat (`agent/client/heartbeat.go`) -/

/-- Subnet.Copy: a deep copy, as a value the subnet itself. -/
def Subnet.Copy (s : Subnet) : Subnet := s

/-- One tick of startSubnetHeartbeat for the lease `cfg` at time `now`: the
copy with the refreshed expiration that the tick prepares, and the request it
sends to the store, which carries `cfg`. -/
def heartbeatTick (cfg : Subnet) (now : Int) : Subnet × StoreOp :=
  let cfgCopy := { cfg.Copy with Expiration := now + DefaultSubnetTTL }
  (cfgCopy, .setSubnet cfg)

/-- The requests startSubnetHeartbeat sends for the lease `cfg` over the ticks
at the times `ticks`; the lease it holds is never reassigned. -/
def heartbeatWrites (cfg : Subnet) (ticks : List Int) : List StoreOp :=
  ticks.map (fun now => (heartbeatTick cfg now).2)

/-! ## Reaper (`agent/server/reaper.go`) -/

/-- The request of handleSubnetExpired: the lease is deleted. -/
def handleSubnetExpired (subnet : Subnet) : StoreOp :=
  .deleteSubnet subnet.NetworkName subnet.ClientID

/-- The request of handleSubnetExpiration: the lease is written back with its
expired flag set. -/
def handleSubnetExpiration (subnet : Subnet) : StoreOp :=
  .setSubnet { subnet with Expired := true }

/-- The body of the loop of runSubnetReap for one listed lease, at time `now`
with grace threshold `threshold`: the store requests it causes. -/
def reapSubnet (now threshold : Int) (subnet : Subnet) : List StoreOp :=
  if subnet.Expired = true ∧ subnet.Expiration + threshold < now then
    [handleSubnetExpired subnet]
  else if subnet.Expiration < now then
    [handleSubnetExpiration subnet]
  else []

/-- The loop of runSubnetReap over the listed leases. -/
def reapLoop (now threshold : Int) : List Subnet → List StoreOp
  | [] => []
  | subnet :: rest => reapSubnet now threshold subnet ++ reapLoop now threshold rest

/-- The function runSubnetReap: one sweep over the leases of a network, given
the outcome of ListSubnets; a failed listing ends the sweep. -/
def runSubnetReap (listing : Except String (List Subnet)) (now threshold : Int) :
    List StoreOp :=
  match listing with
  | .error _ => []
  | .ok subnets => reapLoop now threshold subnets

/-! ## Local provider setup (`network/provider/vxlan`) -/

/-- Config of the vxlan provider. -/
structure VxlanConfig where
  VNI : Int
  Port : Int
  MTU : Int
  VtepMAC : String
  deriving DecidableEq, Repr

/-- Decoding of a raw provider configuration into an already initialised
`VxlanConfig`: a key that is present replaces the field. -/
def unmarshalConfig (raw : RawConfig) (cfg : VxlanConfig) : Option VxlanConfig :=
  match raw with
  | .invalid => none
  | .object vni port mtu mac =>
    some { VNI := vni.getD cfg.VNI
           Port := port.getD cfg.Port
           MTU := mtu.getD cfg.MTU
           VtepMAC := mac.getD cfg.VtepMAC }

/-- Encoding of a `VxlanConfig`: every key is written. -/
def marshalConfig (cfg : VxlanConfig) : RawConfig :=
  .object (some cfg.VNI) (some cfg.Port) (some cfg.MTU) (some cfg.VtepMAC)

/-- The ways SetLocal ends without a subnet. -/
inductive SetLocalError where
  | unknownProvider
  | badConfig
  | link
  | emptyMAC
  | panic (p : Panic)
  deriving DecidableEq, Repr

/-- Provider.SetLocal of the vxlan provider. `link` is the outcome of
createIPv4: the hardware address of the tunnel interface, or an error of the
kernel. -/
def vxlanSetLocal (m : Manager) (link : Except String String) (client : Subnet) :
    Except SetLocalError Subnet :=
  let defaults : VxlanConfig := { VNI := 1, Port := 4789, MTU := m.ifaceMTU - 50, VtepMAC := "" }
  let decoded : Option VxlanConfig := match client.Config with
    | none => some defaults
    | some raw => unmarshalConfig raw defaults
  match decoded with
  | none => .error .badConfig
  | some cfg =>
    match client.HostIPv4 with
    | none => .error (.panic .nilDereference)
    | some _ =>
      match link with
      | .error _ => .error .link
      | .ok mac =>
        if mac = "" then .error .emptyMAC
        else .ok { client.Copy with Config := some (marshalConfig { cfg with VtepMAC := mac }) }

/-- Manager.SetLocal: the provider is looked up by the name the subnet
carries; only `vxlan` is registered. -/
def Manager.SetLocal (m : Manager) (link : Except String String) (client : Subnet) :
    Except SetLocalError Subnet :=
  if client.Provider = "vxlan" then vxlanSetLocal m link client
  else .error .unknownProvider

/-- The lease carries a provider configuration with a non-empty address of the
tunnel interface. -/
def carriesVtepMAC (s : Subnet) : Bool :=
  match s.Config with
  | some (.object _ _ _ (some mac)) => mac != ""
  | _ => false

/-! ## Client bootstrap (`agent/client/client.go`) -/

/-- A call of the client to one of its collaborators. -/
inductive Effect where
  | setLocal (client : Subnet)
  | store (op : StoreOp)
  | cniSet (network : Network) (subnet : Subnet)
  | setupMasqRules (network : Network) (subnet : Subnet)
  | setupForwardRules (network : Network)
  | ensureIsolation (networks : List Network)
  deriving DecidableEq, Repr

/-- The ways Init ends with an error, and its panics. -/
inductive InitError where
  | listNetworks
  | noNetworks
  | invalidNetwork (e : ValidateError)
  | getSubnet
  | listSubnets
  | generate (e : AllocError)
  | setLocal (e : SetLocalError)
  | storeSubnet
  | cniConfig
  | masqRules
  | forwardRules
  | isolation
  | panic (p : Panic)
  deriving DecidableEq, Repr

/-- What the collaborators of the client answer during bootstrap: the store,
the clock, the random generator, the kernel, the CNI store and the
firewall. Answers that depend on the network are indexed by its name. -/
structure ClientEnv where
  id : String
  manager : Manager
  listNetworks : Except String (List Network)
  getSubnet : String → Except String (Option Subnet)
  listSubnets : String → Except String (List Subnet)
  clock : String → Int
  draws : String → Nat → Nat
  link : String → Except String String
  setSubnetFails : Subnet → Bool
  cniSetFails : String → Bool
  masqRulesFail : String → Bool
  forwardRulesFail : String → Bool
  isolationFails : Bool

/-- The fields of Client that bootstrap fills, with the calls made so far. -/
structure ClientState where
  networks : List Network
  subnets : List Subnet
  effects : List Effect
  deriving DecidableEq, Repr

/-- The state with one more call recorded. -/
def ClientState.emit (st : ClientState) (e : Effect) : ClientState :=
  { st with effects := st.effects ++ [e] }

/-- Client.initSubnet: SetLocal, then SetSubnet of the subnet SetLocal
returned, then the CNI configuration generated from `cfg`. -/
def initSubnet (env : ClientEnv) (st : ClientState) (netCfg : Network) (cfg : Subnet) :
    ClientState × Option InitError :=
  let st1 := st.emit (.setLocal cfg)
  match env.manager.SetLocal (env.link cfg.NetworkName) cfg with
  | .error e => (st1, some (.setLocal e))
  | .ok providerResp =>
    let st2 := st1.emit (.store (.setSubnet providerResp))
    if env.setSubnetFails providerResp then (st2, some .storeSubnet)
    else if netCfg.IPMasq = none ∨ netCfg.IPv4.bind (fun v4 => v4.Network) = none ∨
        cfg.IPv4Network = none then
      (st2, some (.panic .nilDereference))
    else
      let st3 := st2.emit (.cniSet netCfg cfg)
      if env.cniSetFails netCfg.Name then (st3, some .cniConfig) else (st3, none)

/-- The body of the loop of Client.Init for one network configuration. -/
def initNetwork (env : ClientEnv) (st : ClientState) (networkConfig : Network) :
    ClientState × Option InitError :=
  match networkConfig.Validate with
  | some e => (st, some (.invalidNetwork e))
  | none =>
    match env.getSubnet networkConfig.Name with
    | .error _ => ({ st with networks := st.networks ++ [networkConfig] }, some .getSubnet)
    | .ok stored =>
      match networkConfig.Canonicalize with
      | .error p => ({ st with networks := st.networks ++ [networkConfig] }, some (.panic p))
      | .ok canonical =>
        let st0 := { st with networks := st.networks ++ [canonical] }
        let allocated : Except InitError Subnet := match stored with
          | some subnet => .ok subnet
          | none =>
            match env.listSubnets canonical.Name with
            | .error _ => .error .listSubnets
            | .ok subnets =>
              match GenerateIPv4Subnet env.manager (env.clock canonical.Name)
                  (env.draws canonical.Name) env.id canonical subnets with
              | .error e => .error (.generate e)
              | .ok subnet => .ok subnet
        match allocated with
        | .error e => (st0, some e)
        | .ok subnet =>
          match initSubnet env st0 canonical subnet with
          | (st1, some e) => (st1, some e)
          | (st1, none) =>
            let st2 := { st1 with subnets := st1.subnets ++ [subnet] }
            let masq : ClientState × Option InitError :=
              if canonical.IPMasq = some true then
                (st2.emit (.setupMasqRules canonical subnet),
                  if env.masqRulesFail canonical.Name then some .masqRules else none)
              else (st2, none)
            match masq with
            | (st3, some e) => (st3, some e)
            | (st3, none) =>
              (st3.emit (.setupForwardRules canonical),
                if env.forwardRulesFail canonical.Name then some .forwardRules else none)

/-- The loop of Client.Init over the listed networks: the first error ends
it. -/
def initLoop (env : ClientEnv) : ClientState → List Network → ClientState × Option InitError
  | st, [] => (st, none)
  | st, networkConfig :: rest =>
    match initNetwork env st networkConfig with
    | (st1, some e) => (st1, some e)
    | (st1, none) => initLoop env st1 rest

/-- Client.Init, from the state New leaves: the state reached and the error
returned, `none` for a nil error. -/
def Client.Init (env : ClientEnv) : ClientState × Option InitError :=
  let st : ClientState := { networks := [], subnets := [], effects := [] }
  match env.listNetworks with
  | .error _ => (st, some .listNetworks)
  | .ok networks =>
    if networks.length = 0 then (st, some .noNetworks)
    else
      match initLoop env st networks with
      | (st1, some e) => (st1, some e)
      | (st1, none) =>
        (st1.emit (.ensureIsolation st1.networks),
          if env.isolationFails then some .isolation else none)

/-- The requests startHeartbeaters sends at its first ticks: one heartbeat per
lease the client holds after Init, each ticking at the times `ticks`. -/
def heartbeatsAfterInit (st : ClientState) (ticks : List Int) : List (List StoreOp) :=
  st.subnets.map (fun cfg => heartbeatWrites cfg ticks)

/-! ## Watching subnets (`store/nvar/nvar.go`) -/

/-- The stub of a variable in a listing of the store. -/
structure VariableMetadata where
  Path : String
  ModifyIndex : Nat
  deriving DecidableEq, Repr

/-- What WatchSubnets sends on its channels: an error on ErrorCh, a batch on
DeleteCh, a batch on ModifyCh. -/
inductive WatchEvent where
  | listError
  | readError (path : String)
  | parseError (path : String)
  | delete (subnets : List Subnet)
  | modify (subnets : List Subnet)
  deriving DecidableEq, Repr

/-- The function parseClientSubnetConfig: the item `data` of the variable is
decoded; `decode` is the JSON decoding of a Subnet. -/
def parseClientSubnetConfig (decode : String → Option Subnet)
    (items : List (String × String)) : Option Subnet :=
  match items.lookup "data" with
  | none => none
  | some configJSON => decode configJSON

/-- The accumulators of one poll: the two batches under construction and the
events sent so far. -/
structure PollAcc where
  modifiedConfigs : List Subnet
  expiredConfigs : List Subnet
  sent : List WatchEvent
  deriving DecidableEq, Repr

/-- The body of the loop of WatchSubnets over the listed variables, for one
stub; `read` is the outcome of reading a variable by its path. -/
def pollVariable (read : String → Except String (List (String × String)))
    (decode : String → Option Subnet) (waitIndex : Nat) (acc : PollAcc)
    (varStub : VariableMetadata) : PollAcc :=
  if varStub.ModifyIndex < waitIndex then acc
  else
    match read varStub.Path with
    | .error _ => { acc with sent := acc.sent ++ [.readError varStub.Path] }
    | .ok items =>
      match parseClientSubnetConfig decode items with
      | none => { acc with sent := acc.sent ++ [.parseError varStub.Path] }
      | some clientConfig =>
        if clientConfig.Expired then
          { acc with expiredConfigs := acc.expiredConfigs ++ [clientConfig] }
        else
          { acc with modifiedConfigs := acc.modifiedConfigs ++ [clientConfig] }

/-- One iteration of the loop of WatchSubnets, for a context that is not
cancelled and receivers that take every event: from the wait index and the
outcome of the listing (the stubs and the last index of the query) to the
events sent and the wait index of the next iteration. -/
def watchPoll (read : String → Except String (List (String × String)))
    (decode : String → Option Subnet) (waitIndex : Nat)
    (listing : Except String (List VariableMetadata × Nat)) : List WatchEvent × Nat :=
  match listing with
  | .error _ => ([.listError], waitIndex)
  | .ok (varList, lastIndex) =>
    if lastIndex ≤ waitIndex then ([], waitIndex)
    else
      let acc := varList.foldl (pollVariable read decode waitIndex)
        { modifiedConfigs := [], expiredConfigs := [], sent := [] }
      let sent1 :=
        if acc.expiredConfigs.length > 0 then acc.sent ++ [.delete acc.expiredConfigs]
        else acc.sent
      let sent2 :=
        if acc.modifiedConfigs.length > 0 then sent1 ++ [.modify acc.modifiedConfigs]
        else sent1
      (sent2, lastIndex)

/-! ## Predicates used to state the properties -/

/-- A lease `s` marks address `x` as used in network `name`. -/
def Marks (name : String) (s : Subnet) (x : Nat) : Prop :=
  s.NetworkName = name ∧ ∃ net, s.IPv4Network = some net ∧ net.IP = x

/-- The address `ip` is a candidate block of the configuration: it has the form
`min + k * blockSize` and does not exceed `max`. -/
def IsCandidate (v4 : IPv4Config) (ip : Nat) : Prop :=
  ∃ k, ip = v4.Min + k * blockSize v4.Size ∧ ip ≤ v4.Max

/-- What both searches guarantee of a block address they hand to
createSubnet. -/
structure Found (v4 : IPv4Config) (used : List Nat) (ip : Nat) : Prop where
  le_max : ip ≤ v4.Max
  unused : ip ∉ used
  aligned : ip % blockSize v4.Size = v4.Min % blockSize v4.Size
  candidate : v4.Min ≤ v4.Max → IsCandidate v4 ip

/-- The event is a batch sent on DeleteCh or ModifyCh. -/
def WatchEvent.isBatch : WatchEvent → Bool
  | .delete _ => true
  | .modify _ => true
  | _ => false

/-- The leases of a listing that a poll with wait index `waitIndex` is
described to deliver: those of the variables with a modify index of at least
`waitIndex` that are read and parsed successfully, in listing order. -/
def readAndParsed (read : String → Except String (List (String × String)))
    (decode : String → Option Subnet) (waitIndex : Nat)
    (varList : List VariableMetadata) : List Subnet :=
  (varList.filter (fun v => decide (waitIndex ≤ v.ModifyIndex))).filterMap
    (fun v => match read v.Path with
      | .error _ => none
      | .ok items => parseClientSubnetConfig decode items)

/-! ## Sample inputs -/

/-- The address `a.b.c.d` as a `uint32`. -/
def dotted (a b c d : Nat) : Nat := a * 2 ^ 24 + b * 2 ^ 16 + c * 2 ^ 8 + d

/-- A host fingerprint: underlay address 192.168.1.10, interface MTU 1500. -/
def hostA : Manager := { ipv4Addr := dotted 192 168 1 10, ifaceMTU := 1500 }

/-- The provider section of the sample networks. -/
def vxlanProvider : ProviderConfig :=
  { Name := "vxlan", Config := some (.object (some 1) (some 4789) none none) }

/-- A network named `name` inside 10.10.0.0/16 with the given range and block
length. -/
def sampleNetwork (name : String) (mn mx size : Nat) : Network :=
  { Name := name
    IPMasq := some true
    IPv4 := some { Network := some { IP := dotted 10 10 0 0, Size := 16 }
                   Min := mn, Max := mx, Size := size }
    Provider := some vxlanProvider }

/-- A stored lease of host `id` in network `name` holding the block `ip/size`. -/
def sampleLease (id name : String) (ip size : Nat) : Subnet :=
  { ClientID := id, NetworkName := name, Provider := "vxlan"
    HostIPv4 := some (dotted 192 168 1 20)
    Config := some (.object (some 1) (some 4789) (some 1450) (some "aa:bb:cc:dd:ee:01"))
    Expiration := 1000, Expired := false
    IPv4Network := some { IP := ip, Size := size }, MTU := 1450 }

/-- A stored lease of host `b`, marked expired, with the expiration 1000. -/
def markedLease : Subnet := { sampleLease "b" "v" (dotted 10 10 2 0) 24 with Expired := true }

/-- A stored lease of host `c`, marked expired, with the expiration 1800. -/
def graceLease : Subnet :=
  { sampleLease "c" "v" (dotted 10 10 3 0) 24 with Expired := true, Expiration := 1800 }

/-- A stored lease of host `d` with the expiration 5000. -/
def liveLease : Subnet := { sampleLease "d" "v" (dotted 10 10 4 0) 24 with Expiration := 5000 }

/-- A network whose `max` (10.10.1.0) lies one block below its `min`
(10.10.2.0). -/
def reversedByOne : Network :=
  sampleNetwork "v" (dotted 10 10 2 0) (dotted 10 10 1 0) 24

/-- A network whose `max` (10.10.0.0) lies two blocks below its `min`
(10.10.2.0). -/
def reversedByTwo : Network :=
  sampleNetwork "v" (dotted 10 10 2 0) (dotted 10 10 0 0) 24

/-- The network 0.0.0.0/0 carved into single addresses, as Canonicalize leaves
it: `min` is 0.0.0.1 and `max` is 255.255.255.254. -/
def wholeSpace : Network :=
  { Name := "w"
    IPMasq := some true
    IPv4 := some { Network := some { IP := 0, Size := 0 }
                   Min := 1, Max := 2 ^ 32 - 2, Size := 32 }
    Provider := some vxlanProvider }

/-- The network 0.0.0.0/0 carved into single addresses with no `min` or `max`,
as an operator stores it. -/
def wholeSpaceStored : Network :=
  { Name := "w"
    IPMasq := some true
    IPv4 := some { Network := some { IP := 0, Size := 0 }, Min := 0, Max := 0, Size := 32 }
    Provider := some vxlanProvider }

/-- The random generator that always yields the raw value 0. -/
def zeroDraws : Nat → Nat := fun _ => 0

/-- A network with the range 10.10.1.0 to 10.10.254.255 of 254 blocks of
length 24. -/
def rangedNetwork : Network :=
  sampleNetwork "v" (dotted 10 10 1 0) (dotted 10 10 254 255) 24

/-- The ipv4 section of `rangedNetwork`. -/
def rangedV4 : IPv4Config :=
  { Network := some { IP := dotted 10 10 0 0, Size := 16 }
    Min := dotted 10 10 1 0, Max := dotted 10 10 254 255, Size := 24 }

/-- The lease createSubnet builds on `hostA` at time 0 in network `name` for
the block `ip/24`. -/
def freshLease (name : String) (ip : Nat) : Subnet :=
  { ClientID := "h", NetworkName := name, Provider := "vxlan"
    HostIPv4 := some (dotted 192 168 1 10)
    Config := some (.object (some 1) (some 4789) none none)
    Expiration := DefaultSubnetTTL, Expired := false
    IPv4Network := some { IP := ip, Size := 24 }, MTU := 1450 }

/-- The ipv4 section of `wholeSpace`. -/
def wholeSpaceV4 : IPv4Config :=
  { Network := some { IP := 0, Size := 0 }, Min := 1, Max := 2 ^ 32 - 2, Size := 32 }

/-- A network with the five blocks 10.10.1.0/24 to 10.10.5.0/24. -/
def fiveBlocks : Network :=
  sampleNetwork "v" (dotted 10 10 1 0) (dotted 10 10 5 255) 24

/-- The ipv4 section of `fiveBlocks`. -/
def fiveBlocksV4 : IPv4Config :=
  { Network := some { IP := dotted 10 10 0 0, Size := 16 }
    Min := dotted 10 10 1 0, Max := dotted 10 10 5 255, Size := 24 }

/-- Four leases of `fiveBlocks`: every block but 10.10.4.0/24. -/
def fourLeases : List Subnet :=
  [sampleLease "a" "v" (dotted 10 10 1 0) 24, sampleLease "b" "v" (dotted 10 10 2 0) 24,
   sampleLease "c" "v" (dotted 10 10 5 0) 24, sampleLease "d" "v" (dotted 10 10 3 0) 24]

/-- The network 10.10.0.0/16 with blocks of length 24 and no `min` or `max`,
as an operator stores it. -/
def unsetRange : Network := sampleNetwork "v" 0 0 24

/-- The ipv4 section of `unsetRange`. -/
def unsetRangeV4 : IPv4Config :=
  { Network := some { IP := dotted 10 10 0 0, Size := 16 }, Min := 0, Max := 0, Size := 24 }

/-- Eight hours, the period of the heartbeat, in nanoseconds. -/
def eightHours : Int := 8 * 3600 * 1000000000

/-- The address the kernel gives the tunnel interface in the sample
bootstrap. -/
def sampleMAC : String := "aa:bb:cc:00:00:01"

/-- A bootstrap of host `h` with the single network 10.10.0.0/16 (blocks of
length 24, no `min` or `max`), an empty lease store, random index 5 and
collaborators that all succeed. -/
def sampleEnv : ClientEnv :=
  { id := "h"
    manager := hostA
    listNetworks := .ok [unsetRange]
    getSubnet := fun _ => .ok none
    listSubnets := fun _ => .ok []
    clock := fun _ => 0
    draws := fun _ _ => 5
    link := fun _ => .ok sampleMAC
    setSubnetFails := fun _ => false
    cniSetFails := fun _ => false
    masqRulesFail := fun _ => false
    forwardRulesFail := fun _ => false
    isolationFails := false }

/-- The lease SetLocal returns for `freshLease "v" 10.10.6.0` in the sample
bootstrap: its configuration carries the address of the tunnel interface. -/
def enrichedLease : Subnet :=
  { freshLease "v" (dotted 10 10 6 0) with
    Config := some (.object (some 1) (some 4789) (some 1450) (some sampleMAC)) }

/-! ## Peer dispatch (`agent/client/subnet.go`) -/

/-- What the peer dispatcher does for one subnet of a batch: a call of
SetRemote or DeleteRemote on the network manager, with whether the call
returned an error (which is only logged), or the skipped delete of the host
itself. -/
inductive DispatchEvent where
  | setRemote (subnet : Subnet) (failed : Bool)
  | deleteRemote (subnet : Subnet) (failed : Bool)
  | localDeleteSkipped (subnet : Subnet)
  deriving DecidableEq, Repr

/-- Manager.SetRemote and Manager.DeleteRemote: the provider is looked up by
the name the subnet carries, an unknown name is an error, otherwise the answer
is the one of the provider, which `providerFails` gives. -/
def managerRemoteFails (providerFails : Subnet → Bool) (subnet : Subnet) : Bool :=
  if subnet.Provider = "vxlan" then providerFails subnet else true

/-- Client.handleSubnetSet for the host `self`. -/
def handleSubnetSet (self : String) (providerFails : Subnet → Bool) :
    List Subnet → List DispatchEvent
  | [] => []
  | subnet :: rest =>
    if subnet.ClientID = self then handleSubnetSet self providerFails rest
    else
      .setRemote subnet (managerRemoteFails providerFails subnet) ::
        handleSubnetSet self providerFails rest

/-- Client.handleSubnetDelete for the host `self`. -/
def handleSubnetDelete (self : String) (providerFails : Subnet → Bool) :
    List Subnet → List DispatchEvent
  | [] => []
  | subnet :: rest =>
    if subnet.ClientID = self then
      .localDeleteSkipped subnet :: handleSubnetDelete self providerFails rest
    else
      .deleteRemote subnet (managerRemoteFails providerFails subnet) ::
        handleSubnetDelete self providerFails rest

/-- The subnet of a call of SetRemote. -/
def DispatchEvent.setTarget : DispatchEvent → Option Subnet
  | .setRemote subnet _ => some subnet
  | _ => none

/-- The subnet of a call of DeleteRemote. -/
def DispatchEvent.deleteTarget : DispatchEvent → Option Subnet
  | .deleteRemote subnet _ => some subnet
  | _ => none

/-- The address `x` belongs to the block of the network `n`: it is a 32-bit
address that agrees with the address of `n` on the leading `n.Size` bits. -/
def InBlock (n : IPv4Net) (x : Nat) : Prop :=
  x < 2 ^ 32 ∧ x / 2 ^ (32 - n.Size) = n.IP / 2 ^ (32 - n.Size)

/-- A batch of three leases of network `v`, the second one of host `h`. -/
def sampleBatch : List Subnet :=
  [sampleLease "p" "v" (dotted 10 10 5 0) 24, sampleLease "h" "v" (dotted 10 10 6 0) 24,
   sampleLease "q" "v" (dotted 10 10 7 0) 24]

/-! ## Textual forms of addresses (`types/ipv4.go`)

The functions of `types/ipv4.go` that format and parse addresses, together with
the functions of Go's `net`, `net/netip` and `fmt` packages they call. Strings
are lists of characters; the parser of the IPv6 textual forms is not modelled:
it is the parameter `v6`, which gives the 16 bytes of the address for a text
that is a valid IPv6 address without zone, and `none` otherwise. -/

/-- The quotation mark. -/
def quoteChar : Char := Char.ofNat 34

/-- The decimal form of an unsigned number, as `%d` and the octets of
IP.String print it. -/
def decimal (n : Nat) : List Char := Nat.toDigits 10 n

/-- IPv4Addr.octets: `byte(i>>24), byte(i>>16), byte(i>>8), byte(i)`. -/
def octets (i : Nat) : List Nat :=
  [(i >>> 24) % 256, (i >>> 16) % 256, (i >>> 8) % 256, i % 256]

/-- The dotted decimal form of four bytes, as IP.String prints an IPv4
address. -/
def dottedChars : List Nat → List Char
  | [] => []
  | [b] => decimal b
  | b :: rest => decimal b ++ '.' :: dottedChars rest

/-- IPv4Addr.String: `i.ToNetIP().String()`. -/
def IPv4AddrString (i : Nat) : String := String.mk (dottedChars (octets i))

/-- IPv4Net.String: `fmt.Sprintf("%s/%d", i.IP.String(), i.Size)`. -/
def IPv4NetString (n : IPv4Net) : String :=
  String.mk (dottedChars (octets n.IP) ++ '/' :: decimal n.Size)

/-- IPv4Net.MarshalJSON: the string form between quotation marks. -/
def IPv4Net.MarshalJSON (n : IPv4Net) : String :=
  String.mk (quoteChar :: ((IPv4NetString n).data ++ [quoteChar]))

/-- The call `bytes.Trim(data, "\"")`: the quotation marks at both ends are
removed. -/
def trimQuotes (data : List Char) : List Char :=
  ((data.dropWhile (fun c => c == quoteChar)).reverse.dropWhile
    (fun c => c == quoteChar)).reverse

/-- The loop of netip's parseIPv4Fields over the characters left, with the
value and the number of digits of the current field, the fields completed,
the index of the current character and whether the previous character was a
dot. The result is the four fields, or `none` for an error. -/
def parseIPv4Fields : List Char → Nat → Nat → List Nat → Nat → Bool → Option (List Nat)
  | [], val, _, fields, _, _ =>
    if fields.length < 3 then none else some (fields ++ [val % 256])
  | c :: rest, val, digLen, fields, i, prevDot =>
    if c.isDigit then
      if digLen = 1 ∧ val = 0 then none
      else if val * 10 + (c.toNat - 48) > 255 then none
      else parseIPv4Fields rest (val * 10 + (c.toNat - 48)) (digLen + 1) fields (i + 1) false
    else if c = '.' then
      if i = 0 ∨ rest = [] ∨ prevDot = true then none
      else if fields.length = 3 then none
      else parseIPv4Fields rest 0 0 (fields ++ [val % 256]) (i + 1) true
    else none

/-- An address as netip.ParseAddr returns it: the four bytes of an IPv4
address, or the sixteen bytes of an IPv6 address. -/
inductive Addr where
  | v4 (bytes : List Nat)
  | v6 (bytes : List Nat)
  deriving DecidableEq, Repr

/-- The function netip.ParseAddr for a text without zone: the first of the
characters `.`, `:` and `%` decides the form. -/
def parseAddr (v6 : String → Option (List Nat)) (s : List Char) : Option Addr :=
  match s.find? (fun c => c == '.' || c == ':' || c == '%') with
  | none => none
  | some c =>
    if c = '.' then (parseIPv4Fields s 0 0 [] 0 false).map Addr.v4
    else if c = ':' then (v6 (String.mk s)).map Addr.v6
    else none

/-- Addr.As16: an IPv4 address in its IPv4-mapped form. -/
def Addr.as16 : Addr → List Nat
  | .v4 bytes => [0, 0, 0, 0, 0, 0, 0, 0, 0, 0, 255, 255] ++ bytes
  | .v6 bytes => bytes

/-- Addr.BitLen. -/
def Addr.bitLen : Addr → Nat
  | .v4 _ => 32
  | .v6 _ => 128

/-- The function net.ParseIP: the 16 bytes of the address, `none` for nil. -/
def ParseIP (v6 : String → Option (List Nat)) (s : String) : Option (List Nat) :=
  (parseAddr v6 s.data).map Addr.as16

/-- The loop of dtoi of package net over a text that must consist of digits
only: the number read so far is `n`; a number of `0xFFFFFF` or more is an
error. -/
def dtoiLoop : List Char → Nat → Option Nat
  | [], n => some n
  | c :: rest, n =>
    if c.isDigit then
      if n * 10 + (c.toNat - 48) ≥ 0xFFFFFF then none
      else dtoiLoop rest (n * 10 + (c.toNat - 48))
    else none

/-- The use ParseCIDR makes of dtoi: the whole text must be a number. -/
def dtoi (s : List Char) : Option Nat :=
  if s = [] then none else dtoiLoop s 0

/-- The function net.CIDRMask for `ones` leading one bits in `len` bytes. -/
def cidrMask : Nat → Nat → List Nat
  | _, 0 => []
  | ones, len + 1 =>
    if ones ≥ 8 then 0xff :: cidrMask (ones - 8) len
    else (0xff - (0xff >>> ones)) :: cidrMask 0 len

/-- The inner loop of simpleMaskLength: the leading one bits of the byte `v`,
counted in at most `fuel` steps, with what is left of the byte. -/
def leadingOnes : Nat → Nat → Nat × Nat
  | 0, v => (0, v)
  | fuel + 1, v =>
    if v &&& 0x80 ≠ 0 then
      ((leadingOnes fuel ((v <<< 1) % 256)).1 + 1, (leadingOnes fuel ((v <<< 1) % 256)).2)
    else (0, v)

/-- The function simpleMaskLength: the number of leading one bits of a mask
made of ones followed by zeros, `none` for any other mask. -/
def simpleMaskLength : List Nat → Option Nat
  | [] => some 0
  | v :: rest =>
    if v = 0xff then (simpleMaskLength rest).map (fun n => n + 8)
    else if (leadingOnes 8 v).2 ≠ 0 then none
    else if rest.all (fun b => b == 0) then some (leadingOnes 8 v).1
    else none

/-- The first result of IPMask.Size: zero for a mask that is not canonical. -/
def maskSize (mask : List Nat) : Nat := (simpleMaskLength mask).getD 0

/-- IPNet of package net. -/
structure IPNet where
  IP : List Nat
  Mask : List Nat
  deriving DecidableEq, Repr

/-- The text before and after the first `/`. -/
def splitAtSlash : List Char → Option (List Char × List Char)
  | [] => none
  | c :: rest =>
    if c = '/' then some ([], rest)
    else (splitAtSlash rest).map (fun p => (c :: p.1, p.2))

/-- The function net.ParseCIDR, second result: the network of the address,
its host bits cleared by the mask; `none` for an error. -/
def ParseCIDR (v6 : String → Option (List Nat)) (s : List Char) : Option IPNet :=
  match splitAtSlash s with
  | none => none
  | some (addr, mask) =>
    match parseAddr v6 addr with
    | none => none
    | some ipAddr =>
      match dtoi mask with
      | none => none
      | some n =>
        if n > ipAddr.bitLen then none
        else
          let m := cidrMask n (ipAddr.bitLen / 8)
          let ip := match ipAddr with
            | .v4 bytes => bytes
            | .v6 bytes => bytes
          some { IP := List.zipWith (fun a b => a &&& b) ip m, Mask := m }

/-- IP.To4 of package net: the four bytes of an IPv4 address or of an
IPv4-mapped one, `none` for nil. -/
def To4 (ip : List Nat) : Option (List Nat) :=
  if ip.length = 4 then some ip
  else if ip.length = 16 ∧ (ip.take 10).all (fun b => b == 0) ∧
      ip.get? 10 = some 0xff ∧ ip.get? 11 = some 0xff then
    some (ip.drop 12)
  else none

/-- The ways the parsers of `types/ipv4.go` end without a value: the returned
error, and their two panics. -/
inductive ParseFault where
  | malformed
  | indexOutOfRange
  | unexpectedAddressType
  deriving DecidableEq, Repr

/-- The function fromBytes on a slice of four bytes. -/
def fromBytes (ip : List Nat) : Nat :=
  ip.getD 3 0 ||| (ip.getD 2 0 <<< 8) ||| (ip.getD 1 0 <<< 16) ||| (ip.getD 0 0 <<< 24)

/-- The function fromIP: it panics on an address that is not IPv4. -/
def fromIP (ip : List Nat) : Except ParseFault Nat :=
  match To4 ip with
  | none => .error .unexpectedAddressType
  | some ipv4 => .ok (fromBytes ipv4)

/-- The function fromIPNet. -/
def fromIPNet (n : IPNet) : Except ParseFault IPv4Net :=
  match fromIP n.IP with
  | .error e => .error e
  | .ok ip => .ok { IP := ip, Size := maskSize n.Mask }

/-- IPv4Net.UnmarshalJSON. -/
def IPv4Net.UnmarshalJSON (v6 : String → Option (List Nat)) (data : String) :
    Except ParseFault IPv4Net :=
  match ParseCIDR v6 (trimQuotes data.data) with
  | none => .error .malformed
  | some val => fromIPNet val

/-- The function parseIPv4Addr: the bytes `To4` returns are indexed without a
check for nil. -/
def parseIPv4Addr (v6 : String → Option (List Nat)) (ip : String) : Except ParseFault Nat :=
  match ParseIP v6 ip with
  | none => .error .malformed
  | some parsedIP =>
    match To4 parsedIP with
    | none => .error .indexOutOfRange
    | some ipBytes => .ok (fromBytes ipBytes)

/-- IPv4Addr.UnmarshalJSON. -/
def IPv4AddrUnmarshalJSON (v6 : String → Option (List Nat)) (j : String) :
    Except ParseFault Nat :=
  parseIPv4Addr v6 (String.mk (trimQuotes j.data))

/-! ## CNI configuration (`types/cni.go`) -/

/-- IPv4CNIConfig of `types/cni.go`. -/
structure IPv4CNIConfig where
  Network : String
  Subnet : String
  Gateway : String
  deriving DecidableEq, Repr

/-- CNIConfig of `types/cni.go`. -/
structure CNIConfig where
  Name : String
  Bridge : String
  MTU : Int
  IPMasq : Bool
  IPv4 : Option IPv4CNIConfig
  deriving DecidableEq, Repr

/-- GenerateCNIConfig; a nil `ipmasq`, ipv4 section, supernet or block is
dereferenced. -/
def GenerateCNIConfig (network : Network) (subnet : Subnet) : Except Panic CNIConfig :=
  match network.IPMasq, network.IPv4.bind (fun v4 => v4.Network), subnet.IPv4Network with
  | some masq, some supernet, some block =>
    .ok { Name := network.Name
          Bridge := network.Name ++ "brd0"
          MTU := subnet.MTU
          IPMasq := !masq
          IPv4 := some { Network := IPv4NetString supernet
                         Subnet := IPv4NetString block.NextAddr
                         Gateway := IPv4AddrString block.NextAddr.IP } }
  | _, _, _ => .error .nilDereference

/-- The answers of the IPv6 parser on the two IPv6 texts used below: the
loopback address `::1` and the documentation network `2001:db8::`. -/
def sampleV6 : String → Option (List Nat) := fun s =>
  if s = "::1" then some [0, 0, 0, 0, 0, 0, 0, 0, 0, 0, 0, 0, 0, 0, 0, 1]
  else if s = "2001:db8::" then some [0x20, 0x01, 0x0d, 0xb8, 0, 0, 0, 0, 0, 0, 0, 0, 0, 0, 0, 0]
  else none

/-- The digit steps of parseIPv4Fields over the digits of one field: the value
and the number of digits reached, `none` for an error. -/
def digitRun : List Char → Nat → Nat → Option (Nat × Nat)
  | [], val, digLen => some (val, digLen)
  | c :: rest, val, digLen =>
    if digLen = 1 ∧ val = 0 then none
    else if val * 10 + (c.toNat - 48) > 255 then none
    else digitRun rest (val * 10 + (c.toNat - 48)) (digLen + 1)

/-- The characters of a formatted network: digits, dots and the slash. -/
def plainChar (c : Char) : Bool := c.isDigit || c == '.' || c == '/'

/-- A byte of a mask with `k` leading one bits. -/
def maskByte (k : Nat) : Nat := 0xff - (0xff >>> k)

/-! ## Packet filter (`network/firewall/iptables`)

The rule tables are a map from a table and a chain to the rules of the chain,
in order, `none` for a chain that does not exist; a rule is its specification.
The operations of the iptables library act on it as the `iptables` command
does: a rule exists when its specification is in the chain, Append adds at the
end, Insert adds at a position counted from 1, Delete removes the first rule
with the specification. Every call of the library can also fail for a reason of
the operating system (the lock of the tables is held, the permission is
missing, the command cannot be run); whether it does is a parameter. -/

/-- The rule tables. -/
abbrev Tables := String → String → Option (List (List String))

/-- The tables with the chain `chain` of `table` replaced. -/
def Tables.set (st : Tables) (table chain : String) (rules : List (List String)) : Tables :=
  fun t c => if t = table ∧ c = chain then some rules else st t c

/-- The type rule of `rule.go`. -/
structure Rule where
  id : String
  table : String
  chain : String
  spec : List String
  deriving DecidableEq, Repr

/-- The constant natTableName. -/
def natTableName : String := "nat"

/-- The constant smugglePostroutingChainName. -/
def smugglePostroutingChainName : String := "SMUGGLE-POSTROUTING"

/-- The constant smuggleForwardChainName. -/
def smuggleForwardChainName : String := "SMUGGLE-FORWARD"

/-- The constant postroutingChainName. -/
def postroutingChainName : String := "POSTROUTING"

/-- The constant forwardChainName. -/
def forwardChainName : String := "FORWARD"

/-- A call of the iptables library. -/
inductive IptCall where
  | listChains (table : String)
  | newChain (table chain : String)
  | ruleExists (table chain : String) (spec : List String)
  | append (table chain : String) (spec : List String)
  | insert (table chain : String) (pos : Nat) (spec : List String)
  | delete (table chain : String) (spec : List String)
  deriving DecidableEq, Repr

/-- What the operating system answers to the calls of the library: whether a
call fails for a reason of its own, given the tables at the time of the call
and the call. -/
structure IptEnv where
  fails : Tables → IptCall → Bool

/-- An operating system on which no call fails for a reason of its own. -/
def noFailure : IptEnv := { fails := fun _ _ => false }

/-- The chain holds a rule with the specification; a missing chain holds no
rule. -/
def Tables.has (st : Tables) (table chain : String) (spec : List String) : Bool :=
  match st table chain with
  | none => false
  | some rules => decide (spec ∈ rules)

/-- The rule is added at the end of the chain; `none` when the chain does not
exist. -/
def Tables.append (st : Tables) (table chain : String) (spec : List String) : Option Tables :=
  match st table chain with
  | none => none
  | some rules => some (st.set table chain (rules ++ [spec]))

/-- The rule is added at position `pos` of the chain, counted from 1; `none`
when the chain does not exist or the position is beyond its end. -/
def Tables.insertAt (st : Tables) (table chain : String) (pos : Nat) (spec : List String) :
    Option Tables :=
  match st table chain with
  | none => none
  | some rules =>
    if 1 ≤ pos ∧ pos ≤ rules.length + 1 then
      some (st.set table chain (rules.take (pos - 1) ++ spec :: rules.drop (pos - 1)))
    else none

/-- The first rule with the specification is removed from the chain; `none`
when the chain does not exist or holds no such rule. -/
def Tables.delete (st : Tables) (table chain : String) (spec : List String) : Option Tables :=
  match st table chain with
  | none => none
  | some rules =>
    if spec ∈ rules then some (st.set table chain (rules.erase spec)) else none

/-- The chain is created empty; `none` when it exists. -/
def Tables.newChain (st : Tables) (table chain : String) : Option Tables :=
  match st table chain with
  | some _ => none
  | none => some (st.set table chain [])

/-- The call ListChains of the library followed by the search of `chain` in
its answer; `none` is the error of the call. -/
def iptListChains (env : IptEnv) (st : Tables) (table chain : String) : Option Bool :=
  if env.fails st (.listChains table) then none else some (st table chain).isSome

/-- The call Exists of the library; `none` is its error. -/
def iptExists (env : IptEnv) (st : Tables) (table chain : String) (spec : List String) :
    Option Bool :=
  if env.fails st (.ruleExists table chain spec) then none else some (st.has table chain spec)

/-- The call Append of the library; `none` is its error. -/
def iptAppend (env : IptEnv) (st : Tables) (table chain : String) (spec : List String) :
    Option Tables :=
  if env.fails st (.append table chain spec) then none else st.append table chain spec

/-- The call Insert of the library at position `pos`, counted from 1; `none`
is its error. -/
def iptInsert (env : IptEnv) (st : Tables) (table chain : String) (pos : Nat)
    (spec : List String) : Option Tables :=
  if env.fails st (.insert table chain pos spec) then none
  else st.insertAt table chain pos spec

/-- The call Delete of the library: the first rule with the specification is
removed; `none` is its error. -/
def iptDelete (env : IptEnv) (st : Tables) (table chain : String) (spec : List String) :
    Option Tables :=
  if env.fails st (.delete table chain spec) then none else st.delete table chain spec

/-- The call NewChain of the library; `none` is its error. -/
def iptNewChain (env : IptEnv) (st : Tables) (table chain : String) : Option Tables :=
  if env.fails st (.newChain table chain) then none else st.newChain table chain

/-- The errors of the firewall manager, and its panics. -/
inductive FirewallError where
  | ensureChain
  | applyRule
  | jumpRule
  | isolationRule
  | panic (p : Panic)
  deriving DecidableEq, Repr

/-- Manager.ensureChain: the chains are listed and the chain is created unless
it is listed. -/
def ensureChain (env : IptEnv) (st : Tables) (table chain : String) :
    Except FirewallError Tables :=
  match iptListChains env st table chain with
  | none => .error .ensureChain
  | some true => .ok st
  | some false =>
    match iptNewChain env st table chain with
    | none => .error .ensureChain
    | some st1 => .ok st1

/-- Manager.applyRule: the rule is appended unless it exists. -/
def applyRule (env : IptEnv) (st : Tables) (rule : Rule) : Except FirewallError Tables :=
  match iptExists env st rule.table rule.chain rule.spec with
  | none => .error .applyRule
  | some true => .ok st
  | some false =>
    match iptAppend env st rule.table rule.chain rule.spec with
    | none => .error .applyRule
    | some st1 => .ok st1

/-- A loop that applies rules in order and returns at the first error. -/
def applyRules (env : IptEnv) (st : Tables) : List Rule → Except FirewallError Tables
  | [] => .ok st
  | rule :: rest =>
    match applyRule env st rule with
    | .error e => .error e
    | .ok st1 => applyRules env st1 rest

/-- Manager.masqRules; `randomFully` is the answer of HasRandomFully. -/
def masqRules (randomFully : Bool) (network subnet : IPv4Net) : List Rule :=
  [ { id := "jump-to-smuggle-chain", table := natTableName, chain := postroutingChainName
      spec := ["-m", "comment", "--comment", "smuggle masq", "-j",
        smugglePostroutingChainName] },
    if randomFully then
      { id := "masquerade-to-external-random-fully", table := natTableName
        chain := smugglePostroutingChainName
        spec := ["-s", IPv4NetString subnet, "!", "-d", IPv4NetString network, "-m", "comment",
          "--comment", "smuggle masq", "-j", "MASQUERADE", "--random-fully"] }
    else
      { id := "masquerade-to-external", table := natTableName
        chain := smugglePostroutingChainName
        spec := ["-s", IPv4NetString subnet, "!", "-d", IPv4NetString network, "-m", "comment",
          "--comment", "smuggle masq", "-j", "MASQUERADE"] } ]

/-- Manager.SetupMasqRules. -/
def SetupMasqRules (env : IptEnv) (randomFully : Bool) (st : Tables) (network : Network)
    (subnet : Subnet) : Except FirewallError Tables :=
  match network.IPv4.bind (fun v4 => v4.Network), subnet.IPv4Network with
  | some ipv4Network, some ipv4Subnet =>
    match ensureChain env st natTableName smugglePostroutingChainName with
    | .error e => .error e
    | .ok st1 => applyRules env st1 (masqRules randomFully ipv4Network ipv4Subnet)
  | _, _ => .error (.panic .nilDereference)

/-- The specification of the jump from a chain to `targetChain`. -/
def jumpSpec (targetChain : String) : List String :=
  ["-m", "comment", "--comment", "smuggle forward", "-j", targetChain]

/-- Manager.forwardRules. -/
def forwardRules (networkCIDR bridgeInterface networkInterface : String) : List Rule :=
  [ { id := "jump-to-forward-chain", table := "filter", chain := forwardChainName
      spec := ["-m", "comment", "--comment", "smuggle forward", "-j",
        smuggleForwardChainName] },
    { id := "accept-established-related", table := "filter", chain := smuggleForwardChainName
      spec := ["-m", "conntrack", "--ctstate", "RELATED,ESTABLISHED", "-m", "comment",
        "--comment", "smuggle forward established", "-j", "ACCEPT"] },
    { id := "accept-forward-from-bridge-to-external", table := "filter"
      chain := smuggleForwardChainName
      spec := ["-i", bridgeInterface, "-s", networkCIDR, "!", "-d", networkCIDR, "-m",
        "comment", "--comment", "smuggle forward to external", "-j", "ACCEPT"] },
    { id := "accept-forward-to-bridge-from-external", table := "filter"
      chain := smuggleForwardChainName
      spec := ["-o", bridgeInterface, "-d", networkCIDR, "!", "-s", networkCIDR, "-m",
        "comment", "--comment", "smuggle forward from external", "-j", "ACCEPT"] },
    { id := "accept-forward-within-network-local", table := "filter"
      chain := smuggleForwardChainName
      spec := ["-i", bridgeInterface, "-o", bridgeInterface, "-s", networkCIDR, "-d",
        networkCIDR, "-m", "comment", "--comment", "smuggle forward intra-network local",
        "-j", "ACCEPT"] },
    { id := "accept-forward-bridge-to-vxlan", table := "filter"
      chain := smuggleForwardChainName
      spec := ["-i", bridgeInterface, "-o", networkInterface, "-s", networkCIDR, "-d",
        networkCIDR, "-m", "comment", "--comment", "smuggle forward bridge to vxlan", "-j",
        "ACCEPT"] },
    { id := "accept-forward-smuggle-to-bridge", table := "filter"
      chain := smuggleForwardChainName
      spec := ["-i", networkInterface, "-o", bridgeInterface, "-s", networkCIDR, "-d",
        networkCIDR, "-m", "comment", "--comment", "smuggle forward vxlan to bridge", "-j",
        "ACCEPT"] } ]

/-- Manager.ensureJumpRuleFirst: an existing jump is deleted, a failed delete
being only logged, then the jump is inserted at position 1. -/
def ensureJumpRuleFirst (env : IptEnv) (st : Tables) (table chain targetChain : String) :
    Except FirewallError Tables :=
  match iptExists env st table chain (jumpSpec targetChain) with
  | none => .error .jumpRule
  | some found =>
    let st1 :=
      if found then
        match iptDelete env st table chain (jumpSpec targetChain) with
        | none => st
        | some deleted => deleted
      else st
    match iptInsert env st1 table chain 1 (jumpSpec targetChain) with
    | none => .error .jumpRule
    | some st2 => .ok st2

/-- Network.InterfaceName. -/
def Network.InterfaceName (n : Network) : String := n.Name ++ "0"

/-- Network.BridgeInterfaceName. -/
def Network.BridgeInterfaceName (n : Network) : String := n.Name ++ "brd0"

/-- Manager.SetupForwardRules: the rules of the custom chain are applied, the
jump rule being skipped, then the jump is made the first rule of FORWARD. -/
def SetupForwardRules (env : IptEnv) (st : Tables) (network : Network) :
    Except FirewallError Tables :=
  match network.IPv4.bind (fun v4 => v4.Network) with
  | none => .error (.panic .nilDereference)
  | some supernet =>
    match ensureChain env st "filter" smuggleForwardChainName with
    | .error e => .error e
    | .ok st1 =>
      match applyRules env st1
          ((forwardRules (IPv4NetString supernet) network.BridgeInterfaceName
            network.InterfaceName).filter (fun rule => rule.chain != forwardChainName)) with
      | .error e => .error e
      | .ok st2 =>
        ensureJumpRuleFirst env st2 "filter" forwardChainName smuggleForwardChainName

/-- The isolation rule that rejects traffic from the interfaces of
`sourceName` to those of `destName`. -/
def isolationRule (sourceName destName : String) : Rule :=
  { id := "reject-" ++ sourceName ++ "-to-" ++ destName
    table := "filter"
    chain := smuggleForwardChainName
    spec := ["-i", sourceName ++ "+", "-o", destName ++ "+", "-m", "comment", "--comment",
      "smuggle isolate " ++ sourceName ++ " from " ++ destName, "-j", "REJECT",
      "--reject-with", "icmp-net-prohibited"] }

/-- The inner loop of EnsureIsolation for one source network. -/
def isolationRulesFrom (sourceNetwork : Network) : List Network → List Rule
  | [] => []
  | destNetwork :: rest =>
    if sourceNetwork.Name = destNetwork.Name then isolationRulesFrom sourceNetwork rest
    else isolationRule sourceNetwork.Name destNetwork.Name ::
      isolationRulesFrom sourceNetwork rest

/-- The outer loop of EnsureIsolation over the source networks `sources`. -/
def isolationRulesLoop (networks : List Network) : List Network → List Rule
  | [] => []
  | sourceNetwork :: rest =>
    isolationRulesFrom sourceNetwork networks ++ isolationRulesLoop networks rest

/-- The isolation rules EnsureIsolation builds, in the order of the two
loops. -/
def isolationRules (networks : List Network) : List Rule :=
  isolationRulesLoop networks networks

/-- Manager.ensureIsolationRule: the rule is inserted at position 2 unless it
exists. -/
def ensureIsolationRule (env : IptEnv) (st : Tables) (rule : Rule) :
    Except FirewallError Tables :=
  match iptExists env st rule.table rule.chain rule.spec with
  | none => .error .isolationRule
  | some true => .ok st
  | some false =>
    match iptInsert env st rule.table rule.chain 2 rule.spec with
    | none => .error .isolationRule
    | some st1 => .ok st1

/-- The loop of EnsureIsolation that applies the isolation rules. -/
def ensureIsolationRules (env : IptEnv) (st : Tables) : List Rule → Except FirewallError Tables
  | [] => .ok st
  | rule :: rest =>
    match ensureIsolationRule env st rule with
    | .error e => .error e
    | .ok st1 => ensureIsolationRules env st1 rest

/-- Manager.EnsureIsolation. -/
def EnsureIsolation (env : IptEnv) (st : Tables) (networks : List Network) :
    Except FirewallError Tables :=
  if networks.length < 2 then .ok st
  else
    match ensureChain env st "filter" smuggleForwardChainName with
    | .error e => .error e
    | .ok st1 => ensureIsolationRules env st1 (isolationRules networks)

/-- The rules of a chain after a call, `none` when the call failed or the chain
does not exist. -/
def chainAfter (result : Except FirewallError Tables) (table chain : String) :
    Option (List (List String)) :=
  match result with
  | .error _ => none
  | .ok st => st table chain

/-- The tables of a host on which only the built-in chains FORWARD of the
filter table and POSTROUTING of the nat table exist, both empty. -/
def builtinTables : Tables := fun t c =>
  if (t = "filter" ∧ c = "FORWARD") ∨ (t = "nat" ∧ c = "POSTROUTING") then some [] else none

/-- The network named `name` with the supernet `10.x.0.0/16`. -/
def namedNetwork (name : String) (x : Nat) : Network :=
  { Name := name
    IPMasq := some true
    IPv4 := some { Network := some { IP := dotted 10 x 0 0, Size := 16 }
                   Min := dotted 10 x 1 0, Max := dotted 10 x 254 255, Size := 24 }
    Provider := some vxlanProvider }

/-- The tables after SetupForwardRules for the networks `a` and `b` on
`builtinTables`, no call failing. -/
def forwardTablesAB : Except FirewallError Tables :=
  match SetupForwardRules noFailure builtinTables (namedNetwork "a" 1) with
  | .error e => .error e
  | .ok st => SetupForwardRules noFailure st (namedNetwork "b" 2)

/-- The tables after EnsureIsolation over `a` and `b` on `forwardTablesAB`, no
call failing. -/
def isolatedTablesAB : Except FirewallError Tables :=
  match forwardTablesAB with
  | .error e => .error e
  | .ok st => EnsureIsolation noFailure st [namedNetwork "a" 1, namedNetwork "b" 2]

/-- Every chain of `st` exists in `st'` and holds at least the rules it holds
in `st`. -/
def Tables.le (st st' : Tables) : Prop :=
  ∀ t c rules, st t c = some rules →
    ∃ rules', st' t c = some rules' ∧ ∀ x, x ∈ rules → x ∈ rules'

/-- The tables a call left, `builtinTables` when the call failed. -/
def okTables (result : Except FirewallError Tables) : Tables :=
  match result with
  | .ok st => st
  | .error _ => builtinTables

/-- The specifications of a list of rules, in order. -/
def ruleSpecs (rules : List Rule) : List (List String) := rules.map (fun rule => rule.spec)

/-- The rules SetupForwardRules applies to the custom chain for `network`
with the supernet `supernet`: the rules of forwardRules without the jump. -/
def customForwardRules (supernet : IPv4Net) (network : Network) : List Rule :=
  (forwardRules (IPv4NetString supernet) network.BridgeInterfaceName
    network.InterfaceName).filter (fun rule => rule.chain != forwardChainName)

/-- The lease of `10.1.7.0/24` used with `namedNetwork "a" 1`. -/
def leaseA : Subnet := freshLease "a" (dotted 10 1 7 0)

/-- The tables of a host on which Docker already put its rules in FORWARD,
with an earlier copy of the jump to the custom chain behind them. -/
def dockerTables : Tables := fun t c =>
  if t = "filter" ∧ c = "FORWARD" then
    some [["-j", "DOCKER-USER"], ["-j", "DOCKER-FORWARD"], jumpSpec smuggleForwardChainName]
  else if t = "nat" ∧ c = "POSTROUTING" then some []
  else none

/-- The specification of the rule accept-established-related, the first rule
SetupForwardRules puts in the custom forward chain. -/
def establishedSpec : List String :=
  ["-m", "conntrack", "--ctstate", "RELATED,ESTABLISHED", "-m", "comment",
    "--comment", "smuggle forward established", "-j", "ACCEPT"]

/-- The ACCEPT rules of `namedNetwork name x` in the custom forward chain, in
the order SetupForwardRules appends them. -/
def acceptSpecs (name : String) (x : Nat) : List (List String) :=
  (ruleSpecs (customForwardRules { IP := dotted 10 x 0 0, Size := 16 } (namedNetwork name x))).tail

/-- An operating system on which every Delete fails and no other call does. -/
def deleteFails : IptEnv :=
  { fails := fun _ call =>
      match call with
      | .delete _ _ _ => true
      | _ => false }

/-! ## Bootstrap from a client request (`agent/client/client.go`, `agent/agent.go`) -/

/-- ClientConfig of `config/client.go`; `Enabled` is a pointer in the
source. -/
structure ClientConfig where
  Enabled : Option Bool
  DataDir : String
  DisableIPMasq : Bool
  NetworkInterface : String
  deriving DecidableEq, Repr

/-- ClientReq of `agent/client/client.go`: the configuration the client is
created with, and its collaborators (store, CNI store, network manager), given
by what they answer. -/
structure ClientReq where
  Config : ClientConfig
  env : ClientEnv

/-- Client.Start up to the end of Init, for the client that New builds from
`req` and whose identifier is `req.env.id`: New stores `req.Config` in the
field `cfg`, which Init does not read. -/
def Client.Start (req : ClientReq) : ClientState × Option InitError :=
  Client.Init req.env

/-- The leases of the SetSubnet requests among the calls `effects`, in
order. -/
def storeWrites (effects : List Effect) : List Subnet :=
  effects.filterMap (fun e => match e with
    | .store (.setSubnet s) => some s
    | _ => none)

/-- The error event the loop of WatchSubnets sends for a stub it reads: a
failed read, a failed parse, or none. -/
def pollError (read : String → Except String (List (String × String)))
    (decode : String → Option Subnet) (varStub : VariableMetadata) : Option WatchEvent :=
  match read varStub.Path with
  | .error _ => some (.readError varStub.Path)
  | .ok items =>
    match parseClientSubnetConfig decode items with
    | none => some (.parseError varStub.Path)
    | some _ => none

/-- The error events a poll with wait index `waitIndex` is described to send:
one for each variable with a modify index of at least `waitIndex` whose read or
parse fails, in listing order. -/
def pollErrors (read : String → Except String (List (String × String)))
    (decode : String → Option Subnet) (waitIndex : Nat)
    (varList : List VariableMetadata) : List WatchEvent :=
  (varList.filter (fun v => decide (waitIndex ≤ v.ModifyIndex))).filterMap
    (pollError read decode)

/-- A network with the single block 10.10.1.0/24. -/
def oneBlock : Network :=
  sampleNetwork "full" (dotted 10 10 1 0) (dotted 10 10 1 255) 24

/-- A bootstrap with the networks `oneBlock`, whose only block another host
holds, and `unsetRange`, which is empty. -/
def fullThenFreeEnv : ClientEnv :=
  { sampleEnv with
    listNetworks := .ok [oneBlock, unsetRange]
    listSubnets := fun name =>
      if name = "full" then .ok [sampleLease "other" "full" (dotted 10 10 1 0) 24] else .ok [] }

/-- The bootstrap of `fullThenFreeEnv` without the network `oneBlock`. -/
def freeOnlyEnv : ClientEnv :=
  { fullThenFreeEnv with listNetworks := .ok [unsetRange] }

/-- A client configuration with masquerading disabled. -/
def noMasqConfig : ClientConfig :=
  { Enabled := some true, DataDir := "/var/lib/smuggle/client", DisableIPMasq := true
    NetworkInterface := "" }

/-- The network `unsetRange` with no `ipmasq` setting. -/
def masqUnset : Network := { unsetRange with IPMasq := none }

/-- The lease of host `h` in network `v` as the store holds it after the
reaper marked it: the block 10.10.9.0/24, an expiration in the past and the
expired flag set. -/
def storedLease : Subnet :=
  { sampleLease "h" "v" (dotted 10 10 9 0) 24 with Expired := true }

/-- The sample bootstrap on a store that already holds `storedLease` for the
host. -/
def storedEnv : ClientEnv :=
  { sampleEnv with getSubnet := fun _ => .ok (some storedLease) }

/-- The reads of a sample poll: the variable `a` cannot be read, `b` holds a
lease, `c` has no item `data`, `d` holds a lease marked expired. -/
def sampleRead (path : String) : Except String (List (String × String)) :=
  if path = "a" then .error "unreachable"
  else if path = "b" then .ok [("data", "lease-b")]
  else if path = "c" then .ok [("other", "x")]
  else .ok [("data", "lease-d")]

/-- The decoding of the items of the sample poll. -/
def sampleDecode (text : String) : Option Subnet :=
  if text = "lease-b" then some (sampleLease "b" "v" (dotted 10 10 2 0) 24)
  else if text = "lease-d" then some { sampleLease "d" "v" (dotted 10 10 3 0) 24 with Expired := true }
  else none

/-- The listing of the sample poll. -/
def sampleListing : List VariableMetadata :=
  [{ Path := "a", ModifyIndex := 7 }, { Path := "b", ModifyIndex := 8 },
   { Path := "c", ModifyIndex := 9 }, { Path := "d", ModifyIndex := 9 }]

/-- The event is a call of SetupMasqRules. -/
def Effect.isMasq : Effect → Bool
  | .setupMasqRules _ _ => true
  | _ => false

/-- A client created with masquerading disabled, for a bootstrap with the
single network `masqUnset`, an empty lease store and collaborators that all
succeed. -/
def noMasqReq : ClientReq :=
  { Config := noMasqConfig, env := { sampleEnv with listNetworks := .ok [masqUnset] } }

/-- The candidates the loop of findSequentialSubnet examines, in order: those
for which the loop condition holds, so that the body runs. The loop is followed
as in `seqLoop`, `fuel` bounding the evaluations of the loop condition. -/
def seqCandidates (v4 : IPv4Config) (used : List Nat) (subnetSize : Nat) :
    Nat → Nat → List Nat
  | 0, _ => []
  | fuel + 1, candidateIP =>
    if candidateIP ≤ v4.Max then
      candidateIP ::
        (if candidateIP ∉ used then []
        else if candidateIP > sub32 v4.Max subnetSize then []
        else seqCandidates v4 used subnetSize fuel (add32 candidateIP subnetSize))
    else []

/-- The network 10.0.0.0/8 carved into single addresses, with no `min` and the
`max` 255.255.255.255, as an operator stores it. -/
def wideMaxStored : Network :=
  { Name := "x"
    IPMasq := some true
    IPv4 := some { Network := some { IP := dotted 10 0 0 0, Size := 8 }
                   Min := 0, Max := 2 ^ 32 - 1, Size := 32 }
    Provider := some vxlanProvider }

/-- The ipv4 section of `wideMaxStored` as Canonicalize leaves it: `min` is
10.0.0.1. -/
def wideMaxV4 : IPv4Config :=
  { Network := some { IP := dotted 10 0 0 0, Size := 8 }
    Min := dotted 10 0 0 1, Max := 2 ^ 32 - 1, Size := 32 }

/-- The network `wideMaxStored` as Canonicalize leaves it. -/
def wideMax : Network := { wideMaxStored with IPv4 := some wideMaxV4 }

/-! ## Retrying (`helper/retry/retry.go`) -/

/-- An error the retried function returns, as far as Retry and the retry
library tell errors apart: whether `errors.Is(err, context.DeadlineExceeded)`
holds, and whether the error is one the library marks as retryable
(`errors.As` to its `retryableError`). -/
structure FnError where
  text : String
  deadlineExceeded : Bool
  retryable : Bool
  deriving DecidableEq, Repr

/-- The function literal Retry passes to retry.Exponential, for the value
`last` of the captured variable and the outcome `latestErr` of `fn()`: the new
value of `last`, and the error returned (`none` is nil) with whether the
library finds it retryable. A deadline error of `fn` makes it return `last` as
it is; any other error is stored in `last` and returned wrapped by
RetryableError. -/
def retryStep (last latestErr : Option FnError) :
    Option FnError × Option (FnError × Bool) :=
  match latestErr with
  | none => (last, none)
  | some err =>
    if err.deadlineExceeded then (last, last.map (fun l => (l, l.retryable)))
    else (some err, some (err, true))

/-- The loop of retry.Do under the exponential backoff, whose Next never
stops, started at invocation number `k` of `fn`. The context of Retry is new at
the first iteration; `waits` is the number of backoff waits that end before
its deadline of 60 seconds (at most six, the waits being 1, 2, 4, ... seconds),
and a wait the deadline cuts short makes Do return the error of the context.
The result is whether Do returned an error, and the final value of `last`. -/
def retryDo (fn : Nat → Option FnError) : Nat → Nat → Option FnError → Bool × Option FnError
  | waits, k, last =>
    match retryStep last (fn k) with
    | (last1, none) => (false, last1)
    | (last1, some (_, false)) => (true, last1)
    | (last1, some (_, true)) =>
      match waits with
      | 0 => (true, last1)
      | waits1 + 1 => retryDo fn waits1 (k + 1) last1

/-- The function Retry: `last` when retry.Exponential returned an error,
nil (`none`) otherwise. `fn k` is what invocation number `k` of the retried
function returns. -/
def Retry (fn : Nat → Option FnError) (waits : Nat) : Option FnError :=
  match retryDo fn waits 0 none with
  | (true, last) => last
  | (false, _) => none

/-- The error of a call that ran into its own deadline, such as a request of
the Nomad client that timed out. -/
def timeoutError : FnError :=
  { text := "context deadline exceeded", deadlineExceeded := true, retryable := false }

/-- An error of the kernel or of the network. -/
def plainError (text : String) : FnError :=
  { text := text, deadlineExceeded := false, retryable := false }

/-- A function whose every invocation runs into its own deadline. -/
def alwaysTimesOut : Nat → Option FnError := fun _ => some timeoutError

/-- A function that is refused once and then runs into its own deadline. -/
def refusedThenTimesOut : Nat → Option FnError := fun k =>
  if k = 0 then some (plainError "connection refused") else some timeoutError

/-- A function that is refused twice and then succeeds. -/
def refusedTwice : Nat → Option FnError := fun k =>
  if k < 2 then some (plainError "connection refused") else none

/-! ## Agent configuration (`config`, `cmd/agent/run.go`)

Every Merge of the package is a method on a pointer. It is given here with the
two values the call leaves: the configuration it returns, and the configuration
its receiver points to after the call (`none` is nil). -/

/-- HTTPConfig of `config/http.go`. -/
structure HTTPConfig where
  Enabled : Option Bool
  DebugEnabled : Option Bool
  Address : String
  AccessLogLevel : String
  Port : Nat
  deriving DecidableEq, Repr

/-- LogConfig of `config/log.go`. -/
structure LogConfig where
  Level : String
  JSON : Option Bool
  IncludeLine : Option Bool
  EnableStacktrace : Option Bool
  deriving DecidableEq, Repr

/-- NomadConfig of `config/nomad.go`. -/
structure NomadConfig where
  Address : String
  Token : String
  CACert : String
  CAPath : String
  ClientCert : String
  ClientKey : String
  TLSServerName : String
  SkipVerify : Option Bool
  deriving DecidableEq, Repr

/-- ReaperConfig of `config/server.go`; the durations are in nanoseconds. -/
structure ReaperConfig where
  IntervalHCL : String
  Interval : Int
  ThresholdHCL : String
  Threshold : Int
  deriving DecidableEq, Repr

/-- ServerConfig of `config/server.go`. -/
structure ServerConfig where
  Enabled : Option Bool
  Reaper : Option ReaperConfig
  deriving DecidableEq, Repr

/-- StoreNVarConfig of `config/store.go`. -/
structure StoreNVarConfig where
  Path : String
  deriving DecidableEq, Repr

/-- StoreConfig of `config/store.go`. -/
structure StoreConfig where
  Backend : String
  NVar : Option StoreNVarConfig
  deriving DecidableEq, Repr

/-- AgentConfig of `config/agent.go`. -/
structure AgentConfig where
  Client : Option ClientConfig
  HTTP : Option HTTPConfig
  Log : Option LogConfig
  Nomad : Option NomadConfig
  Server : Option ServerConfig
  Store : Option StoreConfig
  deriving DecidableEq, Repr

/-- ClientConfig.Merge: the result is a modified copy, the receiver is left as
it was. -/
def ClientConfig.Merge (c other : Option ClientConfig) :
    Option ClientConfig × Option ClientConfig :=
  match c, other with
  | none, _ => (other, none)
  | some c, none => (some c, some c)
  | some c, some other =>
    (some { Enabled := if other.Enabled.isSome then other.Enabled else c.Enabled
            DataDir := if other.DataDir ≠ "" then other.DataDir else c.DataDir
            DisableIPMasq := if other.DisableIPMasq then other.DisableIPMasq else c.DisableIPMasq
            NetworkInterface :=
              if other.NetworkInterface ≠ "" then other.NetworkInterface
              else c.NetworkInterface },
      some c)

/-- HTTPConfig.Merge: the result is a modified copy. -/
def HTTPConfig.Merge (h other : Option HTTPConfig) : Option HTTPConfig × Option HTTPConfig :=
  match h, other with
  | none, _ => (other, none)
  | some h, none => (some h, some h)
  | some h, some other =>
    (some { Enabled := if other.Enabled.isSome then other.Enabled else h.Enabled
            Address := if other.Address ≠ "" then other.Address else h.Address
            AccessLogLevel :=
              if other.AccessLogLevel ≠ "" then other.AccessLogLevel else h.AccessLogLevel
            Port := if other.Port ≠ 0 then other.Port else h.Port
            DebugEnabled :=
              if other.DebugEnabled.isSome then other.DebugEnabled else h.DebugEnabled },
      some h)

/-- LogConfig.Merge: the result is a modified copy. -/
def LogConfig.Merge (l other : Option LogConfig) : Option LogConfig × Option LogConfig :=
  match l, other with
  | none, _ => (other, none)
  | some l, none => (some l, some l)
  | some l, some other =>
    (some { Level := if other.Level ≠ "" then other.Level else l.Level
            JSON := if other.JSON.isSome then other.JSON else l.JSON
            IncludeLine := if other.IncludeLine.isSome then other.IncludeLine else l.IncludeLine
            EnableStacktrace :=
              if other.EnableStacktrace.isSome then other.EnableStacktrace
              else l.EnableStacktrace },
      some l)

/-- NomadConfig.Merge: the result is a modified copy. -/
def NomadConfig.Merge (n other : Option NomadConfig) :
    Option NomadConfig × Option NomadConfig :=
  match n, other with
  | none, _ => (other, none)
  | some n, none => (some n, some n)
  | some n, some other =>
    (some { Address := if other.Address ≠ "" then other.Address else n.Address
            Token := if other.Token ≠ "" then other.Token else n.Token
            CACert := if other.CACert ≠ "" then other.CACert else n.CACert
            CAPath := if other.CAPath ≠ "" then other.CAPath else n.CAPath
            ClientCert := if other.ClientCert ≠ "" then other.ClientCert else n.ClientCert
            ClientKey := if other.ClientKey ≠ "" then other.ClientKey else n.ClientKey
            TLSServerName :=
              if other.TLSServerName ≠ "" then other.TLSServerName else n.TLSServerName
            SkipVerify := if other.SkipVerify.isSome then other.SkipVerify else n.SkipVerify },
      some n)

/-- The reaper section ServerConfig.Merge leaves in its receiver: an absent
section is created, and a duration of `other` that is not zero is stored. -/
def mergeReaper (reaper : Option ReaperConfig) (other : ReaperConfig) : ReaperConfig :=
  let base : ReaperConfig := match reaper with
    | none => { IntervalHCL := "", Interval := 0, ThresholdHCL := "", Threshold := 0 }
    | some r => r
  { base with
    Interval := if other.Interval ≠ 0 then other.Interval else base.Interval
    Threshold := if other.Threshold ≠ 0 then other.Threshold else base.Threshold }

/-- ServerConfig.Merge: the receiver itself is modified and returned. -/
def ServerConfig.Merge (s other : Option ServerConfig) :
    Option ServerConfig × Option ServerConfig :=
  match s, other with
  | none, _ => (other, none)
  | some s, none => (some s, some s)
  | some s, some other =>
    let merged : ServerConfig :=
      { Enabled := if other.Enabled.isSome then other.Enabled else s.Enabled
        Reaper := match other.Reaper with
          | none => s.Reaper
          | some r => some (mergeReaper s.Reaper r) }
    (some merged, some merged)

/-- StoreConfig.Merge: the result is a copy of the receiver that shares its
`NVar` section, so a path of `other` is written to the section of the receiver
as well; a section the receiver lacks is created for the result only. -/
def StoreConfig.Merge (s other : Option StoreConfig) :
    Option StoreConfig × Option StoreConfig :=
  match s, other with
  | none, _ => (other, none)
  | some s, none => (some s, some s)
  | some s, some other =>
    let backend := if other.Backend ≠ "" then other.Backend else s.Backend
    match other.NVar, s.NVar with
    | none, _ => (some { Backend := backend, NVar := s.NVar }, some s)
    | some o, none =>
      (some { Backend := backend, NVar := some { Path := if o.Path ≠ "" then o.Path else "" } },
        some s)
    | some o, some nvar =>
      let shared : StoreNVarConfig := { Path := if o.Path ≠ "" then o.Path else nvar.Path }
      (some { Backend := backend, NVar := some shared }, some { s with NVar := some shared })

/-- AgentConfig.Merge: the result is a copy of the receiver whose sections are
the results of merging the sections; the sections of the receiver are what
these calls leave of them. -/
def AgentConfig.Merge (a other : Option AgentConfig) :
    Option AgentConfig × Option AgentConfig :=
  match a, other with
  | none, _ => (other, none)
  | some a, none => (some a, some a)
  | some a, some other =>
    (some { Client := (ClientConfig.Merge a.Client other.Client).1
            HTTP := (HTTPConfig.Merge a.HTTP other.HTTP).1
            Log := (LogConfig.Merge a.Log other.Log).1
            Nomad := (NomadConfig.Merge a.Nomad other.Nomad).1
            Server := (ServerConfig.Merge a.Server other.Server).1
            Store := (StoreConfig.Merge a.Store other.Store).1 },
      some { Client := (ClientConfig.Merge a.Client other.Client).2
             HTTP := (HTTPConfig.Merge a.HTTP other.HTTP).2
             Log := (LogConfig.Merge a.Log other.Log).2
             Nomad := (NomadConfig.Merge a.Nomad other.Nomad).2
             Server := (ServerConfig.Merge a.Server other.Server).2
             Store := (StoreConfig.Merge a.Store other.Store).2 })

/-- DefaultClientConfig. -/
def DefaultClientConfig : ClientConfig :=
  { Enabled := some false, DataDir := "/var/lib/smuggle/client", DisableIPMasq := false
    NetworkInterface := "" }

/-- DefaultHTTPConfig. -/
def DefaultHTTPConfig : HTTPConfig :=
  { Enabled := some true, DebugEnabled := some false, Address := "localhost"
    AccessLogLevel := "debug", Port := 9090 }

/-- DefaultLogConfig. -/
def DefaultLogConfig : LogConfig :=
  { Level := "info", JSON := some false, IncludeLine := some false
    EnableStacktrace := some false }

/-- DefaultNomadConfig. -/
def DefaultNomadConfig : NomadConfig :=
  { Address := "http://localhost:4646", Token := "", CACert := "", CAPath := ""
    ClientCert := "", ClientKey := "", TLSServerName := "", SkipVerify := some false }

/-- Five minutes, in nanoseconds. -/
def fiveMinutes : Int := 5 * 60 * 1000000000

/-- DefaultServerConfig. -/
def DefaultServerConfig : ServerConfig :=
  { Enabled := some false
    Reaper := some { IntervalHCL := "", Interval := fiveMinutes, ThresholdHCL := ""
                     Threshold := fiveMinutes } }

/-- DefaultStoreConfig. -/
def DefaultStoreConfig : StoreConfig :=
  { Backend := "nvar", NVar := some { Path := "smuggle/" } }

/-- DefaultAgentConfig. -/
def DefaultAgentConfig : AgentConfig :=
  { Client := some DefaultClientConfig, HTTP := some DefaultHTTPConfig
    Log := some DefaultLogConfig, Nomad := some DefaultNomadConfig
    Server := some DefaultServerConfig, Store := some DefaultStoreConfig }

/-- The command line as the configuration reads it: for each flag, by name,
the value it was set to, on the command line or by its environment variable;
`none` for a flag that is not set. -/
structure Command where
  strings : String → Option String
  bools : String → Option Bool
  uints : String → Option Nat
  durations : String → Option Int

/-- The value `cmd.String(name)`: empty for a flag that is not set. -/
def Command.stringOf (cmd : Command) (name : String) : String := (cmd.strings name).getD ""

/-- ClientConfigFromCommand. -/
def ClientConfigFromCommand (cmd : Command) : ClientConfig :=
  { Enabled := cmd.bools "client-enabled"
    DataDir := cmd.stringOf "client-data-dir"
    DisableIPMasq := (cmd.bools "client-disable-ipmasq").getD false
    NetworkInterface := cmd.stringOf "client-network-interface" }

/-- HTTPConfigFromCommand. -/
def HTTPConfigFromCommand (cmd : Command) : HTTPConfig :=
  { Enabled := cmd.bools "http-enabled"
    Address := cmd.stringOf "http-address"
    Port := (cmd.uints "http-port").getD 0
    AccessLogLevel := cmd.stringOf "http-access-log-level"
    DebugEnabled := cmd.bools "http-debug-enabled" }

/-- LogConfigFromCommand. -/
def LogConfigFromCommand (cmd : Command) : LogConfig :=
  { Level := cmd.stringOf "log-level"
    JSON := cmd.bools "log-json"
    IncludeLine := cmd.bools "log-include-line"
    EnableStacktrace := cmd.bools "log-enable-stacktrace" }

/-- NomadConfigFromCommand. -/
def NomadConfigFromCommand (cmd : Command) : NomadConfig :=
  { Address := cmd.stringOf "nomad-addr"
    Token := cmd.stringOf "nomad-token"
    CACert := cmd.stringOf "nomad-ca-cert"
    CAPath := cmd.stringOf "nomad-ca-path"
    ClientCert := cmd.stringOf "nomad-client-cert"
    ClientKey := cmd.stringOf "nomad-client-key"
    TLSServerName := cmd.stringOf "nomad-tls-server-name"
    SkipVerify := cmd.bools "nomad-skip-verify" }

/-- ServerConfigFromCommand. -/
def ServerConfigFromCommand (cmd : Command) : ServerConfig :=
  { Enabled := cmd.bools "server-enabled"
    Reaper := some { IntervalHCL := ""
                     Interval := (cmd.durations "server-reaper-interval").getD 0
                     ThresholdHCL := ""
                     Threshold := (cmd.durations "server-reaper-threshold").getD 0 } }

/-- StoreConfigFromCommand. -/
def StoreConfigFromCommand (cmd : Command) : StoreConfig :=
  { Backend := cmd.stringOf "store-backend"
    NVar := some { Path := cmd.stringOf "store-nvar-path" } }

/-- AgentConfigFromCommand. -/
def AgentConfigFromCommand (cmd : Command) : AgentConfig :=
  { Client := some (ClientConfigFromCommand cmd)
    HTTP := some (HTTPConfigFromCommand cmd)
    Log := some (LogConfigFromCommand cmd)
    Nomad := some (NomadConfigFromCommand cmd)
    Server := some (ServerConfigFromCommand cmd)
    Store := some (StoreConfigFromCommand cmd) }

/-- The configuration the action of runCommand validates and runs the agent
with, for the configuration `fileCfg` that AgentConfigFromFiles returned (nil
without a config file) and the command line `cmd`. The result of
`defaultCfg.Merge(fileCfg)` is not assigned: of that call only what it leaves
in its receiver remains. The result of the merge with the flags is
assigned. -/
def runCommandConfig (fileCfg : Option AgentConfig) (cmd : Command) : Option AgentConfig :=
  let defaultCfg := some DefaultAgentConfig
  let afterFiles := (AgentConfig.Merge defaultCfg fileCfg).2
  (AgentConfig.Merge afterFiles (some (AgentConfigFromCommand cmd))).1

/-- The configuration that first merges the files into the default
configuration and then the flags into the result, as the claim describes
it. -/
def mergedConfig (fileCfg : Option AgentConfig) (cmd : Command) : Option AgentConfig :=
  (AgentConfig.Merge (AgentConfig.Merge (some DefaultAgentConfig) fileCfg).1
    (some (AgentConfigFromCommand cmd))).1

/-- A command line without any flag. -/
def noFlags : Command :=
  { strings := fun _ => none, bools := fun _ => none, uints := fun _ => none
    durations := fun _ => none }

/-- The configuration of a file that enables the client with the data
directory `/opt/smuggle`, sets the log level `debug` and the variable path
`fabric/`. -/
def sampleFileConfig : AgentConfig :=
  { Client := some { Enabled := some true, DataDir := "/opt/smuggle", DisableIPMasq := false
                     NetworkInterface := "" }
    HTTP := none
    Log := some { Level := "debug", JSON := none, IncludeLine := none
                  EnableStacktrace := none }
    Nomad := none
    Server := some { Enabled := some false
                     Reaper := some { IntervalHCL := "1m", Interval := 60000000000
                                      ThresholdHCL := "", Threshold := 0 } }
    Store := some { Backend := "nvar", NVar := some { Path := "fabric/" } } }

/-! ## CNI store (`store/file/file.go`)

The file system is given by its regular files and its directories, each under
its absolute path, a list of components from the root. The calls of the
packages `os` and `path/filepath` follow their documented behaviour on
Linux. -/

/-- The regular files, with their content, and the directories. -/
structure FileSystem where
  files : List String → Option String
  dirs : List String → Bool

/-- What the operating system answers to CNIStore.Set: the random strings
os.CreateTemp draws (decimal numbers), the directories in which no entry may
be created, renamed or removed, and whether writing, syncing or closing the
temporary file fails. -/
structure FileEnv where
  draws : Nat → String
  readOnly : List String → Bool
  writeFails : Bool
  syncFails : Bool
  closeFails : Bool

/-- The errors CNIStore.Set returns. -/
inductive CNIStoreError where
  | nilConfig
  | createDirectory
  | createTemp
  | write
  | sync
  | close
  | rename
  deriving DecidableEq, Repr

/-- The file system with the content `data` in the regular file `p`. -/
def FileSystem.write (fs : FileSystem) (p : List String) (data : String) : FileSystem :=
  { fs with files := fun q => if q = p then some data else fs.files q }

/-- The call os.MkdirAll for the path `done ++ rest`, the directories of
`done` being there: each missing directory is created in turn; the call fails
at a component that is a regular file or whose parent is read-only. The result
is the file system reached and whether the call succeeded. -/
def mkdirAll (env : FileEnv) : FileSystem → List String → List String → FileSystem × Bool
  | fs, _, [] => (fs, true)
  | fs, done, comp :: rest =>
    if fs.dirs (done ++ [comp]) then mkdirAll env fs (done ++ [comp]) rest
    else if (fs.files (done ++ [comp])).isSome ∨ env.readOnly done then (fs, false)
    else
      mkdirAll env { fs with dirs := fun q => if q = done ++ [comp] then true else fs.dirs q }
        (done ++ [comp]) rest

/-- The loop of os.CreateTemp for the pattern `.cni-*.tmp` in the directory
`dir`: the first of the names drawn that does not exist yet, `none` when
`tries` names in a row exist. -/
def createTemp (env : FileEnv) (fs : FileSystem) (dir : List String) :
    Nat → Nat → Option String
  | 0, _ => none
  | tries + 1, i =>
    if (fs.files (dir ++ [".cni-" ++ env.draws i ++ ".tmp"])).isSome ∨
        fs.dirs (dir ++ [".cni-" ++ env.draws i ++ ".tmp"]) then
      createTemp env fs dir tries (i + 1)
    else some (".cni-" ++ env.draws i ++ ".tmp")

/-- The pieces of a text between its separators `/`. -/
def splitSlash : List Char → List (List Char)
  | [] => [[]]
  | c :: rest =>
    if c = '/' then [] :: splitSlash rest
    else
      match splitSlash rest with
      | [] => [[c]]
      | piece :: pieces => (c :: piece) :: pieces

/-- The cleaning of filepath.Join, applied to the components `comps` behind
the directory `dir`: an empty component and `.` are dropped, `..` removes the
component before it and stays at the root. -/
def cleanInto : List String → List String → List String
  | dir, [] => dir
  | dir, comp :: rest =>
    if comp = "" ∨ comp = "." then cleanInto dir rest
    else if comp = ".." then cleanInto dir.dropLast rest
    else cleanInto (dir ++ [comp]) rest

/-- The path `filepath.Join(dir, elem)` for a directory given by its
components. -/
def joinPath (dir : List String) (elem : String) : List String :=
  cleanInto dir ((splitSlash elem.data).map String.mk)

/-- The call os.Rename of the regular file `src` to `dst`: it fails when a
component of `dst` holds a NUL character, when the parent of `dst` is not a
directory, when `dst` is a directory, or when one of the two parent directories
is read-only; otherwise `dst` has the content of `src`, replacing what it had,
and `src` is gone. -/
def rename (env : FileEnv) (fs : FileSystem) (src dst : List String) : Option FileSystem :=
  match fs.files src with
  | none => none
  | some data =>
    if dst.any (fun comp => comp.data.contains (Char.ofNat 0)) ∨ dst = [] ∨
        fs.dirs dst.dropLast = false ∨ fs.dirs dst = true ∨
        env.readOnly dst.dropLast = true ∨ env.readOnly src.dropLast = true then none
    else
      some { fs with
        files := fun q => if q = dst then some data else if q = src then none else fs.files q }

/-- CNIStore.Set for the store directory `path`, `marshal` being
json.MarshalIndent on a CNIConfig, which does not fail. The result is the file
system the call leaves and the error it returns. A temporary file that could
not be written, synced or closed is removed by the deferred function; after
the close the deferred function does nothing, so a temporary file that could
not be renamed stays. -/
def CNIStore.Set (marshal : CNIConfig → String) (env : FileEnv) (fs : FileSystem)
    (path : List String) (cfg : Option CNIConfig) : FileSystem × Option CNIStoreError :=
  match cfg with
  | none => (fs, some .nilConfig)
  | some cfg =>
    match mkdirAll env fs [] path with
    | (fs1, false) => (fs1, some .createDirectory)
    | (fs1, true) =>
      if env.readOnly path then (fs1, some .createTemp)
      else
        match createTemp env fs1 path 10000 0 with
        | none => (fs1, some .createTemp)
        | some tempName =>
          if env.writeFails then (fs1, some .write)
          else if env.syncFails then (fs1, some .sync)
          else if env.closeFails then (fs1, some .close)
          else
            let written := fs1.write (path ++ [tempName]) (marshal cfg)
            match rename env written (path ++ [tempName])
                (joinPath path (cfg.Name ++ ".conf")) with
            | none => (written, some .rename)
            | some fs2 => (fs2, none)

/-- A CNI configuration named `name` with the MTU `mtu`. -/
def sampleCNI (name : String) (mtu : Int) : CNIConfig :=
  { Name := name, Bridge := name ++ "brd0", MTU := mtu, IPMasq := false
    IPv4 := some { Network := "10.10.0.0/16", Subnet := "10.10.6.1/24", Gateway := "10.10.6.1" } }

/-- A stand-in for json.MarshalIndent on the sample configurations: the name
and the bridge, and whether the MTU is 1450. -/
def sampleMarshal (cfg : CNIConfig) : String :=
  cfg.Name ++ " " ++ cfg.Bridge ++ (if cfg.MTU = 1450 then " 1450" else " other")

/-- The decoding that goes with `sampleMarshal` on the configuration
`sampleCNI "v" 1450`. -/
def sampleUnmarshal (data : String) : Option CNIConfig :=
  if data = sampleMarshal (sampleCNI "v" 1450) then some (sampleCNI "v" 1450) else none

/-- The store directory `/etc/cni`. -/
def cniDir : List String := ["etc", "cni"]

/-- A file system with the directories `/`, `/etc` and `/etc/cni`, the files
`/etc/cni/a.conf` and `/etc/cni/v.conf` of the networks `a` and `v`, and the
file `/etc/x.conf`. -/
def sampleFiles : FileSystem :=
  { files := fun p =>
      if p = ["etc", "cni", "a.conf"] then some (sampleMarshal (sampleCNI "a" 1450))
      else if p = ["etc", "cni", "v.conf"] then some (sampleMarshal (sampleCNI "v" 9000))
      else if p = ["etc", "x.conf"] then some "resolver"
      else none
    dirs := fun p => decide (p = [] ∨ p = ["etc"] ∨ p = ["etc", "cni"]) }

/-- An operating system that draws the number 7 first and 8 from then on, and
lets every call succeed. -/
def sampleOS : FileEnv :=
  { draws := fun i => if i = 0 then "7" else "8", readOnly := fun _ => false
    writeFails := false, syncFails := false, closeFails := false }

/-! ## Rounds of firewall setup (`agent/client/client.go`, `iptables.go`) -/

/-- The loop of Client.Init over the networks, reduced to its calls of
SetupForwardRules: the call is made for each network in turn, the first error
ends the loop. The calls of the manager are counted from `k`, and `envs i` is
what the operating system answers during the call number `i`, so that a call
of the library may fail in one call of the manager and succeed in the next. -/
def setupForwardAll (envs : Nat → IptEnv) :
    Nat → Tables → List Network → Except FirewallError Tables
  | _, st, [] => .ok st
  | k, st, network :: rest =>
    match SetupForwardRules (envs k) st network with
    | .error e => .error e
    | .ok st1 => setupForwardAll envs (k + 1) st1 rest

/-- One round of firewall setup, as Client.Init makes it: SetupForwardRules
for each network of the list, then EnsureIsolation over the list. -/
def firewallRound (envs : Nat → IptEnv) (k : Nat) (st : Tables) (networks : List Network) :
    Except FirewallError Tables :=
  match setupForwardAll envs k st networks with
  | .error e => .error e
  | .ok st1 => EnsureIsolation (envs (k + networks.length)) st1 networks

/-- A sequence of rounds, each over its own list of networks. -/
def firewallRounds (envs : Nat → IptEnv) :
    Nat → Tables → List (List Network) → Except FirewallError Tables
  | _, st, [] => .ok st
  | k, st, networks :: rest =>
    match firewallRound envs k st networks with
    | .error e => .error e
    | .ok st1 => firewallRounds envs (k + networks.length + 1) st1 rest

/-- No call of the library fails, in any call of the manager. -/
def noFailures : Nat → IptEnv := fun _ => noFailure

/-- The specifications of the ACCEPT rules SetupForwardRules applies for a
network, in its order: those of forwardRules without the jump and without the
rule for established connections. -/
def acceptSpecsOf (network : Network) : List (List String) :=
  match network.IPv4.bind (fun v4 => v4.Network) with
  | none => []
  | some supernet => (ruleSpecs (customForwardRules supernet network)).tail

/-- The specification is the one of the REJECT rule of an ordered pair of
networks of the list with different names. -/
def IsRejectOf (networks : List Network) (spec : List String) : Prop :=
  ∃ s d, s ∈ networks ∧ d ∈ networks ∧ s.Name ≠ d.Name ∧
    spec = (isolationRule s.Name d.Name).spec

/-- The specification is the one of an ACCEPT rule of a network of the
list. -/
def IsAcceptOf (networks : List Network) (spec : List String) : Prop :=
  ∃ n, n ∈ networks ∧ spec ∈ acceptSpecsOf n

/-- Each list of networks holds the networks of the list before it: networks
are added from round to round, none is removed. -/
def Growing : List (List Network) → Prop
  | [] => True
  | [_] => True
  | a :: b :: rest => (∀ n, n ∈ a → n ∈ b) ∧ Growing (b :: rest)

/-- What a sequence of appends leaves of a chain: each specification is
appended unless the chain holds it already. -/
def appendMissing : List (List String) → List (List String) → List (List String)
  | chain, [] => chain
  | chain, spec :: rest =>
    if spec ∈ chain then appendMissing chain rest else appendMissing (chain ++ [spec]) rest

/-- What a sequence of inserts at position 2 leaves behind the first rule
`e` of a chain: each specification is put in front of `mid` unless the chain
holds it already. -/
def insertMissing (e : List String) : List (List String) → List (List String) →
    List (List String)
  | mid, [] => mid
  | mid, spec :: rest =>
    if spec ∈ e :: mid then insertMissing e mid rest else insertMissing e (spec :: mid) rest

/-- The custom forward chain after SetupForwardRules for each network of a
list, from the chain `chain`. -/
def chainAfterSetup : List (List String) → List Network → List (List String)
  | chain, [] => chain
  | chain, network :: rest =>
    chainAfterSetup (appendMissing chain (establishedSpec :: acceptSpecsOf network)) rest

/-- The network `c` of the sample rounds. -/
def networkC : Network := namedNetwork "c" 3

/-- The rounds of a host that starts with the networks `a` and `b`, repeats
the setup, and is then given the network `c`. -/
def sampleRounds : List (List Network) :=
  [[namedNetwork "a" 1, namedNetwork "b" 2], [namedNetwork "a" 1, namedNetwork "b" 2],
   [namedNetwork "a" 1, namedNetwork "b" 2, networkC]]

/-- The custom forward chain is in order for the networks of a list: its first
rule is the ACCEPT for established connections, then come the REJECT rules of
the ordered pairs of networks with different names, each once, then the
ACCEPT rules of the networks. -/
def ChainInOrder (networks : List Network) (chain : Option (List (List String))) : Prop :=
  ∃ rejects accepts, chain = some (establishedSpec :: (rejects ++ accepts)) ∧
    rejects.Nodup ∧ (∀ x, x ∈ rejects ↔ IsRejectOf networks x) ∧
    (∀ x, x ∈ accepts ↔ IsAcceptOf networks x)

/-! ## Supporting lemmas and the properties of the claims -/

theorem blockSize_pow (size : Nat) (h : blockSize size ≠ 0) :
    ∃ s, s < 32 ∧ blockSize size = 2 ^ s ∧ sub64 32 size = s := by
  unfold blockSize shl32 at *
  by_cases hs : sub64 32 size < 32
  · refine ⟨sub64 32 size, hs, ?_, rfl⟩
    rw [if_pos hs, Nat.one_mul]
    exact Nat.mod_eq_of_lt (Nat.pow_lt_pow_right (by norm_num) hs)
  · rw [if_neg hs] at h
    exact absurd rfl h

theorem sub64_of_valid {size : Nat} (h32 : size ≤ 32) : sub64 32 size = 32 - size := by
  unfold sub64
  omega

theorem blockSize_of_valid {size : Nat} (h1 : 1 ≤ size) (h32 : size ≤ 32) :
    blockSize size = 2 ^ (32 - size) := by
  unfold blockSize shl32
  rw [sub64_of_valid h32, if_pos (by omega), Nat.one_mul]
  exact Nat.mod_eq_of_lt (Nat.pow_lt_pow_right (by norm_num) (by omega))

theorem blockSize_zero : blockSize 0 = 0 := by decide

theorem pow_dvd_two32 {s : Nat} (hs : s < 32) : 2 ^ s ∣ 2 ^ 32 :=
  Nat.pow_dvd_pow 2 (by omega)

theorem pow_le_two31 {s : Nat} (hs : s < 32) : 2 ^ s ≤ 2 ^ 31 :=
  Nat.pow_le_pow_right (by norm_num) (by omega)

theorem sub32_of_le {a b : Nat} (ha : a < 2 ^ 32) (hba : b ≤ a) : sub32 a b = a - b := by
  unfold sub32
  omega

theorem add32_of_lt {a b : Nat} (h : a + b < 2 ^ 32) : add32 a b = a + b := by
  unfold add32
  exact Nat.mod_eq_of_lt h

theorem seqLoop_spec (v4 : IPv4Config) (used : List Nat) (bs : Nat)
    (hbs0 : 0 < bs) (hbs31 : bs ≤ 2 ^ 31) (hmax : v4.Max < 2 ^ 32) :
    ∀ fuel c, 0 < fuel → v4.Max + bs < c + fuel * bs →
      (∃ k, seqLoop v4 used bs fuel c = some (some (c + k * bs)) ∧
          c + k * bs ≤ v4.Max ∧ c + k * bs ∉ used ∧ ∀ j, j < k → c + j * bs ∈ used) ∨
      (seqLoop v4 used bs fuel c = some none ∧
          ∀ j, c + j * bs ≤ v4.Max → c + j * bs ∈ used) := by
  intro fuel
  induction fuel with
  | zero => intro c h0; omega
  | succ fuel ih =>
    intro c _ h
    rw [Nat.succ_mul] at h
    unfold seqLoop
    by_cases hc : c ≤ v4.Max
    · rw [if_pos hc]
      by_cases hu : c ∉ used
      · rw [if_pos hu]
        exact Or.inl ⟨0, by simp, by simpa using hc, by simpa using hu, by intro j hj; omega⟩
      · rw [if_neg hu]
        have hcu : c ∈ used := not_not.mp hu
        by_cases hb : c > sub32 v4.Max bs
        · rw [if_pos hb]
          refine Or.inr ⟨rfl, ?_⟩
          intro j hj
          rcases Nat.eq_zero_or_pos j with h0 | hpos
          · subst h0; simpa using hcu
          · exfalso
            have h1 : bs ≤ j * bs := Nat.le_mul_of_pos_left bs hpos
            have h2 : sub32 v4.Max bs = v4.Max - bs := sub32_of_le hmax (by omega)
            omega
        · rw [if_neg hb]
          have hnext : add32 c bs = c + bs := by
            apply add32_of_lt
            by_cases hmb : bs ≤ v4.Max
            · have h2 : sub32 v4.Max bs = v4.Max - bs := sub32_of_le hmax hmb
              omega
            · omega
          rw [hnext]
          have hfuel : 0 < fuel := by
            rcases Nat.eq_zero_or_pos fuel with h0 | hpos
            · subst h0; omega
            · exact hpos
          rcases ih (c + bs) hfuel (by omega) with ⟨k, hk, hle, hnu, hall⟩ | ⟨hk, hall⟩
          · refine Or.inl ⟨k + 1, ?_, ?_, ?_, ?_⟩
            · rw [hk]; congr 2; rw [Nat.succ_mul]; omega
            · rw [Nat.succ_mul]; omega
            · rw [Nat.succ_mul]
              have : c + (k * bs + bs) = c + bs + k * bs := by omega
              rw [this]; exact hnu
            · intro j hj
              rcases Nat.eq_zero_or_pos j with h0 | hpos
              · subst h0; simpa using hcu
              · obtain ⟨j', rfl⟩ : ∃ j', j = j' + 1 := ⟨j - 1, by omega⟩
                have := hall j' (by omega)
                rw [Nat.succ_mul]
                have e : c + (j' * bs + bs) = c + bs + j' * bs := by omega
                rw [e]; exact this
          · refine Or.inr ⟨hk, ?_⟩
            intro j hj
            rcases Nat.eq_zero_or_pos j with h0 | hpos
            · subst h0; simpa using hcu
            · obtain ⟨j', rfl⟩ : ∃ j', j = j' + 1 := ⟨j - 1, by omega⟩
              rw [Nat.succ_mul] at hj ⊢
              have e : c + (j' * bs + bs) = c + bs + j' * bs := by omega
              rw [e]; exact hall j' (by omega)
    · rw [if_neg hc]
      refine Or.inr ⟨rfl, ?_⟩
      intro j hj
      omega

theorem mem_markUsed {used : List Nat} {ip x : Nat} :
    x ∈ markUsed used ip ↔ x ∈ used ∨ x = ip := by
  unfold markUsed
  by_cases h : ip ∈ used
  · rw [if_pos h]
    constructor
    · exact Or.inl
    · rintro (h1 | h1)
      · exact h1
      · rw [h1]; exact h
  · rw [if_neg h]
    simp

theorem nodup_markUsed {used : List Nat} {ip : Nat} (h : used.Nodup) :
    (markUsed used ip).Nodup := by
  unfold markUsed
  by_cases hm : ip ∈ used
  · rw [if_pos hm]; exact h
  · rw [if_neg hm]
    rw [List.nodup_append]
    refine ⟨h, List.nodup_singleton ip, ?_⟩
    intro a ha hb
    rw [List.mem_singleton] at hb
    subst hb
    exact hm ha

theorem mem_recordLease {name : String} {used : List Nat} {s : Subnet} {x : Nat} :
    x ∈ recordLease name used s ↔ x ∈ used ∨ Marks name s x := by
  unfold recordLease Marks
  cases hn : s.IPv4Network with
  | none => simp
  | some net =>
    by_cases hname : s.NetworkName = name
    · simp only [if_pos hname, mem_markUsed]
      constructor
      · rintro (h | h)
        · exact Or.inl h
        · exact Or.inr ⟨hname, net, rfl, h.symm⟩
      · rintro (h | ⟨_, net', h1, h2⟩)
        · exact Or.inl h
        · right
          cases h1
          exact h2.symm
    · simp only [if_neg hname]
      constructor
      · exact Or.inl
      · rintro (h | ⟨h1, _⟩)
        · exact h
        · exact absurd h1 hname

theorem nodup_recordLease {name : String} {used : List Nat} {s : Subnet}
    (h : used.Nodup) : (recordLease name used s).Nodup := by
  unfold recordLease
  cases s.IPv4Network with
  | none => exact h
  | some net =>
    by_cases hname : s.NetworkName = name
    · simp only [if_pos hname]; exact nodup_markUsed h
    · simp only [if_neg hname]; exact h

theorem mem_foldl_recordLease (name : String) (subnets : List Subnet) :
    ∀ (acc : List Nat) (x : Nat),
      x ∈ subnets.foldl (recordLease name) acc ↔
        x ∈ acc ∨ ∃ s, s ∈ subnets ∧ Marks name s x := by
  induction subnets with
  | nil => intro acc x; simp
  | cons s rest ih =>
    intro acc x
    rw [List.foldl_cons, ih, mem_recordLease]
    constructor
    · rintro ((h | h) | ⟨t, ht, hm⟩)
      · exact Or.inl h
      · exact Or.inr ⟨s, List.mem_cons_self _ _, h⟩
      · exact Or.inr ⟨t, List.mem_cons_of_mem _ ht, hm⟩
    · rintro (h | ⟨t, ht, hm⟩)
      · exact Or.inl (Or.inl h)
      · rcases List.mem_cons.mp ht with rfl | ht'
        · exact Or.inl (Or.inr hm)
        · exact Or.inr ⟨t, ht', hm⟩

theorem mem_usedSubnets {name : String} {subnets : List Subnet} {x : Nat} :
    x ∈ usedSubnets name subnets ↔ ∃ s, s ∈ subnets ∧ Marks name s x := by
  unfold usedSubnets
  rw [mem_foldl_recordLease]
  simp

theorem nodup_foldl_recordLease (name : String) (subnets : List Subnet) :
    ∀ acc : List Nat, acc.Nodup → (subnets.foldl (recordLease name) acc).Nodup := by
  induction subnets with
  | nil => intro acc h; exact h
  | cons s rest ih =>
    intro acc h
    rw [List.foldl_cons]
    exact ih _ (nodup_recordLease h)

theorem nodup_usedSubnets (name : String) (subnets : List Subnet) :
    (usedSubnets name subnets).Nodup :=
  nodup_foldl_recordLease name subnets [] List.nodup_nil

theorem toInt32_lt (x : Int) : toInt32 x < 2 ^ 31 := by
  unfold toInt32
  split <;> omega

theorem toInt32_pos_le {x : Int} (h0 : 0 ≤ x) (hx : x ≤ 2 ^ 32) (hp : 0 < toInt32 x) :
    toInt32 x = x ∧ x < 2 ^ 31 := by
  unfold toInt32 at *
  split at hp <;> omega

theorem toInt32_of_lt {x : Int} (h0 : 0 ≤ x) (hx : x < 2 ^ 31) : toInt32 x = x := by
  unfold toInt32
  split <;> omega

theorem randInt_ok {raw : Nat} {total idx : Int} (h : randInt raw 0 total = .ok idx) :
    0 < toInt32 total ∧ 0 ≤ idx ∧ idx < toInt32 total := by
  unfold randInt at h
  simp only [sub_zero] at h
  by_cases hn : toInt32 total ≤ 0
  · rw [if_pos hn] at h; cases h
  · rw [if_neg hn] at h
    have hpos : 0 < toInt32 total := by omega
    injection h with h
    subst h
    refine ⟨hpos, ?_, ?_⟩
    · have := Int.emod_nonneg (raw : Int) (ne_of_gt hpos)
      omega
    · have := Int.emod_lt_of_pos (raw : Int) hpos
      omega

theorem randInt_error {raw : Nat} {total : Int} {e : AllocError}
    (h : randInt raw 0 total = .error e) :
    e = .panic .int31nArgument ∧ toInt32 total ≤ 0 := by
  unfold randInt at h
  simp only [sub_zero] at h
  by_cases hn : toInt32 total ≤ 0
  · rw [if_pos hn] at h
    injection h with h
    exact ⟨h.symm, hn⟩
  · rw [if_neg hn] at h; cases h

theorem toUint32_of_index {idx : Int} (h0 : 0 ≤ idx) (h1 : idx < 2 ^ 31) :
    ((toUint32 idx : Nat) : Int) = idx := by
  unfold toUint32
  have : idx % 2 ^ 32 = idx := Int.emod_eq_of_lt h0 (by omega)
  rw [this]
  exact Int.toNat_of_nonneg h0

theorem probeLoop_ok (draws : Nat → Nat) (v4 : IPv4Config) (used : List Nat)
    (bs : Nat) (total : Int) :
    ∀ remaining attempt x,
      probeLoop draws v4 used bs total remaining attempt = .ok (some x) →
      x ≤ v4.Max ∧ x ∉ used ∧
        ∃ idx : Nat, (idx : Int) < toInt32 total ∧ x = add32 v4.Min (mul32 idx bs) := by
  intro remaining
  induction remaining with
  | zero => intro attempt x h; simp [probeLoop] at h
  | succ remaining ih =>
    intro attempt x h
    unfold probeLoop at h
    cases hr : randInt (draws attempt) 0 total with
    | error e => rw [hr] at h; cases h
    | ok idx =>
      rw [hr] at h
      simp only at h
      obtain ⟨_, hi0, hi1⟩ := randInt_ok hr
      by_cases hgt : add32 v4.Min (mul32 (toUint32 idx) bs) > v4.Max
      · rw [if_pos hgt] at h
        exact ih _ _ h
      · rw [if_neg hgt] at h
        by_cases hu : add32 v4.Min (mul32 (toUint32 idx) bs) ∉ used
        · rw [if_pos hu] at h
          injection h with h
          injection h with h
          subst h
          refine ⟨by omega, hu, toUint32 idx, ?_, rfl⟩
          rw [toUint32_of_index hi0 (lt_trans hi1 (toInt32_lt total))]
          exact hi1
        · rw [if_neg hu] at h
          exact ih _ _ h

theorem probeLoop_error (draws : Nat → Nat) (v4 : IPv4Config) (used : List Nat)
    (bs : Nat) (total : Int) :
    ∀ remaining attempt e,
      probeLoop draws v4 used bs total remaining attempt = .error e →
      e = .panic .int31nArgument ∧ toInt32 total ≤ 0 := by
  intro remaining
  induction remaining with
  | zero => intro attempt e h; simp [probeLoop] at h
  | succ remaining ih =>
    intro attempt e h
    unfold probeLoop at h
    cases hr : randInt (draws attempt) 0 total with
    | error e' =>
      rw [hr] at h
      injection h with h
      subst h
      exact randInt_error hr
    | ok idx =>
      rw [hr] at h
      simp only at h
      by_cases hgt : add32 v4.Min (mul32 (toUint32 idx) bs) > v4.Max
      · rw [if_pos hgt] at h
        exact ih _ _ h
      · rw [if_neg hgt] at h
        by_cases hu : add32 v4.Min (mul32 (toUint32 idx) bs) ∉ used
        · rw [if_pos hu] at h; cases h
        · rw [if_neg hu] at h
          exact ih _ _ h

theorem totalBlocks_of_le {v4 : IPv4Config} (hmax : v4.Max < 2 ^ 32)
    (hle : v4.Min ≤ v4.Max) :
    totalBlocks v4 = (((v4.Max - v4.Min) / blockSize v4.Size : Nat) : Int) + 1 := by
  unfold totalBlocks
  rw [sub32_of_le hmax hle]

theorem totalBlocks_pos (v4 : IPv4Config) : 0 < totalBlocks v4 := by
  unfold totalBlocks
  exact Int.lt_add_one_iff.mpr (Int.ofNat_nonneg _)

theorem totalBlocks_le (v4 : IPv4Config) : totalBlocks v4 ≤ 2 ^ 32 := by
  unfold totalBlocks
  have h1 : sub32 v4.Max v4.Min < 2 ^ 32 := by
    unfold sub32
    exact Nat.mod_lt _ (by norm_num)
  have h2 : sub32 v4.Max v4.Min / blockSize v4.Size ≤ sub32 v4.Max v4.Min :=
    Nat.div_le_self _ _
  generalize sub32 v4.Max v4.Min / blockSize v4.Size = q at h2 ⊢
  omega

/-- A probed block is congruent to `min` modulo the block size. -/
theorem probe_mod {mn idx bs s : Nat} (hs : s < 32) (hbs : bs = 2 ^ s) :
    add32 mn (mul32 idx bs) % bs = mn % bs := by
  have hd : bs ∣ 2 ^ 32 := hbs ▸ pow_dvd_two32 hs
  unfold add32 mul32
  rw [Nat.mod_mod_of_dvd _ hd, Nat.add_mod, Nat.mod_mod_of_dvd _ hd,
    Nat.mul_mod_left, Nat.add_zero, Nat.mod_mod]

/-- With `min ≤ max`, a probed index below the number of blocks addresses a
block inside the range, without wrap-around. -/
theorem probe_in_range {v4 : IPv4Config} {idx : Nat} (hmax : v4.Max < 2 ^ 32)
    (hle : v4.Min ≤ v4.Max) (hbs : 0 < blockSize v4.Size)
    (hidx : (idx : Int) < totalBlocks v4) :
    add32 v4.Min (mul32 idx (blockSize v4.Size)) = v4.Min + idx * blockSize v4.Size ∧
      v4.Min + idx * blockSize v4.Size ≤ v4.Max := by
  rw [totalBlocks_of_le hmax hle] at hidx
  have h1 : idx ≤ (v4.Max - v4.Min) / blockSize v4.Size := by
    generalize (v4.Max - v4.Min) / blockSize v4.Size = q at hidx ⊢
    omega
  have h2 : idx * blockSize v4.Size ≤ v4.Max - v4.Min :=
    (Nat.le_div_iff_mul_le hbs).mp h1
  have h3 : mul32 idx (blockSize v4.Size) = idx * blockSize v4.Size := by
    unfold mul32
    exact Nat.mod_eq_of_lt (by omega)
  rw [h3, add32_of_lt (by omega)]
  exact ⟨rfl, by omega⟩

theorem seqFuel_enough {v4 : IPv4Config} {bs : Nat} (hbs0 : 0 < bs)
    (hmax : v4.Max < 2 ^ 32) : v4.Max + bs < v4.Min + seqFuel * bs := by
  unfold seqFuel
  have : 2 ^ 32 * 1 ≤ 2 ^ 32 * bs := Nat.mul_le_mul_left _ hbs0
  rw [Nat.add_mul]
  omega

theorem createSubnet_ok {m : Manager} {now : Int} {id : String} {cfg : Network}
    {v4 : IPv4Config} {ip : Nat} {sub : Subnet}
    (h : createSubnet m now id cfg v4 ip = .ok sub) :
    sub.IPv4Network = some { IP := ip, Size := v4.Size } ∧ sub.NetworkName = cfg.Name ∧
      sub.ClientID = id ∧ sub.Expired = false := by
  unfold createSubnet at h
  cases hp : cfg.Provider with
  | none => rw [hp] at h; cases h
  | some p =>
    rw [hp] at h
    injection h with h
    subst h
    exact ⟨rfl, rfl, rfl, rfl⟩

theorem createSubnet_of_provider (m : Manager) (now : Int) (id : String)
    {cfg : Network} {p : ProviderConfig} (v4 : IPv4Config) (ip : Nat)
    (hp : cfg.Provider = some p) :
    ∃ sub, createSubnet m now id cfg v4 ip = .ok sub := by
  unfold createSubnet
  rw [hp]
  exact ⟨_, rfl⟩

theorem createSubnet_error {m : Manager} {now : Int} {id : String} {cfg : Network}
    {v4 : IPv4Config} {ip : Nat} {e : AllocError}
    (h : createSubnet m now id cfg v4 ip = .error e) : e = .panic .nilDereference := by
  unfold createSubnet at h
  cases hp : cfg.Provider with
  | none => rw [hp] at h; injection h with h; exact h.symm
  | some p => rw [hp] at h; cases h

/-- The outcome of the sequential search over a proper block size: the lowest
unused candidate, or the full network when every candidate is used. -/
theorem findSequentialSubnet_spec (m : Manager) (now : Int) (id : String)
    (cfg : Network) (v4 : IPv4Config) (used : List Nat) (bs : Nat)
    (hbs0 : 0 < bs) (hbs31 : bs ≤ 2 ^ 31) (hmax : v4.Max < 2 ^ 32) :
    (∃ k, findSequentialSubnet m now id cfg v4 used bs =
            createSubnet m now id cfg v4 (v4.Min + k * bs) ∧
          v4.Min + k * bs ≤ v4.Max ∧ v4.Min + k * bs ∉ used ∧
          ∀ j, j < k → v4.Min + j * bs ∈ used) ∨
      (findSequentialSubnet m now id cfg v4 used bs = .error .networkFull ∧
          ∀ j, v4.Min + j * bs ≤ v4.Max → v4.Min + j * bs ∈ used) := by
  unfold findSequentialSubnet
  rcases seqLoop_spec v4 used bs hbs0 hbs31 hmax seqFuel v4.Min (by unfold seqFuel; norm_num)
      (seqFuel_enough hbs0 hmax) with ⟨k, hk, h1, h2, h3⟩ | ⟨hk, h1⟩
  · exact Or.inl ⟨k, by rw [hk], h1, h2, h3⟩
  · exact Or.inr ⟨by rw [hk], h1⟩

theorem found_of_seq {v4 : IPv4Config} {used : List Nat} {k : Nat}
    (h1 : v4.Min + k * blockSize v4.Size ≤ v4.Max)
    (h2 : v4.Min + k * blockSize v4.Size ∉ used) :
    Found v4 used (v4.Min + k * blockSize v4.Size) :=
  ⟨h1, h2, by rw [Nat.add_mul_mod_self_right], fun _ => ⟨k, rfl, h1⟩⟩

theorem found_of_probe {draws : Nat → Nat} {v4 : IPv4Config} {used : List Nat}
    {remaining attempt ip : Nat} (hmax : v4.Max < 2 ^ 32)
    (hbs : blockSize v4.Size ≠ 0)
    (h : probeLoop draws v4 used (blockSize v4.Size) (totalBlocks v4) remaining attempt
      = .ok (some ip)) :
    Found v4 used ip := by
  obtain ⟨hle, hu, idx, hidx, rfl⟩ := probeLoop_ok draws v4 used _ _ _ _ _ h
  obtain ⟨s, hs, hpow, _⟩ := blockSize_pow v4.Size hbs
  refine ⟨hle, hu, probe_mod hs hpow, ?_⟩
  intro hmm
  have hpos : 0 < toInt32 (totalBlocks v4) :=
    lt_of_le_of_lt (Int.ofNat_nonneg idx) hidx
  obtain ⟨heq, _⟩ := toInt32_pos_le (le_of_lt (totalBlocks_pos v4)) (totalBlocks_le v4) hpos
  rw [heq] at hidx
  obtain ⟨e1, e2⟩ := probe_in_range hmax hmm (Nat.pos_of_ne_zero hbs) hidx
  rw [e1]
  exact ⟨idx, rfl, e2⟩

/-- Every subnet GenerateIPv4Subnet returns carries a block found by one of
the two searches. -/
theorem generate_ok_found {m : Manager} {now : Int} {draws : Nat → Nat} {id : String}
    {cfg : Network} {subnets : List Subnet} {v4 : IPv4Config} {sub : Subnet}
    (hv4 : cfg.IPv4 = some v4) (hmax : v4.Max < 2 ^ 32)
    (h : GenerateIPv4Subnet m now draws id cfg subnets = .ok sub) :
    blockSize v4.Size ≠ 0 ∧ ∃ ip, sub.IPv4Network = some { IP := ip, Size := v4.Size } ∧
      Found v4 (usedSubnets cfg.Name subnets) ip := by
  unfold GenerateIPv4Subnet at h
  rw [hv4] at h
  simp only at h
  by_cases hbs : blockSize v4.Size = 0
  · rw [if_pos hbs] at h; cases h
  · rw [if_neg hbs] at h
    refine ⟨hbs, ?_⟩
    obtain ⟨s, hs, hpow, _⟩ := blockSize_pow v4.Size hbs
    have hbs0 : 0 < blockSize v4.Size := Nat.pos_of_ne_zero hbs
    have hbs31 : blockSize v4.Size ≤ 2 ^ 31 := hpow ▸ pow_le_two31 hs
    rw [if_neg (not_le.mpr (totalBlocks_pos v4))] at h
    have hseq : ∀ {sub : Subnet},
        findSequentialSubnet m now id cfg v4 (usedSubnets cfg.Name subnets)
          (blockSize v4.Size) = .ok sub →
        ∃ ip, sub.IPv4Network = some { IP := ip, Size := v4.Size } ∧
          Found v4 (usedSubnets cfg.Name subnets) ip := by
      intro sub hs
      rcases findSequentialSubnet_spec m now id cfg v4 (usedSubnets cfg.Name subnets)
        (blockSize v4.Size) hbs0 hbs31 hmax with ⟨k, hk, h1, h2, _⟩ | ⟨hk, _⟩
      · rw [hk] at hs
        exact ⟨_, (createSubnet_ok hs).1, found_of_seq h1 h2⟩
      · rw [hk] at hs; cases hs
    by_cases hut : utilizationReached (usedSubnets cfg.Name subnets).length (totalBlocks v4) = true
    · rw [if_pos hut] at h
      exact hseq h
    · rw [if_neg hut] at h
      unfold findRandomSubnet at h
      cases hp : probeLoop draws v4 (usedSubnets cfg.Name subnets) (blockSize v4.Size)
          (totalBlocks v4) (maxAttempts (usedSubnets cfg.Name subnets)) 0 with
      | error e => rw [hp] at h; cases h
      | ok r =>
        rw [hp] at h
        cases r with
        | none => exact hseq h
        | some ip =>
          exact ⟨ip, (createSubnet_ok h).1, found_of_probe hmax hbs hp⟩

/-- Range containment for a configuration with `min ≤ max`: the block of a
returned subnet lies in `[min, max]` and is congruent to `min` modulo the
block size. -/
theorem generate_in_range {m : Manager} {now : Int} {draws : Nat → Nat} {id : String}
    {cfg : Network} {subnets : List Subnet} {v4 : IPv4Config} {sub : Subnet}
    (hv4 : cfg.IPv4 = some v4) (hmax : v4.Max < 2 ^ 32) (hle : v4.Min ≤ v4.Max)
    (h : GenerateIPv4Subnet m now draws id cfg subnets = .ok sub) :
    ∃ ip, sub.IPv4Network = some { IP := ip, Size := v4.Size } ∧
      v4.Min ≤ ip ∧ ip ≤ v4.Max ∧
      ip % blockSize v4.Size = v4.Min % blockSize v4.Size := by
  obtain ⟨_, ip, hnet, hf⟩ := generate_ok_found hv4 hmax h
  obtain ⟨k, hk, _⟩ := hf.candidate hle
  exact ⟨ip, hnet, by omega, hf.le_max, hf.aligned⟩

/-- Masking a `uint32` with `0xFFFFFFFF << s` clears its `s` low bits. -/
theorem and_shl32_mask {x s : Nat} (hx : x < 2 ^ 32) (hs : s < 32) :
    x &&& shl32 0xFFFFFFFF s = x / 2 ^ s * 2 ^ s := by
  unfold shl32
  rw [if_pos hs]
  apply Nat.eq_of_testBit_eq
  intro i
  have e1 : (0xFFFFFFFF : Nat) * 2 ^ s = 2 ^ s * (2 ^ 32 - 1) := by
    rw [Nat.mul_comm]
    rfl
  have e2 : x / 2 ^ s * 2 ^ s = 2 ^ s * (x >>> s) := by
    rw [Nat.shiftRight_eq_div_pow, Nat.mul_comm]
  rw [Nat.testBit_and, Nat.testBit_mod_two_pow, e1, e2, Nat.testBit_mul_pow_two,
    Nat.testBit_mul_pow_two, Nat.testBit_two_pow_sub_one, Nat.testBit_shiftRight]
  by_cases h1 : i ≥ s
  · have e3 : s + (i - s) = i := by omega
    rw [e3]
    by_cases h2 : i < 32
    · have h3 : i - s < 32 := by omega
      simp [h1, h2, h3]
    · have h4 : x.testBit i = false :=
        Nat.testBit_lt_two_pow (lt_of_lt_of_le hx (Nat.pow_le_pow_right (by norm_num) (by omega)))
      simp [h4]
  · simp [h1]

/-- Two distinct `uint32` addresses that are congruent modulo `2^s` stay
distinct under the mask `0xFFFFFFFF << s`. -/
theorem masked_ne_of_congruent {x y s : Nat} (hx : x < 2 ^ 32) (hy : y < 2 ^ 32)
    (hs : s < 32) (hmod : x % 2 ^ s = y % 2 ^ s) (hne : x ≠ y) :
    x &&& shl32 0xFFFFFFFF s ≠ y &&& shl32 0xFFFFFFFF s := by
  rw [and_shl32_mask hx hs, and_shl32_mask hy hs]
  intro h
  apply hne
  have hx' := Nat.div_add_mod x (2 ^ s)
  have hy' := Nat.div_add_mod y (2 ^ s)
  rw [Nat.mul_comm] at hx' hy'
  omega

theorem overlap_false_of_congruent {x y size s : Nat} (hx : x < 2 ^ 32) (hy : y < 2 ^ 32)
    (hs : s < 32) (hsz : sub64 32 size = s) (hmod : x % 2 ^ s = y % 2 ^ s) (hne : x ≠ y) :
    IPv4Net.Overlap { IP := x, Size := size } { IP := y, Size := size } = false := by
  unfold IPv4Net.Overlap IPv4Net.mask
  simp only [lt_irrefl, if_false, hsz, Nat.mod_eq_of_lt hx, Nat.mod_eq_of_lt hy]
  exact beq_false_of_ne (masked_ne_of_congruent hx hy hs hmod hne)

/-- The sequential search, for a present provider section and a proper block
size, returns the lowest unused candidate or reports the network full. -/
theorem findSequentialSubnet_lowest (m : Manager) (now : Int) (id : String)
    {cfg : Network} {p : ProviderConfig} {v4 : IPv4Config} (used : List Nat)
    (hp : cfg.Provider = some p) (hbs : blockSize v4.Size ≠ 0) (hmax : v4.Max < 2 ^ 32) :
    (∃ ip sub, findSequentialSubnet m now id cfg v4 used (blockSize v4.Size) = .ok sub ∧
        sub.IPv4Network = some { IP := ip, Size := v4.Size } ∧
        IsCandidate v4 ip ∧ ip ∉ used ∧
        ∀ c, IsCandidate v4 c → c ∉ used → ip ≤ c) ∨
      (findSequentialSubnet m now id cfg v4 used (blockSize v4.Size) = .error .networkFull ∧
        ∀ c, IsCandidate v4 c → c ∈ used) := by
  obtain ⟨s, hs, hpow, _⟩ := blockSize_pow v4.Size hbs
  have hbs0 : 0 < blockSize v4.Size := Nat.pos_of_ne_zero hbs
  have hbs31 : blockSize v4.Size ≤ 2 ^ 31 := hpow ▸ pow_le_two31 hs
  rcases findSequentialSubnet_spec m now id cfg v4 used (blockSize v4.Size) hbs0 hbs31 hmax
    with ⟨k, hk, h1, h2, h3⟩ | ⟨hk, h1⟩
  · obtain ⟨sub, hsub⟩ := createSubnet_of_provider m now id v4
      (v4.Min + k * blockSize v4.Size) hp
    refine Or.inl ⟨_, sub, hk.trans hsub, (createSubnet_ok hsub).1, ⟨k, rfl, h1⟩, h2, ?_⟩
    rintro c ⟨j, rfl, _⟩ hcu
    have hkj : k ≤ j := by
      by_contra hlt
      exact hcu (h3 j (by omega))
    have := Nat.mul_le_mul_right (blockSize v4.Size) hkj
    omega
  · refine Or.inr ⟨hk, ?_⟩
    rintro c ⟨j, rfl, hj⟩
    exact h1 j hj

/-- GenerateIPv4Subnet on a configuration with a present ipv4 section and a
proper block size: the choice between the two searches. -/
theorem generate_unfold (m : Manager) (now : Int) (draws : Nat → Nat) (id : String)
    {cfg : Network} (subnets : List Subnet) {v4 : IPv4Config}
    (hv4 : cfg.IPv4 = some v4) (hbs : blockSize v4.Size ≠ 0) :
    GenerateIPv4Subnet m now draws id cfg subnets =
      if utilizationReached (usedSubnets cfg.Name subnets).length (totalBlocks v4) then
        findSequentialSubnet m now id cfg v4 (usedSubnets cfg.Name subnets) (blockSize v4.Size)
      else
        findRandomSubnet m now draws id cfg v4 (usedSubnets cfg.Name subnets)
          (blockSize v4.Size) (totalBlocks v4) := by
  unfold GenerateIPv4Subnet
  rw [hv4]
  simp only
  rw [if_neg hbs, if_neg (not_le.mpr (totalBlocks_pos v4))]

/-- Completeness of the allocator away from the failure of the random-index
bound: for a configuration with `min ≤ max`, a proper block size and a present
provider section, and either fewer than `2^31` blocks or a utilization that
selects the sequential search, the network is reported full exactly when every
candidate is used, and a subnet is returned whenever a candidate is unused. -/
theorem generate_complete {m : Manager} {now : Int} {draws : Nat → Nat} {id : String}
    {cfg : Network} {subnets : List Subnet} {v4 : IPv4Config} {p : ProviderConfig}
    (hv4 : cfg.IPv4 = some v4) (hp : cfg.Provider = some p)
    (hs1 : 1 ≤ v4.Size) (hs32 : v4.Size ≤ 32)
    (hmax : v4.Max < 2 ^ 32) (hle : v4.Min ≤ v4.Max)
    (hsafe : totalBlocks v4 < 2 ^ 31 ∨
      utilizationReached (usedSubnets cfg.Name subnets).length (totalBlocks v4) = true) :
    (GenerateIPv4Subnet m now draws id cfg subnets = .error .networkFull ↔
        ∀ c, IsCandidate v4 c → c ∈ usedSubnets cfg.Name subnets) ∧
      ((∃ c, IsCandidate v4 c ∧ c ∉ usedSubnets cfg.Name subnets) →
        ∃ sub, GenerateIPv4Subnet m now draws id cfg subnets = .ok sub) := by
  have hbs : blockSize v4.Size ≠ 0 := by
    rw [blockSize_of_valid hs1 hs32]
    exact (pow_pos (by norm_num) _).ne'
  have hseq : ∀ r, r = findSequentialSubnet m now id cfg v4 (usedSubnets cfg.Name subnets)
        (blockSize v4.Size) →
      (r = .error .networkFull ↔ ∀ c, IsCandidate v4 c → c ∈ usedSubnets cfg.Name subnets) ∧
      ((∃ c, IsCandidate v4 c ∧ c ∉ usedSubnets cfg.Name subnets) → ∃ sub, r = .ok sub) := by
    intro r hr
    rcases findSequentialSubnet_lowest m now id
      (usedSubnets cfg.Name subnets) hp hbs hmax with ⟨ip, sub, h1, _, h3, h4, _⟩ | ⟨h1, h2⟩
    · rw [hr, h1]
      refine ⟨⟨fun h => (by cases h), fun h => absurd (h ip h3) h4⟩, fun _ => ⟨sub, rfl⟩⟩
    · rw [hr, h1]
      refine ⟨⟨fun _ => h2, fun _ => rfl⟩, ?_⟩
      rintro ⟨c, hc, hcu⟩
      exact absurd (h2 c hc) hcu
  have hfound : ∀ ip, Found v4 (usedSubnets cfg.Name subnets) ip →
      (createSubnet m now id cfg v4 ip = .error .networkFull ↔
        ∀ c, IsCandidate v4 c → c ∈ usedSubnets cfg.Name subnets) ∧
      ((∃ c, IsCandidate v4 c ∧ c ∉ usedSubnets cfg.Name subnets) →
        ∃ sub, createSubnet m now id cfg v4 ip = .ok sub) := by
    intro ip hf
    obtain ⟨sub, hsub⟩ := createSubnet_of_provider m now id v4 ip hp
    rw [hsub]
    exact ⟨⟨fun h => (by cases h), fun h => absurd (h ip (hf.candidate hle)) hf.unused⟩,
      fun _ => ⟨sub, rfl⟩⟩
  rw [generate_unfold m now draws id subnets hv4 hbs]
  by_cases hut : utilizationReached (usedSubnets cfg.Name subnets).length (totalBlocks v4) = true
  · rw [if_pos hut]
    exact hseq _ rfl
  · rw [if_neg hut]
    have hlt : totalBlocks v4 < 2 ^ 31 := by
      rcases hsafe with h | h
      · exact h
      · exact absurd h hut
    unfold findRandomSubnet
    cases hpr : probeLoop draws v4 (usedSubnets cfg.Name subnets) (blockSize v4.Size)
        (totalBlocks v4) (maxAttempts (usedSubnets cfg.Name subnets)) 0 with
    | error e =>
      exfalso
      obtain ⟨_, hneg⟩ := probeLoop_error _ _ _ _ _ _ _ _ hpr
      rw [toInt32_of_lt (le_of_lt (totalBlocks_pos v4)) hlt] at hneg
      exact absurd (totalBlocks_pos v4) (not_lt.mpr hneg)
    | ok r =>
      cases r with
      | none => exact hseq _ rfl
      | some ip => exact hfound ip (found_of_probe hmax hbs hpr)

/-- The result of GenerateIPv4Subnet is never the invalid-range error: the
number of blocks is computed from an unsigned difference and is positive. -/
theorem generate_ne_invalidRange (m : Manager) (now : Int) (draws : Nat → Nat)
    (id : String) (cfg : Network) (subnets : List Subnet) :
    GenerateIPv4Subnet m now draws id cfg subnets ≠ .error .invalidRange := by
  intro h
  cases hv4 : cfg.IPv4 with
  | none =>
    unfold GenerateIPv4Subnet at h
    rw [hv4] at h
    cases h
  | some v4 =>
    by_cases hbs : blockSize v4.Size = 0
    · unfold GenerateIPv4Subnet at h
      rw [hv4] at h
      simp only at h
      rw [if_pos hbs] at h
      cases h
    · rw [generate_unfold m now draws id subnets hv4 hbs] at h
      have hseq : findSequentialSubnet m now id cfg v4 (usedSubnets cfg.Name subnets)
          (blockSize v4.Size) ≠ .error .invalidRange := by
        intro h'
        unfold findSequentialSubnet at h'
        split at h'
        · cases h'
        · cases h'
        · cases createSubnet_error h'
      split at h
      · exact hseq h
      · unfold findRandomSubnet at h
        split at h
        · rename_i e hpr
          injection h with h
          subst h
          cases (probeLoop_error _ _ _ _ _ _ _ _ hpr).1
        · cases createSubnet_error h
        · exact hseq h

/-- C1, evaluated at a failing input. The network 10.10.0.0/16 with blocks of
length 24, min 10.10.2.0 and max 10.10.1.0 passes Validate (which does not look
at max) and is left unchanged by Canonicalize; with an empty store and a first
random index of `2^24 - 1` GenerateIPv4Subnet returns the block 10.10.1.0/24,
whose base address lies below min, so `min ≤ ip` fails. -/
theorem reversed_range_block_below_min :
    reversedByOne.Validate = none ∧
    reversedByOne.Canonicalize = .ok reversedByOne ∧
    (∃ sub, GenerateIPv4Subnet hostA 0 (fun _ => 2 ^ 24 - 1) "h" reversedByOne [] = .ok sub ∧
      sub.IPv4Network = some { IP := dotted 10 10 1 0, Size := 24 }) ∧
    ¬ (dotted 10 10 2 0 ≤ dotted 10 10 1 0) := by
  refine ⟨by decide, by decide, ⟨_, rfl, rfl⟩, by decide⟩

/-- C2: for a configuration with an ipv4 section, and leases of the network
that all have the block length of the configuration and a base address of the
form `min + k * blockSize`, a subnet returned by GenerateIPv4Subnet (by either
search, for any raw random values) carries a block whose base address differs
from that of every listed lease of the network and that overlaps none of
them. -/
theorem returned_block_disjoint_from_leases (m : Manager) (now : Int)
    (draws : Nat → Nat) (id : String) (cfg : Network) (subnets : List Subnet)
    (v4 : IPv4Config) (sub : Subnet)
    (hv4 : cfg.IPv4 = some v4) (hmax : v4.Max < 2 ^ 32)
    (hleases : ∀ s, s ∈ subnets → s.NetworkName = cfg.Name →
      ∀ net, s.IPv4Network = some net →
        net.Size = v4.Size ∧ net.IP < 2 ^ 32 ∧ ∃ k, net.IP = v4.Min + k * blockSize v4.Size)
    (h : GenerateIPv4Subnet m now draws id cfg subnets = .ok sub) :
    ∃ blk, sub.IPv4Network = some blk ∧
      ∀ s, s ∈ subnets → s.NetworkName = cfg.Name →
        ∀ net, s.IPv4Network = some net →
          blk.IP ≠ net.IP ∧ blk.Overlap net = false ∧ net.Overlap blk = false := by
  obtain ⟨hbs, ip, hnet, hf⟩ := generate_ok_found hv4 hmax h
  obtain ⟨t, ht, hpow, hsub⟩ := blockSize_pow v4.Size hbs
  refine ⟨_, hnet, ?_⟩
  intro s hs hname net hsnet
  obtain ⟨hsize, hlt, k, hk⟩ := hleases s hs hname net hsnet
  have hne : ip ≠ net.IP := by
    intro heq
    exact hf.unused (mem_usedSubnets.mpr ⟨s, hs, hname, net, hsnet, heq.symm⟩)
  have hmod : ip % 2 ^ t = net.IP % 2 ^ t := by
    rw [← hpow, hf.aligned, hk, Nat.add_mul_mod_self_right]
  have hip : ip < 2 ^ 32 := lt_of_le_of_lt hf.le_max hmax
  obtain ⟨nip, nsize⟩ := net
  simp only at hsize hlt hne hmod
  subst hsize
  exact ⟨hne, overlap_false_of_congruent hip hlt ht hsub hmod hne,
    overlap_false_of_congruent hlt hip ht hsub hmod.symm (Ne.symm hne)⟩

/-- Witness of C2: with the lease 10.10.5.0/24 in the store and random indices
4, 5, ... the first probe hits the used block and the second returns
10.10.6.0/24, which differs from and does not overlap the stored lease. -/
theorem returned_block_disjoint_witness :
    GenerateIPv4Subnet hostA 0 (fun n => n + 4) "h" rangedNetwork
        [sampleLease "peer" "v" (dotted 10 10 5 0) 24] =
      .ok (freshLease "v" (dotted 10 10 6 0)) ∧
    ∃ blk, (freshLease "v" (dotted 10 10 6 0)).IPv4Network = some blk ∧
      ∀ s, s ∈ [sampleLease "peer" "v" (dotted 10 10 5 0) 24] →
        s.NetworkName = rangedNetwork.Name →
        ∀ net, s.IPv4Network = some net →
          blk.IP ≠ net.IP ∧ blk.Overlap net = false ∧ net.Overlap blk = false :=
  ⟨by decide,
   returned_block_disjoint_from_leases hostA 0 (fun n => n + 4) "h" rangedNetwork
     [sampleLease "peer" "v" (dotted 10 10 5 0) 24] rangedV4
     (freshLease "v" (dotted 10 10 6 0)) rfl (by decide)
     (by
       intro s hs _ net hnet
       rw [List.mem_singleton] at hs
       subst hs
       injection hnet with hnet
       subst hnet
       exact ⟨rfl, by decide, 4, by decide⟩)
     (by decide)⟩

/-- C3, evaluated at a failing input. The network 0.0.0.0/0 with blocks of
length 32 passes Validate and Canonicalize gives it min 0.0.0.1 and max
255.255.255.254, so `min ≤ max` and `1 ≤ size ≤ 32`; with an empty store its
candidate 0.0.0.1 is unused. But the number of blocks, `2^32 - 2`, is converted
to a negative `int32`, and for every sequence of raw random values the first
call of randInt panics: no subnet is returned. -/
theorem whole_space_allocation_panics (draws : Nat → Nat) :
    (wholeSpaceStored.Validate = none ∧ wholeSpaceStored.Canonicalize = .ok wholeSpace ∧
      wholeSpace.IPv4 = some wholeSpaceV4) ∧
    (wholeSpaceV4.Min ≤ wholeSpaceV4.Max ∧ 1 ≤ wholeSpaceV4.Size ∧ wholeSpaceV4.Size ≤ 32) ∧
    (IsCandidate wholeSpaceV4 1 ∧ 1 ∉ usedSubnets wholeSpace.Name []) ∧
    totalBlocks wholeSpaceV4 = 2 ^ 32 - 2 ∧ toInt32 (totalBlocks wholeSpaceV4) = -2 ∧
    GenerateIPv4Subnet hostA 0 draws "h" wholeSpace [] =
      .error (.panic .int31nArgument) :=
  ⟨by decide, by decide, ⟨⟨0, by decide, by decide⟩, by decide⟩, by decide, by decide, rfl⟩

/-- C5, evaluated at a failing input. For min 10.10.2.0, max 10.10.0.0 and
block length 24 the number of blocks over the integers is
`(max - min) / 256 + 1 = -1`, yet GenerateIPv4Subnet computes `16777215` from
the wrapped unsigned difference: for no sequence of raw random values does it
return the invalid-range error, and when every index is 0 it reports the
network full after the probes are exhausted. -/
theorem reversed_range_not_rejected :
    ((dotted 10 10 0 0 : Int) - (dotted 10 10 2 0 : Int)) / 256 + 1 ≤ 0 ∧
    totalBlocks
      { Network := some { IP := dotted 10 10 0 0, Size := 16 }
        Min := dotted 10 10 2 0, Max := dotted 10 10 0 0, Size := 24 } = 16777215 ∧
    (∀ draws, GenerateIPv4Subnet hostA 0 draws "h" reversedByTwo [] ≠
      .error .invalidRange) ∧
    GenerateIPv4Subnet hostA 0 zeroDraws "h" reversedByTwo [] = .error .networkFull := by
  refine ⟨by decide, by decide, fun draws => generate_ne_invalidRange _ _ _ _ _ _, ?_⟩
  set_option maxRecDepth 100000 in decide

theorem utilizationReached_of_ratio {used : Nat} {total : Int} (ht : 0 < total)
    (h : (4 : ℚ) / 5 ≤ (used : ℚ) / (total : ℚ)) : utilizationReached used total = true := by
  unfold utilizationReached
  rw [decide_eq_true_eq]
  have ht' : (0 : ℚ) < (total : ℚ) := by exact_mod_cast ht
  rw [div_le_div_iff₀ (by norm_num) ht'] at h
  have h' : (4 : ℚ) * (total : ℚ) ≤ 5 * (used : ℚ) := by linarith
  exact_mod_cast h'

/-- C4: for a configuration as Validate lets it through (ipv4 and provider
sections present, block length between 1 and 32) with `min ≤ max`, and leases
whose utilization `|used| / totalBlocks` is at least 0.80 and that leave a
candidate unused, GenerateIPv4Subnet is the sequential search and returns the
lowest unused candidate block, whatever the raw random values are. -/
theorem dense_returns_lowest_unused (m : Manager) (now : Int) (draws : Nat → Nat)
    (id : String) (cfg : Network) (subnets : List Subnet) (v4 : IPv4Config)
    (p : ProviderConfig) (c : Nat)
    (hv4 : cfg.IPv4 = some v4) (hp : cfg.Provider = some p)
    (hs1 : 1 ≤ v4.Size) (hs32 : v4.Size ≤ 32)
    (hmax : v4.Max < 2 ^ 32) (_hle : v4.Min ≤ v4.Max)
    (hut : (4 : ℚ) / 5 ≤
      ((usedSubnets cfg.Name subnets).length : ℚ) / ((totalBlocks v4 : Int) : ℚ))
    (hc : IsCandidate v4 c) (hcu : c ∉ usedSubnets cfg.Name subnets) :
    GenerateIPv4Subnet m now draws id cfg subnets =
        findSequentialSubnet m now id cfg v4 (usedSubnets cfg.Name subnets)
          (blockSize v4.Size) ∧
      ∃ ip sub, GenerateIPv4Subnet m now draws id cfg subnets = .ok sub ∧
        sub.IPv4Network = some { IP := ip, Size := v4.Size } ∧
        IsCandidate v4 ip ∧ ip ∉ usedSubnets cfg.Name subnets ∧
        ∀ c', IsCandidate v4 c' → c' ∉ usedSubnets cfg.Name subnets → ip ≤ c' := by
  have hbs : blockSize v4.Size ≠ 0 := by
    rw [blockSize_of_valid hs1 hs32]
    exact (pow_pos (by norm_num) _).ne'
  have hsel : GenerateIPv4Subnet m now draws id cfg subnets =
      findSequentialSubnet m now id cfg v4 (usedSubnets cfg.Name subnets)
        (blockSize v4.Size) := by
    rw [generate_unfold m now draws id subnets hv4 hbs,
      if_pos (utilizationReached_of_ratio (totalBlocks_pos v4) hut)]
  refine ⟨hsel, ?_⟩
  rcases findSequentialSubnet_lowest m now id (usedSubnets cfg.Name subnets) hp hbs hmax
    with ⟨ip, sub, h1, h2, h3, h4, h5⟩ | ⟨_, h2⟩
  · exact ⟨ip, sub, hsel.trans h1, h2, h3, h4, h5⟩
  · exact absurd (h2 c hc) hcu

/-- Witness of C4: five blocks of which four are leased
(utilization exactly 0.80); the allocator returns the one left, 10.10.4.0/24. -/
theorem dense_returns_lowest_unused_witness :
    GenerateIPv4Subnet hostA 0 zeroDraws "h" fiveBlocks fourLeases =
        findSequentialSubnet hostA 0 "h" fiveBlocks fiveBlocksV4
          (usedSubnets fiveBlocks.Name fourLeases) (blockSize fiveBlocksV4.Size) ∧
      ∃ ip sub, GenerateIPv4Subnet hostA 0 zeroDraws "h" fiveBlocks fourLeases = .ok sub ∧
        sub.IPv4Network = some { IP := ip, Size := fiveBlocksV4.Size } ∧
        IsCandidate fiveBlocksV4 ip ∧ ip ∉ usedSubnets fiveBlocks.Name fourLeases ∧
        ∀ c', IsCandidate fiveBlocksV4 c' → c' ∉ usedSubnets fiveBlocks.Name fourLeases →
          ip ≤ c' :=
  dense_returns_lowest_unused hostA 0 zeroDraws "h" fiveBlocks fourLeases fiveBlocksV4
    vxlanProvider (dotted 10 10 4 0) rfl rfl (by decide) (by decide) (by decide) (by decide)
    (by
      have h1 : (usedSubnets fiveBlocks.Name fourLeases).length = 4 := by decide
      have h2 : totalBlocks fiveBlocksV4 = 5 := by decide
      rw [h1, h2]
      norm_num)
    ⟨3, by decide, by decide⟩ (by decide)

theorem shl32_one_eq_mod {p : Nat} (hp : p ≤ 32) :
    shl32 1 (sub64 32 p) = 2 ^ (32 - p) % 2 ^ 32 := by
  rw [sub64_of_valid hp]
  unfold shl32
  by_cases h : 32 - p < 32
  · rw [if_pos h, Nat.one_mul]
  · rw [if_neg h]
    have : 32 - p = 32 := by omega
    rw [this, Nat.mod_self]

/-- The arithmetic of Canonicalize on an aligned supernet `B/p` with block
length `size ≥ p + 2`: no wrap-around disturbs the defaults. -/
theorem default_range_arith {B p size : Nat} (hB : B < 2 ^ 32)
    (halign : B % 2 ^ (32 - p) = 0) (hps : p + 2 ≤ size) (hs32 : size ≤ 32) :
    4 * 2 ^ (32 - size) ≤ 2 ^ (32 - p) ∧ B + 2 ^ (32 - p) ≤ 2 ^ 32 ∧
      2 ^ (32 - size) ∣ B ∧ 2 ^ (32 - size) ∣ 2 ^ (32 - p) := by
  have e : 2 ^ (32 - p) = 2 ^ (32 - size) * 2 ^ (size - p) := by
    rw [← pow_add]
    congr 1
    omega
  have h4 : 4 ≤ 2 ^ (size - p) := by
    have : 2 ^ 2 ≤ 2 ^ (size - p) := Nat.pow_le_pow_right (by norm_num) (by omega)
    simpa using this
  have hdvd : 2 ^ (32 - size) ∣ 2 ^ (32 - p) := ⟨_, e⟩
  have hSB : 2 ^ (32 - p) ∣ B := Nat.dvd_of_mod_eq_zero halign
  refine ⟨?_, ?_, dvd_trans hdvd hSB, hdvd⟩
  · rw [e, Nat.mul_comm 4]
    exact Nat.mul_le_mul_left _ h4
  · obtain ⟨q, hq⟩ := hSB
    have e32 : 2 ^ 32 = 2 ^ (32 - p) * 2 ^ p := by
      rw [← pow_add]
      congr 1
      omega
    have hpos : 0 < 2 ^ (32 - p) := pow_pos (by norm_num) _
    have hq2 : q < 2 ^ p := by
      apply Nat.lt_of_mul_lt_mul_left (a := 2 ^ (32 - p))
      rw [← hq, ← e32]
      exact hB
    calc B + 2 ^ (32 - p) = 2 ^ (32 - p) * (q + 1) := by rw [hq, Nat.mul_add, Nat.mul_one]
      _ ≤ 2 ^ (32 - p) * 2 ^ p := Nat.mul_le_mul_left _ hq2
      _ = 2 ^ 32 := e32.symm

/-- C6: for a network whose supernet base `B` is aligned to its length `p`,
whose block length `s` satisfies `p + 2 ≤ s ≤ 32` and whose `min` and `max` are
unset, Canonicalize sets `min` to the base of the second block and `max` to the
last address of the second-to-last block, and every subnet GenerateIPv4Subnet
then returns carries a block of length `s` that is aligned, lies inside the
supernet and is neither its first nor its last block. -/
theorem default_range_excludes_edge_blocks (m : Manager) (now : Int)
    (draws : Nat → Nat) (id : String) (n : Network) (v4 : IPv4Config) (B p : Nat)
    (subnets : List Subnet)
    (hv4 : n.IPv4 = some v4) (hnet : v4.Network = some { IP := B, Size := p })
    (hB : B < 2 ^ 32) (halign : B % 2 ^ (32 - p) = 0)
    (hps : p + 2 ≤ v4.Size) (hs32 : v4.Size ≤ 32)
    (hmin : v4.Min = 0) (hmax : v4.Max = 0) :
    ∃ n' v4', n.Canonicalize = .ok n' ∧ n'.IPv4 = some v4' ∧ v4'.Size = v4.Size ∧
      v4'.Min = B + 2 ^ (32 - v4.Size) ∧
      v4'.Max = B + 2 ^ (32 - p) - 2 ^ (32 - v4.Size) - 1 ∧
      ∀ sub, GenerateIPv4Subnet m now draws id n' subnets = .ok sub →
        ∃ ip, sub.IPv4Network = some { IP := ip, Size := v4.Size } ∧
          ip % 2 ^ (32 - v4.Size) = 0 ∧
          B ≤ ip ∧ ip + 2 ^ (32 - v4.Size) ≤ B + 2 ^ (32 - p) ∧
          ip ≠ B ∧ ip ≠ B + 2 ^ (32 - p) - 2 ^ (32 - v4.Size) := by
  obtain ⟨h4, hBS, hdB, hdS⟩ := default_range_arith hB halign hps hs32
  have hbs : blockSize v4.Size = 2 ^ (32 - v4.Size) := blockSize_of_valid (by omega) hs32
  have hbs1 : 0 < 2 ^ (32 - v4.Size) := pow_pos (by norm_num) _
  have hT : shl32 1 (sub64 32 p) = 2 ^ (32 - p) % 2 ^ 32 := shl32_one_eq_mod (by omega)
  have hminEq : add32 B (shl32 1 (sub64 32 v4.Size)) = B + 2 ^ (32 - v4.Size) := by
    have : shl32 1 (sub64 32 v4.Size) = 2 ^ (32 - v4.Size) := hbs
    rw [this]
    exact add32_of_lt (by omega)
  have hmaxEq : sub32 (sub32 (add32 B (shl32 1 (sub64 32 p)))
      (shl32 1 (sub64 32 v4.Size))) 1 = B + 2 ^ (32 - p) - 2 ^ (32 - v4.Size) - 1 := by
    have : shl32 1 (sub64 32 v4.Size) = 2 ^ (32 - v4.Size) := hbs
    rw [this, hT]
    unfold sub32 add32
    generalize 2 ^ (32 - p) = S at *
    generalize 2 ^ (32 - v4.Size) = b at *
    omega
  have hcan : n.Canonicalize = .ok
      { n with
        IPv4 := some { v4 with Min := B + 2 ^ (32 - v4.Size)
                               Max := B + 2 ^ (32 - p) - 2 ^ (32 - v4.Size) - 1 }
        IPMasq := match n.IPMasq with
          | none => some true
          | some b => some b } := by
    unfold Network.Canonicalize
    rw [hv4]
    simp only [canonicalizeMin, canonicalizeMax, hmin, hmax, hnet, EmptyIPv4Addr, if_true,
      IPv4Net.NextNetwork, hminEq, hmaxEq]
  refine ⟨_, _, hcan, rfl, rfl, rfl, rfl, ?_⟩
  intro sub hsub
  have hrange : (B + 2 ^ (32 - p) - 2 ^ (32 - v4.Size) - 1 < 2 ^ 32) ∧
      (B + 2 ^ (32 - v4.Size) ≤ B + 2 ^ (32 - p) - 2 ^ (32 - v4.Size) - 1) := by
    constructor <;> omega
  obtain ⟨ip, hip, hlo, hhi, hal⟩ := @generate_in_range m now draws id _ subnets
    { v4 with Min := B + 2 ^ (32 - v4.Size)
              Max := B + 2 ^ (32 - p) - 2 ^ (32 - v4.Size) - 1 } sub rfl
    hrange.1 hrange.2 hsub
  simp only at hip hlo hhi hal
  rw [hbs] at hal
  have hzero : ip % 2 ^ (32 - v4.Size) = 0 := by
    rw [hal, Nat.add_mod_right]
    exact Nat.mod_eq_zero_of_dvd hdB
  have hlast : ip + 2 ^ (32 - v4.Size) ≤ B + 2 ^ (32 - p) - 2 ^ (32 - v4.Size) := by
    obtain ⟨a, ha⟩ := Nat.dvd_of_mod_eq_zero hzero
    obtain ⟨b, hb⟩ : 2 ^ (32 - v4.Size) ∣ B + 2 ^ (32 - p) - 2 ^ (32 - v4.Size) :=
      Nat.dvd_sub' (Dvd.dvd.add hdB hdS) (dvd_refl _)
    have hab : a < b := by
      apply Nat.lt_of_mul_lt_mul_left (a := 2 ^ (32 - v4.Size))
      rw [← ha, ← hb]
      omega
    calc ip + 2 ^ (32 - v4.Size) = 2 ^ (32 - v4.Size) * (a + 1) := by
          rw [ha, Nat.mul_add, Nat.mul_one]
      _ ≤ 2 ^ (32 - v4.Size) * b := Nat.mul_le_mul_left _ hab
      _ = _ := hb.symm
  exact ⟨ip, hip, hzero, by omega, by omega, by omega, by omega⟩

/-- Witness of C6: the network 10.10.0.0/16 with blocks of length 24; with
random index 5 the allocator returns 10.10.6.0/24, and every block it returns
obeys the bounds. -/
theorem default_range_witness :
    (∃ n', unsetRange.Canonicalize = .ok n' ∧
      GenerateIPv4Subnet hostA 0 (fun _ => 5) "h" n' [] =
        .ok (freshLease "v" (dotted 10 10 6 0))) ∧
    ∃ n' v4', unsetRange.Canonicalize = .ok n' ∧ n'.IPv4 = some v4' ∧
      v4'.Size = unsetRangeV4.Size ∧
      v4'.Min = dotted 10 10 0 0 + 2 ^ (32 - unsetRangeV4.Size) ∧
      v4'.Max = dotted 10 10 0 0 + 2 ^ (32 - 16) - 2 ^ (32 - unsetRangeV4.Size) - 1 ∧
      ∀ sub, GenerateIPv4Subnet hostA 0 (fun _ => 5) "h" n' [] = .ok sub →
        ∃ ip, sub.IPv4Network = some { IP := ip, Size := unsetRangeV4.Size } ∧
          ip % 2 ^ (32 - unsetRangeV4.Size) = 0 ∧
          dotted 10 10 0 0 ≤ ip ∧
          ip + 2 ^ (32 - unsetRangeV4.Size) ≤ dotted 10 10 0 0 + 2 ^ (32 - 16) ∧
          ip ≠ dotted 10 10 0 0 ∧
          ip ≠ dotted 10 10 0 0 + 2 ^ (32 - 16) - 2 ^ (32 - unsetRangeV4.Size) :=
  ⟨⟨_, rfl, by decide⟩,
   default_range_excludes_edge_blocks hostA 0 (fun _ => 5) "h" unsetRange unsetRangeV4
    (dotted 10 10 0 0) 16 [] rfl rfl (by decide) (by decide) (by decide) (by decide) rfl rfl⟩

/-- C7, evaluated at a failing input. A heartbeat tick sends the lease it was
started with, not the copy whose expiration it has just set to `now + TTL`:
for the lease allocated at time 0 (expiration 24h) the tick at 8h writes the
expiration 24h instead of 32h, and the tick at 16h writes the same lease
again, so a successful heartbeat does not advance the stored expiration. -/
theorem heartbeat_writes_stale_expiration :
    (∀ cfg now, (heartbeatTick cfg now).2 = .setSubnet cfg) ∧
    (heartbeatTick (freshLease "v" (dotted 10 10 6 0)) eightHours).1.Expiration =
      eightHours + DefaultSubnetTTL ∧
    (heartbeatTick (freshLease "v" (dotted 10 10 6 0)) eightHours).2 =
      .setSubnet (freshLease "v" (dotted 10 10 6 0)) ∧
    (freshLease "v" (dotted 10 10 6 0)).Expiration ≠ eightHours + DefaultSubnetTTL ∧
    heartbeatWrites (freshLease "v" (dotted 10 10 6 0)) [eightHours, 2 * eightHours] =
      [.setSubnet (freshLease "v" (dotted 10 10 6 0)),
       .setSubnet (freshLease "v" (dotted 10 10 6 0))] :=
  ⟨fun _ _ => rfl, rfl, rfl, by decide, rfl⟩

theorem mem_reapLoop {now threshold : Int} {op : StoreOp} :
    ∀ {subnets : List Subnet}, op ∈ reapLoop now threshold subnets ↔
      ∃ s, s ∈ subnets ∧ op ∈ reapSubnet now threshold s := by
  intro subnets
  induction subnets with
  | nil => simp [reapLoop]
  | cons s rest ih =>
    simp only [reapLoop, List.mem_append, ih, List.mem_cons]
    constructor
    · rintro (h | ⟨t, ht, h⟩)
      · exact ⟨s, Or.inl rfl, h⟩
      · exact ⟨t, Or.inr ht, h⟩
    · rintro ⟨t, rfl | ht, h⟩
      · exact Or.inl h
      · exact Or.inr ⟨t, ht, h⟩

theorem reapLoop_append (now threshold : Int) : ∀ (pre post : List Subnet),
    reapLoop now threshold (pre ++ post) =
      reapLoop now threshold pre ++ reapLoop now threshold post := by
  intro pre
  induction pre with
  | nil => intro post; rfl
  | cons t rest ih =>
    intro post
    have e : reapLoop now threshold (t :: rest ++ post) =
        reapSubnet now threshold t ++ reapLoop now threshold (rest ++ post) := rfl
    rw [e, ih]
    simp only [reapLoop, List.append_assoc]

theorem reapSubnet_length (now threshold : Int) (s : Subnet) :
    (reapSubnet now threshold s).length ≤ 1 := by
  unfold reapSubnet
  split_ifs <;> simp

theorem reapLoop_length (now threshold : Int) : ∀ (subnets : List Subnet),
    (reapLoop now threshold subnets).length ≤ subnets.length := by
  intro subnets
  induction subnets with
  | nil => simp [reapLoop]
  | cons t rest ih =>
    simp only [reapLoop, List.length_append, List.length_cons]
    have := reapSubnet_length now threshold t
    omega

/-- C8: in one sweep of the reaper at time `now` with grace threshold
`threshold`, a listed lease causes at most one store request: DeleteSubnet
exactly when it is marked expired and `expiration + threshold < now`;
otherwise SetSubnet of the lease with the expired flag set exactly when
`expiration < now`; otherwise none. Hence every delete of the sweep is that
of a listed lease already marked expired whose grace period has passed. The
sweep issues these requests and no other: for a lease `s` listed behind the
leases `pre` and before the leases `post`, the requests of the sweep are those
for `pre`, then the request for `s`, then those for `post`; an empty listing and
a failed listing cause no request. -/
theorem reaper_two_phase (now threshold : Int) (s : Subnet) (subnets : List Subnet) :
    (reapSubnet now threshold s).length ≤ 1 ∧
    (reapSubnet now threshold s = [.deleteSubnet s.NetworkName s.ClientID] ↔
      (s.Expired = true ∧ s.Expiration + threshold < now)) ∧
    (reapSubnet now threshold s = [.setSubnet { s with Expired := true }] ↔
      (¬ (s.Expired = true ∧ s.Expiration + threshold < now) ∧ s.Expiration < now)) ∧
    (reapSubnet now threshold s = [] ↔
      (¬ (s.Expired = true ∧ s.Expiration + threshold < now) ∧ ¬ s.Expiration < now)) ∧
    (∀ networkName id,
      StoreOp.deleteSubnet networkName id ∈ runSubnetReap (.ok subnets) now threshold →
      ∃ t, t ∈ subnets ∧ t.NetworkName = networkName ∧ t.ClientID = id ∧
        t.Expired = true ∧ t.Expiration + threshold < now) ∧
    (∀ pre post, runSubnetReap (.ok (pre ++ s :: post)) now threshold =
      runSubnetReap (.ok pre) now threshold ++
        (reapSubnet now threshold s ++ runSubnetReap (.ok post) now threshold)) ∧
    runSubnetReap (.ok []) now threshold = [] ∧
    (∀ err, runSubnetReap (.error err) now threshold = []) ∧
    (∀ op, op ∈ runSubnetReap (.ok subnets) now threshold ↔
      ∃ t, t ∈ subnets ∧ op ∈ reapSubnet now threshold t) ∧
    (runSubnetReap (.ok subnets) now threshold).length ≤ subnets.length := by
  refine ⟨reapSubnet_length now threshold s, ?_, ?_, ?_, ?_, ?_, rfl, fun _ => rfl,
    fun op => mem_reapLoop, reapLoop_length now threshold subnets⟩
  · unfold reapSubnet handleSubnetExpired handleSubnetExpiration
    split_ifs with h1 h2 <;> simp [h1]
  · unfold reapSubnet handleSubnetExpired handleSubnetExpiration
    split_ifs with h1 h2
    · simp [h1]
    · simp only [true_iff]
      exact ⟨h1, h2⟩
    · simp [h2]
  · unfold reapSubnet
    split_ifs with h1 h2
    · simp [h1]
    · simp [h2]
    · simp only [true_iff]
      exact ⟨h1, h2⟩
  · intro networkName id hmem
    unfold runSubnetReap at hmem
    obtain ⟨t, ht, hop⟩ := mem_reapLoop.mp hmem
    refine ⟨t, ht, ?_⟩
    unfold reapSubnet handleSubnetExpired handleSubnetExpiration at hop
    split_ifs at hop with h1 h2
    · rw [List.mem_singleton] at hop
      injection hop with e1 e2
      exact ⟨e1.symm, e2.symm, h1.1, h1.2⟩
    · rw [List.mem_singleton] at hop
      cases hop
    · cases hop
  · intro pre post
    show reapLoop now threshold (pre ++ s :: post) =
      reapLoop now threshold pre ++ (reapSubnet now threshold s ++ reapLoop now threshold post)
    rw [reapLoop_append]
    rfl

/-- A sweep at time 2000 with the grace threshold 500 over four leases: one
past its expiration and not marked, one marked whose grace period has passed,
one marked within its grace period, one not yet at its expiration. The first
is marked, the second deleted, the third marked again, the fourth left. -/
theorem reaper_two_phase_witness :
    runSubnetReap
        (.ok [sampleLease "a" "v" (dotted 10 10 1 0) 24, markedLease, graceLease, liveLease])
        2000 500 =
      [.setSubnet { sampleLease "a" "v" (dotted 10 10 1 0) 24 with Expired := true },
       .deleteSubnet "v" "b", .setSubnet graceLease] ∧
    (∀ pre post, runSubnetReap (.ok (pre ++ markedLease :: post)) 2000 500 =
      runSubnetReap (.ok pre) 2000 500 ++
        (reapSubnet 2000 500 markedLease ++ runSubnetReap (.ok post) 2000 500)) ∧
    reapSubnet 2000 500 markedLease = [.deleteSubnet "v" "b"] :=
  ⟨by decide,
   (reaper_two_phase 2000 500 markedLease
      [sampleLease "a" "v" (dotted 10 10 1 0) 24, markedLease, graceLease, liveLease]).2.2.2.2.2.1,
   (reaper_two_phase 2000 500 markedLease
      [sampleLease "a" "v" (dotted 10 10 1 0) 24, markedLease, graceLease, liveLease]).2.1.mpr
      ⟨rfl, by decide⟩⟩

/-- C9, evaluated at a failing input. In the bootstrap of a host with one
network and an empty lease store, initSubnet writes the lease SetLocal
returned, whose configuration carries the address of the tunnel interface;
but Init keeps the lease it passed to SetLocal, and every heartbeat tick
writes that lease: its configuration is the one of the network, without the
address of the tunnel interface. -/
theorem heartbeat_overwrites_enriched_config :
    (Client.Init sampleEnv).2 = none ∧
    Effect.store (.setSubnet enrichedLease) ∈ (Client.Init sampleEnv).1.effects ∧
    carriesVtepMAC enrichedLease = true ∧
    (Client.Init sampleEnv).1.subnets = [freshLease "v" (dotted 10 10 6 0)] ∧
    heartbeatsAfterInit (Client.Init sampleEnv).1 [eightHours] =
      [[.setSubnet (freshLease "v" (dotted 10 10 6 0))]] ∧
    carriesVtepMAC (freshLease "v" (dotted 10 10 6 0)) = false := by
  refine ⟨by decide, by decide, by decide, by decide, by decide, by decide⟩


theorem pollVariable_fold (read : String → Except String (List (String × String)))
    (decode : String → Option Subnet) (w : Nat) (varList : List VariableMetadata) :
    ∀ acc : PollAcc,
      (varList.foldl (pollVariable read decode w) acc).expiredConfigs =
          acc.expiredConfigs ++
            (readAndParsed read decode w varList).filter (fun s => s.Expired) ∧
        (varList.foldl (pollVariable read decode w) acc).modifiedConfigs =
          acc.modifiedConfigs ++
            (readAndParsed read decode w varList).filter (fun s => !s.Expired) ∧
        (varList.foldl (pollVariable read decode w) acc).sent.filter WatchEvent.isBatch =
          acc.sent.filter WatchEvent.isBatch := by
  induction varList with
  | nil => intro acc; simp [readAndParsed]
  | cons v rest ih =>
    intro acc
    rw [List.foldl_cons]
    obtain ⟨h1, h2, h3⟩ := ih (pollVariable read decode w acc v)
    rw [h1, h2, h3]
    unfold pollVariable readAndParsed
    by_cases hlt : v.ModifyIndex < w
    · have hle : ¬ w ≤ v.ModifyIndex := by omega
      simp [hlt, hle]
    · have hle : w ≤ v.ModifyIndex := by omega
      rw [if_neg hlt]
      cases hr : read v.Path with
      | error e => simp [hle, hr, WatchEvent.isBatch]
      | ok items =>
        cases hp : parseClientSubnetConfig decode items with
        | none => simp [hle, hr, hp, WatchEvent.isBatch]
        | some cfg =>
          cases he : cfg.Expired <;> simp [hle, hr, hp, he]

/-- C10: one poll of the watch loop with wait index `w`, listing `varList` and
returned last index `i`. If `i ≤ w` nothing is sent and the wait index stays
`w`. Otherwise the wait index becomes `i` and the batches sent are, in this
order, the Delete batch of the read and parsed leases of the variables with
modify index at least `w` that are marked expired and the Modify batch of those
that are not, both in listing order, an empty batch not being sent. -/
theorem watch_poll_batches (read : String → Except String (List (String × String)))
    (decode : String → Option Subnet) (w i : Nat) (varList : List VariableMetadata) :
    if i ≤ w then watchPoll read decode w (.ok (varList, i)) = ([], w)
    else
      (watchPoll read decode w (.ok (varList, i))).2 = i ∧
      (watchPoll read decode w (.ok (varList, i))).1.filter WatchEvent.isBatch =
        (if (readAndParsed read decode w varList).filter (fun s => s.Expired) = [] then []
          else [.delete ((readAndParsed read decode w varList).filter (fun s => s.Expired))]) ++
        (if (readAndParsed read decode w varList).filter (fun s => !s.Expired) = [] then []
          else [.modify ((readAndParsed read decode w varList).filter (fun s => !s.Expired))]) := by
  by_cases hle : i ≤ w
  · rw [if_pos hle]
    unfold watchPoll
    simp [hle]
  · rw [if_neg hle]
    unfold watchPoll
    simp only [hle, if_false]
    obtain ⟨h1, h2, h3⟩ := pollVariable_fold read decode w varList
      { modifiedConfigs := [], expiredConfigs := [], sent := [] }
    simp only [List.nil_append, List.filter_nil] at h1 h2 h3
    refine ⟨trivial, ?_⟩
    rw [h1, h2]
    generalize (readAndParsed read decode w varList).filter (fun s => s.Expired) = del
    generalize (readAndParsed read decode w varList).filter (fun s => !s.Expired) = mod
    cases del <;> cases mod <;> simp [h3, WatchEvent.isBatch]

theorem handleSubnetSet_eq (self : String) (providerFails : Subnet → Bool) :
    ∀ batch : List Subnet,
      handleSubnetSet self providerFails batch =
        (batch.filter (fun s => decide (s.ClientID ≠ self))).map
          (fun s => .setRemote s (managerRemoteFails providerFails s)) := by
  intro batch
  induction batch with
  | nil => rfl
  | cons s rest ih =>
    by_cases hs : s.ClientID = self
    · rw [handleSubnetSet, if_pos hs, ih, List.filter_cons_of_neg (by simpa using hs)]
    · rw [handleSubnetSet, if_neg hs, ih, List.filter_cons_of_pos (by simpa using hs),
        List.map_cons]

theorem handleSubnetDelete_targets (self : String) (providerFails : Subnet → Bool) :
    ∀ batch : List Subnet,
      (handleSubnetDelete self providerFails batch).filterMap DispatchEvent.deleteTarget =
          batch.filter (fun s => decide (s.ClientID ≠ self)) ∧
        (handleSubnetDelete self providerFails batch).filterMap DispatchEvent.setTarget = [] := by
  intro batch
  induction batch with
  | nil => exact ⟨rfl, rfl⟩
  | cons s rest ih =>
    obtain ⟨h1, h2⟩ := ih
    by_cases hs : s.ClientID = self
    · rw [handleSubnetDelete, if_pos hs, List.filter_cons_of_neg (by simpa using hs)]
      exact ⟨by simpa [DispatchEvent.deleteTarget] using h1,
        by simpa [DispatchEvent.setTarget] using h2⟩
    · rw [handleSubnetDelete, if_neg hs, List.filter_cons_of_pos (by simpa using hs)]
      exact ⟨by simpa [DispatchEvent.deleteTarget] using h1,
        by simpa [DispatchEvent.setTarget] using h2⟩

/-- C11: for every Modify batch the calls of SetRemote are exactly the subnets
of the batch whose client id is not the one of the host, in batch order, and
for every Delete batch the calls of DeleteRemote are exactly those subnets, in
batch order; a subnet of the host itself causes no call, and the answer of the
provider (error or not) to one call has no effect on the calls that follow. -/
theorem dispatch_calls_are_remote_subnets (self : String)
    (providerFails : Subnet → Bool) (batch : List Subnet) :
    handleSubnetSet self providerFails batch =
        (batch.filter (fun s => decide (s.ClientID ≠ self))).map
          (fun s => .setRemote s (managerRemoteFails providerFails s)) ∧
      (handleSubnetSet self providerFails batch).filterMap DispatchEvent.setTarget =
        batch.filter (fun s => decide (s.ClientID ≠ self)) ∧
      (handleSubnetDelete self providerFails batch).filterMap DispatchEvent.deleteTarget =
        batch.filter (fun s => decide (s.ClientID ≠ self)) ∧
      (handleSubnetDelete self providerFails batch).filterMap DispatchEvent.setTarget = [] ∧
      (handleSubnetSet self providerFails batch).filterMap DispatchEvent.deleteTarget = [] := by
  refine ⟨handleSubnetSet_eq self providerFails batch, ?_,
    (handleSubnetDelete_targets self providerFails batch).1,
    (handleSubnetDelete_targets self providerFails batch).2, ?_⟩
  · rw [handleSubnetSet_eq, List.filterMap_map]
    generalize batch.filter (fun s => decide (s.ClientID ≠ self)) = l
    induction l with
    | nil => rfl
    | cons a l ih =>
      rw [List.filterMap_cons]
      simp only [Function.comp, DispatchEvent.setTarget] at ih ⊢
      rw [ih]
  · rw [handleSubnetSet_eq, List.filterMap_map]
    generalize batch.filter (fun s => decide (s.ClientID ≠ self)) = l
    induction l with
    | nil => rfl
    | cons a l ih =>
      rw [List.filterMap_cons]
      simp only [Function.comp, DispatchEvent.deleteTarget] at ih ⊢
      exact ih

/-- Masking a `uint32` with `0xFFFFFFFF << (32 - size)` for a length of at most
32 clears the `32 - size` low bits. -/
theorem and_mask_of_size {x size : Nat} (hx : x < 2 ^ 32) (hs : size ≤ 32) :
    x &&& (IPv4Net.mk 0 size).mask = x / 2 ^ (32 - size) * 2 ^ (32 - size) := by
  unfold IPv4Net.mask
  rw [sub64_of_valid hs]
  by_cases h0 : size = 0
  · subst h0
    have h1 : shl32 0xFFFFFFFF (32 - 0) = 0 := by decide
    rw [h1, Nat.and_zero, Nat.div_eq_of_lt (by simpa using hx), Nat.zero_mul]
  · exact and_shl32_mask hx (by omega)

theorem mask_eq_of_size (n : IPv4Net) : n.mask = (IPv4Net.mk 0 n.Size).mask := rfl

/-- Overlap compares the two addresses with their `32 - min size` low bits
dropped. -/
theorem overlap_iff_div {a b : IPv4Net} (ha : a.IP < 2 ^ 32) (hb : b.IP < 2 ^ 32)
    (hsa : a.Size ≤ 32) (hsb : b.Size ≤ 32) :
    a.Overlap b = true ↔
      a.IP / 2 ^ (32 - min a.Size b.Size) = b.IP / 2 ^ (32 - min a.Size b.Size) := by
  have key : ∀ size, size ≤ 32 →
      (((a.IP % 2 ^ 32) &&& (IPv4Net.mk 0 size).mask ==
          (b.IP % 2 ^ 32) &&& (IPv4Net.mk 0 size).mask) = true ↔
        a.IP / 2 ^ (32 - size) = b.IP / 2 ^ (32 - size)) := by
    intro size hs
    rw [Nat.mod_eq_of_lt ha, Nat.mod_eq_of_lt hb, and_mask_of_size ha hs,
      and_mask_of_size hb hs, beq_iff_eq]
    have hpos : 0 < 2 ^ (32 - size) := pow_pos (by norm_num) _
    constructor
    · intro h
      exact Nat.eq_of_mul_eq_mul_right hpos h
    · intro h
      rw [h]
  unfold IPv4Net.Overlap
  by_cases hlt : a.Size < b.Size
  · simp only [if_pos hlt]
    rw [mask_eq_of_size a, Nat.min_eq_left (le_of_lt hlt)]
    exact key a.Size hsa
  · simp only [if_neg hlt]
    rw [mask_eq_of_size b, Nat.min_eq_right (not_lt.mp hlt)]
    exact key b.Size hsb

theorem div_pow_of_div_pow {x y j k : Nat} (hjk : j ≤ k) (h : x / 2 ^ j = y / 2 ^ j) :
    x / 2 ^ k = y / 2 ^ k := by
  have e : 2 ^ k = 2 ^ j * 2 ^ (k - j) := by
    rw [← pow_add]
    congr 1
    omega
  rw [e, ← Nat.div_div_eq_div_mul, ← Nat.div_div_eq_div_mul, h]

/-- C13: for two networks with lengths of at most 32 (and `uint32` addresses),
Overlap is true exactly when some 32-bit address belongs to both blocks, the
block of a network being the addresses that agree with its address on the
leading `Size` bits; and Overlap is symmetric. -/
theorem overlap_iff_blocks_intersect (a b : IPv4Net) (ha : a.IP < 2 ^ 32)
    (hb : b.IP < 2 ^ 32) (hsa : a.Size ≤ 32) (hsb : b.Size ≤ 32) :
    (a.Overlap b = true ↔ ∃ x, InBlock a x ∧ InBlock b x) ∧
      a.Overlap b = b.Overlap a := by
  have hiff : ∀ (a b : IPv4Net), a.IP < 2 ^ 32 → b.IP < 2 ^ 32 → a.Size ≤ 32 →
      b.Size ≤ 32 → (a.Overlap b = true ↔ ∃ x, InBlock a x ∧ InBlock b x) := by
    intro a b ha hb hsa hsb
    rw [overlap_iff_div ha hb hsa hsb]
    constructor
    · intro h
      by_cases hle : a.Size ≤ b.Size
      · rw [Nat.min_eq_left hle] at h
        exact ⟨b.IP, ⟨hb, h.symm⟩, ⟨hb, rfl⟩⟩
      · rw [Nat.min_eq_right (by omega)] at h
        exact ⟨a.IP, ⟨ha, rfl⟩, ⟨ha, h⟩⟩
    · rintro ⟨x, ⟨_, hxa⟩, ⟨_, hxb⟩⟩
      have h1 := div_pow_of_div_pow
        (show 32 - a.Size ≤ 32 - min a.Size b.Size by omega) hxa
      have h2 := div_pow_of_div_pow
        (show 32 - b.Size ≤ 32 - min a.Size b.Size by omega) hxb
      rw [← h1, h2]
  refine ⟨hiff a b ha hb hsa hsb, ?_⟩
  have hsym : a.Overlap b = true ↔ b.Overlap a = true := by
    rw [hiff a b ha hb hsa hsb, hiff b a hb ha hsb hsa]
    constructor
    · rintro ⟨x, h1, h2⟩
      exact ⟨x, h2, h1⟩
    · rintro ⟨x, h1, h2⟩
      exact ⟨x, h2, h1⟩
  cases h1 : a.Overlap b <;> cases h2 : b.Overlap a <;> simp_all

/-- Witness of C13: 10.10.0.0/16 and 10.10.5.0/24 overlap, and 10.10.5.0 lies
in both blocks. -/
theorem overlap_iff_blocks_intersect_witness :
    (IPv4Net.Overlap { IP := dotted 10 10 0 0, Size := 16 }
        { IP := dotted 10 10 5 0, Size := 24 } = true ∧
      InBlock { IP := dotted 10 10 0 0, Size := 16 } (dotted 10 10 5 0)) ∧
    ((IPv4Net.Overlap { IP := dotted 10 10 0 0, Size := 16 }
          { IP := dotted 10 10 5 0, Size := 24 } = true ↔
        ∃ x, InBlock { IP := dotted 10 10 0 0, Size := 16 } x ∧
          InBlock { IP := dotted 10 10 5 0, Size := 24 } x) ∧
      IPv4Net.Overlap { IP := dotted 10 10 0 0, Size := 16 }
          { IP := dotted 10 10 5 0, Size := 24 } =
        IPv4Net.Overlap { IP := dotted 10 10 5 0, Size := 24 }
          { IP := dotted 10 10 0 0, Size := 16 }) :=
  ⟨⟨by decide, by decide, by decide⟩,
   overlap_iff_blocks_intersect { IP := dotted 10 10 0 0, Size := 16 }
     { IP := dotted 10 10 5 0, Size := 24 } (by decide) (by decide) (by decide) (by decide)⟩

/-- C16: Validate returns no error exactly when the ipv4 section and its
supernet are present, the block length lies between 1 and 32, `min` is unset
(zero) or lies between the address of the supernet and the address before that
of the next network, the provider section is present and its name is
`vxlan`. -/
theorem validate_ok_iff (n : Network) :
    n.Validate = none ↔
      ∃ v4 net p, n.IPv4 = some v4 ∧ v4.Network = some net ∧
        1 ≤ v4.Size ∧ v4.Size ≤ 32 ∧
        (v4.Min = 0 ∨ (net.IP ≤ v4.Min ∧ v4.Min ≤ sub32 net.NextNetwork.IP 1)) ∧
        n.Provider = some p ∧ p.Name = "vxlan" := by
  unfold Network.Validate
  cases hv4 : n.IPv4 with
  | none => simp
  | some v4 =>
    cases hnet : v4.Network with
    | none => simp [hnet]
    | some net =>
      simp only [hnet, EmptyIPv4Addr]
      by_cases hsize : v4.Size = 0 ∨ v4.Size > 32
      · rw [if_pos hsize]
        simp only [reduceCtorEq, false_iff]
        rintro ⟨v4', net', p, h1, h2, h3, h4, _⟩
        cases h1
        omega
      · rw [if_neg hsize]
        by_cases hmin : v4.Min ≠ 0 ∧ (v4.Min < net.IP ∨ v4.Min > sub32 net.NextNetwork.IP 1)
        · rw [if_pos hmin]
          simp only [reduceCtorEq, false_iff]
          rintro ⟨v4', net', p, h1, h2, _, _, h5, _⟩
          cases h1
          rw [hnet] at h2
          cases h2
          omega
        · rw [if_neg hmin]
          have hrange : v4.Min = 0 ∨ (net.IP ≤ v4.Min ∧ v4.Min ≤ sub32 net.NextNetwork.IP 1) := by
            by_cases h0 : v4.Min = 0
            · exact Or.inl h0
            · right
              constructor <;> by_contra hc <;> exact hmin ⟨h0, by omega⟩
          cases hp : n.Provider with
          | none => simp
          | some p =>
            by_cases hname : p.Name = "vxlan"
            · simp only [hname, ne_eq, not_true_eq_false, if_false, true_iff]
              exact ⟨v4, net, p, rfl, hnet, by omega, by omega, hrange, rfl, hname⟩
            · simp only [ne_eq, hname, not_false_eq_true, if_true, reduceCtorEq, false_iff]
              rintro ⟨_, _, p', _, _, _, _, _, h6, h7⟩
              cases h6
              exact hname h7

theorem canonicalizeMin_spec (v4 : IPv4Config) (net : IPv4Net) (hnet : v4.Network = some net) :
    ∃ v1, canonicalizeMin v4 = .ok v1 ∧ canonicalizeMin v1 = .ok v1 ∧
      v1.Network = v4.Network ∧ v1.Max = v4.Max ∧ v1.Size = v4.Size ∧
      (v4.Min ≠ 0 → v1 = v4) := by
  unfold canonicalizeMin
  by_cases h : v4.Min = EmptyIPv4Addr
  · rw [if_pos h, hnet]
    refine ⟨_, rfl, ?_, rfl, rfl, rfl, fun h0 => absurd h h0⟩
    simp only [hnet]
    split_ifs with h2
    · rfl
    · rfl
  · rw [if_neg h]
    exact ⟨v4, rfl, by rw [if_neg h], rfl, rfl, rfl, fun _ => rfl⟩

theorem canonicalizeMax_spec (v4 : IPv4Config) (net : IPv4Net) (hnet : v4.Network = some net) :
    ∃ v1, canonicalizeMax v4 = .ok v1 ∧ canonicalizeMax v1 = .ok v1 ∧
      v1.Network = v4.Network ∧ v1.Min = v4.Min ∧ v1.Size = v4.Size ∧
      (v4.Max ≠ 0 → v1 = v4) := by
  unfold canonicalizeMax
  by_cases h : v4.Max = EmptyIPv4Addr
  · rw [if_pos h, hnet]
    refine ⟨_, rfl, ?_, rfl, rfl, rfl, fun h0 => absurd h h0⟩
    simp only [hnet]
    split_ifs with h2
    · rfl
    · rfl
  · rw [if_neg h]
    exact ⟨v4, rfl, by rw [if_neg h], rfl, rfl, rfl, fun _ => rfl⟩

/-- Filling in `max` does not disturb a canonical `min`. -/
theorem canonicalizeMin_after_max {v1 v2 : IPv4Config}
    (h1 : canonicalizeMin v1 = .ok v1) (h2 : canonicalizeMax v1 = .ok v2) :
    canonicalizeMin v2 = .ok v2 := by
  unfold canonicalizeMax at h2
  unfold canonicalizeMin at h1 ⊢
  by_cases hx : v1.Max = EmptyIPv4Addr
  · rw [if_pos hx] at h2
    cases hn : v1.Network with
    | none => rw [hn] at h2; cases h2
    | some net =>
      rw [hn] at h2
      injection h2 with h2
      subst h2
      simp only [hn] at h1 ⊢
      by_cases hm : v1.Min = EmptyIPv4Addr
      · rw [if_pos hm] at h1 ⊢
        injection h1 with h1
        have e : v1.Min = add32 net.IP (shl32 1 (sub64 32 v1.Size)) := by
          conv_lhs => rw [← h1]
        rw [← e]
      · rw [if_neg hm]
  · rw [if_neg hx] at h2
    injection h2 with h2
    subst h2
    exact h1

/-- C15: for a network with an ipv4 section and a supernet, Canonicalize
succeeds, a second application leaves its result unchanged, and it changes
neither a `min` or `max` that is not zero nor an `ipmasq` that is set. -/
theorem canonicalize_idempotent (n : Network) (v4 : IPv4Config) (net : IPv4Net)
    (hv4 : n.IPv4 = some v4) (hnet : v4.Network = some net) :
    ∃ n1 v1, n.Canonicalize = .ok n1 ∧ n1.Canonicalize = .ok n1 ∧
      n1.IPv4 = some v1 ∧
      (v4.Min ≠ 0 → v1.Min = v4.Min) ∧ (v4.Max ≠ 0 → v1.Max = v4.Max) ∧
      (∀ b, n.IPMasq = some b → n1.IPMasq = some b) ∧ n1.IPMasq ≠ none ∧
      n1.Name = n.Name ∧ n1.Provider = n.Provider := by
  obtain ⟨va, ha1, ha2, ha3, ha4, ha5, ha6⟩ := canonicalizeMin_spec v4 net hnet
  obtain ⟨vb, hb1, hb2, hb3, hb4, hb5, hb6⟩ := canonicalizeMax_spec va net (ha3.trans hnet)
  have hb7 : canonicalizeMin vb = .ok vb := canonicalizeMin_after_max ha2 hb1
  refine ⟨{ n with IPv4 := some vb, IPMasq := match n.IPMasq with
      | none => some true
      | some b => some b }, vb, ?_, ?_, rfl, ?_, ?_, ?_, ?_, rfl, rfl⟩
  · unfold Network.Canonicalize
    rw [hv4]
    simp only [ha1, hb1]
  · unfold Network.Canonicalize
    simp only [hb7, hb2]
    cases n.IPMasq <;> rfl
  · intro h0
    rw [hb4, ha6 h0]
  · intro h0
    by_cases hm : va.Max = 0
    · rw [ha4] at hm
      exact absurd hm h0
    · rw [hb6 hm, ha4]
  · intro b hb
    simp only [hb]
  · cases n.IPMasq <;> simp

/-- Witness of C15: the network 10.10.0.0/16 with blocks of length 24 and no
`min` or `max`. -/
theorem canonicalize_idempotent_witness :
    ∃ n1 v1, unsetRange.Canonicalize = .ok n1 ∧ n1.Canonicalize = .ok n1 ∧
      n1.IPv4 = some v1 ∧
      (unsetRangeV4.Min ≠ 0 → v1.Min = unsetRangeV4.Min) ∧
      (unsetRangeV4.Max ≠ 0 → v1.Max = unsetRangeV4.Max) ∧
      (∀ b, unsetRange.IPMasq = some b → n1.IPMasq = some b) ∧ n1.IPMasq ≠ none ∧
      n1.Name = unsetRange.Name ∧ n1.Provider = unsetRange.Provider :=
  canonicalize_idempotent unsetRange unsetRangeV4 { IP := dotted 10 10 0 0, Size := 16 }
    rfl rfl

set_option maxRecDepth 100000 in
theorem decimal_octet : ∀ x, x < 256 →
    decimal x ≠ [] ∧ (decimal x).all Char.isDigit = true ∧
      digitRun (decimal x) 0 0 = some (x, (decimal x).length) := by
  decide

set_option maxRecDepth 100000 in
theorem decimal_size : ∀ x, x ≤ 32 →
    decimal x ≠ [] ∧ (decimal x).all Char.isDigit = true ∧ dtoi (decimal x) = some x := by
  decide

theorem digit_ne_special {c : Char} (h : c.isDigit = true) :
    c ≠ '.' ∧ c ≠ ':' ∧ c ≠ '%' ∧ c ≠ '/' ∧ c ≠ quoteChar := by
  refine ⟨?_, ?_, ?_, ?_, ?_⟩ <;> (intro he; subst he; revert h; decide)

theorem parseIPv4Fields_digits (rest : List Char) (fields : List Nat) :
    ∀ (ds : List Char) (val digLen i : Nat) (prev : Bool) (v d : Nat),
      ds.all Char.isDigit = true → digitRun ds val digLen = some (v, d) →
      parseIPv4Fields (ds ++ rest) val digLen fields i prev =
        parseIPv4Fields rest v d fields (i + ds.length) (prev && ds.isEmpty) := by
  intro ds
  induction ds with
  | nil =>
    intro val digLen i prev v d _ hrun
    simp only [digitRun, Option.some.injEq, Prod.mk.injEq] at hrun
    obtain ⟨rfl, rfl⟩ := hrun
    simp
  | cons c ds ih =>
    intro val digLen i prev v d hall hrun
    rw [List.all_cons, Bool.and_eq_true] at hall
    obtain ⟨hc, hds⟩ := hall
    unfold digitRun at hrun
    rw [List.cons_append, parseIPv4Fields, if_pos hc]
    by_cases h1 : digLen = 1 ∧ val = 0
    · rw [if_pos h1] at hrun; cases hrun
    · rw [if_neg h1] at hrun ⊢
      by_cases h2 : val * 10 + (c.toNat - 48) > 255
      · rw [if_pos h2] at hrun; cases hrun
      · rw [if_neg h2] at hrun ⊢
        rw [ih _ _ _ _ _ _ hds hrun]
        have e : i + 1 + ds.length = i + (c :: ds).length := by
          rw [List.length_cons]
          omega
        rw [e]
        simp only [Bool.false_and, List.isEmpty_cons, Bool.and_false]

theorem parseIPv4Fields_dot (rest : List Char) (fields : List Nat) (val digLen i : Nat)
    (hrest : rest ≠ []) (hi : i ≠ 0) (hf : fields.length < 3) :
    parseIPv4Fields ('.' :: rest) val digLen fields i false =
      parseIPv4Fields rest 0 0 (fields ++ [val % 256]) (i + 1) true := by
  have hd : ('.' : Char).isDigit = false := by decide
  rw [parseIPv4Fields]
  simp only [hd, Bool.false_eq_true, if_false, if_true]
  rw [if_neg (by simp [hi, hrest]), if_neg (by omega)]

/-- The four octets of an address are read back from their dotted form. -/
theorem parseIPv4Fields_dotted {a b c d : Nat} (ha : a < 256) (hb : b < 256)
    (hc : c < 256) (hd : d < 256) :
    parseIPv4Fields (dottedChars [a, b, c, d]) 0 0 [] 0 false = some [a, b, c, d] := by
  obtain ⟨na, da, ra⟩ := decimal_octet a ha
  obtain ⟨nb, db, rb⟩ := decimal_octet b hb
  obtain ⟨nc, dc, rc⟩ := decimal_octet c hc
  obtain ⟨nd, dd, rd⟩ := decimal_octet d hd
  have la : 0 < (decimal a).length := List.length_pos.mpr na
  have hdd : dottedChars [a, b, c, d] =
      decimal a ++ ('.' :: (decimal b ++ ('.' :: (decimal c ++ ('.' :: (decimal d ++ [])))))) := by
    simp [dottedChars]
  rw [hdd, parseIPv4Fields_digits _ _ _ _ _ _ _ _ _ da ra,
    Bool.false_and,
    parseIPv4Fields_dot _ _ _ _ _ (by simp) (by omega) (by simp),
    parseIPv4Fields_digits _ _ _ _ _ _ _ _ _ db rb,
    Bool.true_and, List.isEmpty_eq_false.mpr nb,
    parseIPv4Fields_dot _ _ _ _ _ (by simp) (by omega) (by simp),
    parseIPv4Fields_digits _ _ _ _ _ _ _ _ _ dc rc,
    Bool.true_and, List.isEmpty_eq_false.mpr nc,
    parseIPv4Fields_dot _ _ _ _ _ (by simpa using nd) (by omega) (by simp),
    parseIPv4Fields_digits _ _ _ _ _ _ _ _ _ dd rd,
    Bool.true_and, List.isEmpty_eq_false.mpr nd]
  unfold parseIPv4Fields
  simp [Nat.mod_eq_of_lt ha, Nat.mod_eq_of_lt hb, Nat.mod_eq_of_lt hc, Nat.mod_eq_of_lt hd]

theorem find_first_dot (rest : List Char) :
    ∀ ds : List Char, ds.all Char.isDigit = true →
      (ds ++ '.' :: rest).find? (fun c => c == '.' || c == ':' || c == '%') = some '.' := by
  intro ds
  induction ds with
  | nil => intro _; rfl
  | cons c ds ih =>
    intro hall
    rw [List.all_cons, Bool.and_eq_true] at hall
    obtain ⟨h1, h2, h3, _, _⟩ := digit_ne_special hall.1
    rw [List.cons_append, List.find?_cons_of_neg _ (by simp [h1, h2, h3])]
    exact ih hall.2

theorem splitAtSlash_append (ys : List Char) :
    ∀ xs : List Char, (∀ c, c ∈ xs → c ≠ '/') →
      splitAtSlash (xs ++ '/' :: ys) = some (xs, ys) := by
  intro xs
  induction xs with
  | nil => intro _; simp [splitAtSlash]
  | cons c xs ih =>
    intro h
    rw [List.cons_append, splitAtSlash, if_neg (h c (List.mem_cons_self _ _)),
      ih (fun x hx => h x (List.mem_cons_of_mem _ hx))]
    rfl

theorem dropWhile_quote_id :
    ∀ l : List Char, (∀ c, c ∈ l → c ≠ quoteChar) →
      l.dropWhile (fun c => c == quoteChar) = l := by
  intro l h
  cases l with
  | nil => rfl
  | cons c t =>
    exact List.dropWhile_cons_of_neg (by simpa using h c (List.mem_cons_self _ _))

theorem trimQuotes_plain (body : List Char) (h : ∀ c, c ∈ body → c ≠ quoteChar) :
    trimQuotes body = body ∧ trimQuotes (quoteChar :: (body ++ [quoteChar])) = body := by
  have hrev : ∀ c, c ∈ body.reverse → c ≠ quoteChar := fun c hc => h c (List.mem_reverse.mp hc)
  unfold trimQuotes
  constructor
  · rw [dropWhile_quote_id body h, dropWhile_quote_id _ hrev, List.reverse_reverse]
  · rw [List.dropWhile_cons_of_pos (by simp)]
    cases body with
    | nil => simp [List.dropWhile]
    | cons c t =>
      rw [List.cons_append, List.dropWhile_cons_of_neg
        (by simpa using h c (List.mem_cons_self _ _)), ← List.cons_append,
        List.reverse_append, List.reverse_singleton, List.singleton_append,
        List.dropWhile_cons_of_pos (by simp), dropWhile_quote_id _ hrev, List.reverse_reverse]

/-- The characters of the dotted form of four octets are digits and dots. -/
theorem dottedChars_plain {a b c d : Nat} (ha : a < 256) (hb : b < 256) (hc : c < 256)
    (hd : d < 256) :
    ∀ ch, ch ∈ dottedChars [a, b, c, d] → ch.isDigit = true ∨ ch = '.' := by
  have hall : ∀ x, x < 256 → ∀ ch, ch ∈ decimal x → ch.isDigit = true := by
    intro x hx ch hch
    exact List.all_eq_true.mp (decimal_octet x hx).2.1 ch hch
  intro ch hch
  simp only [dottedChars, List.mem_append, List.mem_cons] at hch
  rcases hch with h | h | h | h | h | h | h
  · exact Or.inl (hall a ha ch h)
  · exact Or.inr h
  · exact Or.inl (hall b hb ch h)
  · exact Or.inr h
  · exact Or.inl (hall c hc ch h)
  · exact Or.inr h
  · exact Or.inl (hall d hd ch h)

theorem parseAddr_dotted (v6 : String → Option (List Nat)) {a b c d : Nat} (ha : a < 256)
    (hb : b < 256) (hc : c < 256) (hd : d < 256) :
    parseAddr v6 (dottedChars [a, b, c, d]) = some (.v4 [a, b, c, d]) := by
  unfold parseAddr
  have hf : (dottedChars [a, b, c, d]).find? (fun c => c == '.' || c == ':' || c == '%') =
      some '.' := by
    have hdd : dottedChars [a, b, c, d] =
        decimal a ++ ('.' :: (decimal b ++ ('.' :: (decimal c ++ ('.' :: decimal d))))) := by
      simp [dottedChars]
    rw [hdd]
    exact find_first_dot _ _ (decimal_octet a ha).2.1
  rw [hf]
  simp only [if_true, parseIPv4Fields_dotted ha hb hc hd, Option.map_some']

set_option maxRecDepth 100000 in
theorem cidrMask_four : ∀ size, size ≤ 32 →
    cidrMask size 4 = [maskByte (min 8 size), maskByte (min 8 (size - 8)),
        maskByte (min 8 (size - 16)), maskByte (min 8 (size - 24))] ∧
      maskSize (cidrMask size 4) = size := by
  decide

set_option maxRecDepth 1000000 in
theorem byte_and_maskByte : ∀ k, k ≤ 8 → ∀ x, x < 256 → x % 2 ^ (8 - k) = 0 →
    x &&& maskByte k = x := by
  decide

theorem octets_lt (ip : Nat) : ∀ x, x ∈ octets ip → x < 256 := by
  intro x hx
  simp only [octets, List.mem_cons, List.mem_singleton, List.not_mem_nil, or_false] at hx
  rcases hx with h | h | h | h <;> (subst h; exact Nat.mod_lt _ (by norm_num))

/-- The octets of an address without bits below its network part are unchanged
by the mask of that length. -/
theorem octets_masked {ip size : Nat} (hip : ip < 2 ^ 32) (hs : size ≤ 32)
    (hal : ip % 2 ^ (32 - size) = 0) :
    List.zipWith (fun a b => a &&& b) (octets ip) (cidrMask size 4) = octets ip := by
  rw [(cidrMask_four size hs).1]
  have h0 : ((ip >>> 24) % 256) % 2 ^ (8 - min 8 size) = 0 := by
    rw [Nat.shiftRight_eq_div_pow]
    interval_cases size <;> simp at hal ⊢ <;> omega
  have h1 : ((ip >>> 16) % 256) % 2 ^ (8 - min 8 (size - 8)) = 0 := by
    rw [Nat.shiftRight_eq_div_pow]
    interval_cases size <;> simp at hal ⊢ <;> omega
  have h2 : ((ip >>> 8) % 256) % 2 ^ (8 - min 8 (size - 16)) = 0 := by
    rw [Nat.shiftRight_eq_div_pow]
    interval_cases size <;> simp at hal ⊢ <;> omega
  have h3 : (ip % 256) % 2 ^ (8 - min 8 (size - 24)) = 0 := by
    interval_cases size <;> simp at hal ⊢ <;> omega
  have hb : ∀ x, x < 256 → ∀ k, k ≤ 8 → x % 2 ^ (8 - k) = 0 → x &&& maskByte k = x :=
    fun x hx k hk h => byte_and_maskByte k hk x hx h
  simp only [octets, List.zipWith_cons_cons, List.zipWith_nil_right]
  rw [hb _ (Nat.mod_lt _ (by norm_num)) _ (Nat.min_le_left _ _) h0,
    hb _ (Nat.mod_lt _ (by norm_num)) _ (Nat.min_le_left _ _) h1,
    hb _ (Nat.mod_lt _ (by norm_num)) _ (Nat.min_le_left _ _) h2,
    hb _ (Nat.mod_lt _ (by norm_num)) _ (Nat.min_le_left _ _) h3]

/-- The function fromBytes reassembles the octets of a `uint32`. -/
theorem fromBytes_octets {ip : Nat} (hip : ip < 2 ^ 32) : fromBytes (octets ip) = ip := by
  unfold fromBytes octets
  simp only [List.getD_cons_zero, List.getD_cons_succ, Nat.shiftLeft_eq, Nat.shiftRight_eq_div_pow]
  have e1 : ip % 256 ||| ip / 2 ^ 8 % 256 * 2 ^ 8 = ip / 2 ^ 8 % 256 * 2 ^ 8 + ip % 256 := by
    rw [Nat.or_comm, Nat.mul_comm, Nat.mul_add_lt_is_or (Nat.mod_lt _ (by norm_num))]
  have e2 : (ip / 2 ^ 8 % 256 * 2 ^ 8 + ip % 256) ||| ip / 2 ^ 16 % 256 * 2 ^ 16 =
      ip / 2 ^ 16 % 256 * 2 ^ 16 + (ip / 2 ^ 8 % 256 * 2 ^ 8 + ip % 256) := by
    rw [Nat.or_comm, Nat.mul_comm (ip / 2 ^ 16 % 256), Nat.mul_add_lt_is_or (by omega)]
  have e3 : (ip / 2 ^ 16 % 256 * 2 ^ 16 + (ip / 2 ^ 8 % 256 * 2 ^ 8 + ip % 256)) |||
        ip / 2 ^ 24 % 256 * 2 ^ 24 =
      ip / 2 ^ 24 % 256 * 2 ^ 24 +
        (ip / 2 ^ 16 % 256 * 2 ^ 16 + (ip / 2 ^ 8 % 256 * 2 ^ 8 + ip % 256)) := by
    rw [Nat.or_comm, Nat.mul_comm (ip / 2 ^ 24 % 256), Nat.mul_add_lt_is_or (by omega)]
  rw [e1, e2, e3]
  omega

/-- ParseCIDR reads the formatted form of an address and a length of at most
32 back as the masked octets and the mask of that length. -/
theorem parseCIDR_formatted (v6 : String → Option (List Nat)) (ip size : Nat)
    (hs : size ≤ 32) :
    ParseCIDR v6 (dottedChars (octets ip) ++ '/' :: decimal size) =
      some { IP := List.zipWith (fun a b => a &&& b) (octets ip) (cidrMask size 4)
             Mask := cidrMask size 4 } := by
  have hlt : ∀ x, x ∈ octets ip → x < 256 := octets_lt ip
  have ha := hlt ((ip >>> 24) % 256) (by simp [octets])
  have hb := hlt ((ip >>> 16) % 256) (by simp [octets])
  have hc := hlt ((ip >>> 8) % 256) (by simp [octets])
  have hd := hlt (ip % 256) (by simp [octets])
  have hplain := dottedChars_plain ha hb hc hd
  have hsplit : splitAtSlash (dottedChars (octets ip) ++ '/' :: decimal size) =
      some (dottedChars (octets ip), decimal size) := by
    apply splitAtSlash_append
    intro ch hch
    rcases hplain ch hch with h | h
    · exact (digit_ne_special h).2.2.2.1
    · rw [h]; decide
  unfold ParseCIDR
  rw [hsplit]
  simp only
  have hpa : parseAddr v6 (dottedChars (octets ip)) =
      some (.v4 [(ip >>> 24) % 256, (ip >>> 16) % 256, (ip >>> 8) % 256, ip % 256]) :=
    parseAddr_dotted v6 ha hb hc hd
  rw [hpa, (decimal_size size hs).2.2]
  simp only [Addr.bitLen, octets]
  rw [if_neg (by omega)]

/-- C12, amended: for every network value whose length is at most 32 and whose
address is a `uint32` with no bit set below the network part, parsing its
formatted form (with or without the quotation marks of the JSON form) yields
the value again, and hence formatting the result of parsing such a text yields
the text again. -/
theorem cidr_round_trip_of_aligned (v6 : String → Option (List Nat)) (n : IPv4Net)
    (hip : n.IP < 2 ^ 32) (hs : n.Size ≤ 32) (hal : n.IP % 2 ^ (32 - n.Size) = 0) :
    IPv4Net.UnmarshalJSON v6 n.MarshalJSON = .ok n ∧
      IPv4Net.UnmarshalJSON v6 (IPv4NetString n) = .ok n ∧
      (IPv4Net.UnmarshalJSON v6 (IPv4NetString n)).map IPv4NetString =
        .ok (IPv4NetString n) := by
  have hlt : ∀ x, x ∈ octets n.IP → x < 256 := octets_lt n.IP
  have ha := hlt ((n.IP >>> 24) % 256) (by simp [octets])
  have hb := hlt ((n.IP >>> 16) % 256) (by simp [octets])
  have hc := hlt ((n.IP >>> 8) % 256) (by simp [octets])
  have hd := hlt (n.IP % 256) (by simp [octets])
  have hq : ∀ ch, ch ∈ dottedChars (octets n.IP) ++ '/' :: decimal n.Size →
      ch ≠ quoteChar := by
    intro ch hch
    rcases List.mem_append.mp hch with h | h
    · rcases dottedChars_plain ha hb hc hd ch h with h' | h'
      · exact (digit_ne_special h').2.2.2.2
      · rw [h']; decide
    · rcases List.mem_cons.mp h with h' | h'
      · rw [h']; decide
      · exact (digit_ne_special
          (List.all_eq_true.mp (decimal_size n.Size hs).2.1 ch h')).2.2.2.2
  obtain ⟨ht1, ht2⟩ := trimQuotes_plain _ hq
  have hval : fromIPNet
      { IP := List.zipWith (fun a b => a &&& b) (octets n.IP) (cidrMask n.Size 4)
        Mask := cidrMask n.Size 4 } = .ok n := by
    rw [octets_masked hip hs hal]
    unfold fromIPNet fromIP
    have h4 : To4 (octets n.IP) = some (octets n.IP) := by
      unfold To4
      rw [if_pos (by simp [octets])]
    simp only [h4, fromBytes_octets hip, (cidrMask_four n.Size hs).2]
  have h2 : IPv4Net.UnmarshalJSON v6 (IPv4NetString n) = .ok n := by
    unfold IPv4Net.UnmarshalJSON IPv4NetString
    simp only [ht1, parseCIDR_formatted v6 n.IP n.Size hs, hval]
  refine ⟨?_, h2, ?_⟩
  · unfold IPv4Net.UnmarshalJSON IPv4Net.MarshalJSON IPv4NetString
    simp only [ht2, parseCIDR_formatted v6 n.IP n.Size hs, hval]
  · rw [h2]
    rfl

/-- Witness of the amended C12: the network 10.10.5.0/24. -/
theorem cidr_round_trip_witness :
    IPv4NetString { IP := dotted 10 10 5 0, Size := 24 } = "10.10.5.0/24" ∧
    (IPv4Net.UnmarshalJSON sampleV6
        (IPv4Net.MarshalJSON { IP := dotted 10 10 5 0, Size := 24 }) =
        .ok { IP := dotted 10 10 5 0, Size := 24 } ∧
      IPv4Net.UnmarshalJSON sampleV6 (IPv4NetString { IP := dotted 10 10 5 0, Size := 24 }) =
        .ok { IP := dotted 10 10 5 0, Size := 24 } ∧
      (IPv4Net.UnmarshalJSON sampleV6
          (IPv4NetString { IP := dotted 10 10 5 0, Size := 24 })).map IPv4NetString =
        .ok (IPv4NetString { IP := dotted 10 10 5 0, Size := 24 })) :=
  ⟨by decide,
   cidr_round_trip_of_aligned sampleV6 { IP := dotted 10 10 5 0, Size := 24 }
     (by decide) (by decide) (by decide)⟩

/-- C12 fails as stated. The network value 10.10.5.1/24 (the form NextAddr
gives a gateway) is formatted as `10.10.5.1/24`, and parsing that text yields
10.10.5.0/24: UnmarshalJSON keeps the network ParseCIDR returns, whose host bits
are cleared. So parsing the formatted value does not yield the value, and
formatting the parsed text `10.10.5.1/24` yields `10.10.5.0/24`, not the
text. -/
theorem cidr_round_trip_loses_host_bits :
    IPv4NetString { IP := dotted 10 10 5 1, Size := 24 } = "10.10.5.1/24" ∧
    IPv4Net.UnmarshalJSON sampleV6
        (IPv4Net.MarshalJSON { IP := dotted 10 10 5 1, Size := 24 }) =
      .ok { IP := dotted 10 10 5 0, Size := 24 } ∧
    IPv4Net.UnmarshalJSON sampleV6 "10.10.5.1/24" =
      .ok { IP := dotted 10 10 5 0, Size := 24 } ∧
    (IPv4Net.UnmarshalJSON sampleV6 "10.10.5.1/24").map IPv4NetString =
      .ok "10.10.5.0/24" ∧
    (IPv4Net.mk (dotted 10 10 5 0) 24 ≠ IPv4Net.mk (dotted 10 10 5 1) 24) := by
  refine ⟨by decide, by decide, by decide, by decide, by decide⟩

/-- C14, evaluated at failing inputs. For the text `::1`, a valid IPv6 address,
ParseIP returns sixteen bytes, To4 returns nil, and parseIPv4Addr indexes the
nil slice: it panics instead of returning an error. For the text
`2001:db8::/32`, a valid IPv6 CIDR, ParseCIDR succeeds and fromIP panics on
the address that is not IPv4: UnmarshalJSON returns no error either. -/
theorem ipv6_text_panics :
    ParseIP sampleV6 "::1" = some [0, 0, 0, 0, 0, 0, 0, 0, 0, 0, 0, 0, 0, 0, 0, 1] ∧
    To4 [0, 0, 0, 0, 0, 0, 0, 0, 0, 0, 0, 0, 0, 0, 0, 1] = none ∧
    parseIPv4Addr sampleV6 "::1" = .error .indexOutOfRange ∧
    IPv4AddrUnmarshalJSON sampleV6 "::1" = .error .indexOutOfRange ∧
    IPv4Net.UnmarshalJSON sampleV6 "2001:db8::/32" = .error .unexpectedAddressType ∧
    parseIPv4Addr sampleV6 "not an address" = .error .malformed ∧
    IPv4Net.UnmarshalJSON sampleV6 "10.0.0.0/33" = .error .malformed := by
  refine ⟨by decide, by decide, by decide, by decide, by decide, by decide, by decide⟩

theorem canonicalize_sets_ipmasq {n0 n : Network} (h : n0.Canonicalize = .ok n) :
    ∃ masq, n.IPMasq = some masq := by
  unfold Network.Canonicalize at h
  cases hv : n0.IPv4 with
  | none =>
    rw [hv] at h
    injection h with h
    subst h
    cases n0.IPMasq <;> exact ⟨_, rfl⟩
  | some v4 =>
    rw [hv] at h
    simp only at h
    cases h1 : canonicalizeMin v4 with
    | error e => rw [h1] at h; cases h
    | ok va =>
      rw [h1] at h
      simp only at h
      cases h2 : canonicalizeMax va with
      | error e => rw [h2] at h; cases h
      | ok vb =>
        rw [h2] at h
        injection h with h
        subst h
        cases n0.IPMasq <;> exact ⟨_, rfl⟩

/-- C17: for a canonicalized network `n` with an ipv4 section and a supernet,
and a subnet `s` whose block has base `b` and length `p`, GenerateCNIConfig
returns the record with the name of `n`, the bridge `name ++ "brd0"`, the MTU
of `s`, the negation of the `ipmasq` of `n`, the supernet in CIDR form, the
subnet `(b+1)/p` in CIDR form and the gateway `b+1` in dotted form, `b+1` being
taken as a `uint32`. -/
theorem cni_config_fields (n0 n : Network) (s : Subnet) (v4 : IPv4Config)
    (supernet : IPv4Net) (b p : Nat)
    (hcanon : n0.Canonicalize = .ok n) (hv4 : n.IPv4 = some v4)
    (hnet : v4.Network = some supernet) (hblock : s.IPv4Network = some { IP := b, Size := p }) :
    ∃ masq, n.IPMasq = some masq ∧
      GenerateCNIConfig n s = .ok
        { Name := n.Name
          Bridge := n.Name ++ "brd0"
          MTU := s.MTU
          IPMasq := !masq
          IPv4 := some { Network := IPv4NetString supernet
                         Subnet := IPv4NetString { IP := add32 b 1, Size := p }
                         Gateway := IPv4AddrString (add32 b 1) } } ∧
      (IPv4NetString { IP := add32 b 1, Size := p }).data =
        (IPv4AddrString (add32 b 1)).data ++ '/' :: decimal p ∧
      (b + 1 < 2 ^ 32 → add32 b 1 = b + 1) := by
  obtain ⟨masq, hmasq⟩ := canonicalize_sets_ipmasq hcanon
  refine ⟨masq, hmasq, ?_, rfl, fun h => add32_of_lt h⟩
  unfold GenerateCNIConfig
  simp only [hmasq, hv4, hblock, Option.bind, hnet, IPv4Net.NextAddr]

/-- Witness of C17: the network 10.10.0.0/16 after Canonicalize and the lease
of the block 10.10.6.0/24. -/
theorem cni_config_fields_witness :
    (rangedNetwork.IPv4.map (fun v => v.Network) =
        some (some { IP := dotted 10 10 0 0, Size := 16 }) ∧
      GenerateCNIConfig rangedNetwork (freshLease "v" (dotted 10 10 6 0)) = .ok
        { Name := "v", Bridge := "vbrd0", MTU := 1450, IPMasq := false
          IPv4 := some { Network := "10.10.0.0/16", Subnet := "10.10.6.1/24"
                         Gateway := "10.10.6.1" } }) ∧
    ∃ masq, rangedNetwork.IPMasq = some masq ∧
      GenerateCNIConfig rangedNetwork (freshLease "v" (dotted 10 10 6 0)) = .ok
        { Name := rangedNetwork.Name
          Bridge := rangedNetwork.Name ++ "brd0"
          MTU := (freshLease "v" (dotted 10 10 6 0)).MTU
          IPMasq := !masq
          IPv4 := some { Network := IPv4NetString { IP := dotted 10 10 0 0, Size := 16 }
                         Subnet := IPv4NetString { IP := add32 (dotted 10 10 6 0) 1, Size := 24 }
                         Gateway := IPv4AddrString (add32 (dotted 10 10 6 0) 1) } } ∧
      (IPv4NetString { IP := add32 (dotted 10 10 6 0) 1, Size := 24 }).data =
        (IPv4AddrString (add32 (dotted 10 10 6 0) 1)).data ++ '/' :: decimal 24 ∧
      (dotted 10 10 6 0 + 1 < 2 ^ 32 → add32 (dotted 10 10 6 0) 1 = dotted 10 10 6 0 + 1) :=
  ⟨⟨by decide, by decide⟩,
   cni_config_fields rangedNetwork rangedNetwork (freshLease "v" (dotted 10 10 6 0)) rangedV4
     { IP := dotted 10 10 0 0, Size := 16 } (dotted 10 10 6 0) 24 (by decide) rfl rfl rfl⟩

theorem Tables.le_refl (st : Tables) : st.le st :=
  fun _ _ rules h => ⟨rules, h, fun _ hx => hx⟩

theorem Tables.le_trans {a b c : Tables} (h1 : a.le b) (h2 : b.le c) : a.le c := by
  intro t ch rules h
  obtain ⟨r1, hb, m1⟩ := h1 t ch rules h
  obtain ⟨r2, hc, m2⟩ := h2 t ch r1 hb
  exact ⟨r2, hc, fun x hx => m2 x (m1 x hx)⟩

theorem Tables.set_same (st : Tables) (t c : String) (rules : List (List String)) :
    st.set t c rules t c = some rules := by
  unfold Tables.set
  rw [if_pos ⟨rfl, rfl⟩]

theorem Tables.set_other (st : Tables) (t c : String) (rules : List (List String))
    {t' c' : String} (h : ¬ (t' = t ∧ c' = c)) : st.set t c rules t' c' = st t' c' := by
  unfold Tables.set
  rw [if_neg h]

/-- Replacing a chain by a list that holds its rules does not lose a rule. -/
theorem Tables.le_set {st : Tables} {t c : String} {old new : List (List String)}
    (hold : st t c = some old) (hsub : ∀ x, x ∈ old → x ∈ new) : st.le (st.set t c new) := by
  intro t' c' rules h
  by_cases hk : t' = t ∧ c' = c
  · obtain ⟨rfl, rfl⟩ := hk
    rw [hold] at h
    injection h with h
    subst h
    exact ⟨new, Tables.set_same st _ _ new, hsub⟩
  · exact ⟨rules, by rw [Tables.set_other st t c new hk]; exact h, fun _ hx => hx⟩

theorem has_mono {st st' : Tables} (hle : st.le st') {t c : String} {spec : List String}
    (h : st.has t c spec = true) : st'.has t c spec = true := by
  unfold Tables.has at h ⊢
  cases hs : st t c with
  | none => rw [hs] at h; cases h
  | some rules =>
    rw [hs] at h
    obtain ⟨rules', hs', hm⟩ := hle t c rules hs
    rw [hs']
    simp only [decide_eq_true_eq] at h ⊢
    exact hm _ h

theorem isSome_mono {st st' : Tables} (hle : st.le st') {t c : String}
    (h : (st t c).isSome = true) : (st' t c).isSome = true := by
  cases hs : st t c with
  | none => rw [hs] at h; cases h
  | some rules =>
    obtain ⟨rules', hs', _⟩ := hle t c rules hs
    rw [hs']
    rfl

/-! ### The calls of the library

Without a failure of the operating system a call is its effect on the tables;
a call that returns without error had that effect. -/

theorem iptListChains_calm (st : Tables) (t c : String) :
    iptListChains noFailure st t c = some (st t c).isSome := rfl

theorem iptExists_calm (st : Tables) (t c : String) (spec : List String) :
    iptExists noFailure st t c spec = some (st.has t c spec) := rfl

theorem iptAppend_calm (st : Tables) (t c : String) (spec : List String) :
    iptAppend noFailure st t c spec = st.append t c spec := rfl

theorem iptInsert_calm (st : Tables) (t c : String) (pos : Nat) (spec : List String) :
    iptInsert noFailure st t c pos spec = st.insertAt t c pos spec := rfl

theorem iptDelete_calm (st : Tables) (t c : String) (spec : List String) :
    iptDelete noFailure st t c spec = st.delete t c spec := rfl

theorem iptNewChain_calm (st : Tables) (t c : String) :
    iptNewChain noFailure st t c = st.newChain t c := rfl

theorem iptListChains_some {env : IptEnv} {st : Tables} {t c : String} {b : Bool}
    (h : iptListChains env st t c = some b) : (st t c).isSome = b := by
  unfold iptListChains at h
  by_cases hf : env.fails st (.listChains t) = true
  · rw [if_pos hf] at h; cases h
  · rw [if_neg hf] at h
    exact Option.some.inj h

theorem iptExists_some {env : IptEnv} {st : Tables} {t c : String} {spec : List String}
    {b : Bool} (h : iptExists env st t c spec = some b) : st.has t c spec = b := by
  unfold iptExists at h
  by_cases hf : env.fails st (.ruleExists t c spec) = true
  · rw [if_pos hf] at h; cases h
  · rw [if_neg hf] at h
    exact Option.some.inj h

theorem iptAppend_some {env : IptEnv} {st st1 : Tables} {t c : String} {spec : List String}
    (h : iptAppend env st t c spec = some st1) : st.append t c spec = some st1 := by
  unfold iptAppend at h
  by_cases hf : env.fails st (.append t c spec) = true
  · rw [if_pos hf] at h; cases h
  · rw [if_neg hf] at h
    exact h

theorem iptInsert_some {env : IptEnv} {st st1 : Tables} {t c : String} {pos : Nat}
    {spec : List String} (h : iptInsert env st t c pos spec = some st1) :
    st.insertAt t c pos spec = some st1 := by
  unfold iptInsert at h
  by_cases hf : env.fails st (.insert t c pos spec) = true
  · rw [if_pos hf] at h; cases h
  · rw [if_neg hf] at h
    exact h

theorem iptDelete_some {env : IptEnv} {st st1 : Tables} {t c : String} {spec : List String}
    (h : iptDelete env st t c spec = some st1) : st.delete t c spec = some st1 := by
  unfold iptDelete at h
  by_cases hf : env.fails st (.delete t c spec) = true
  · rw [if_pos hf] at h; cases h
  · rw [if_neg hf] at h
    exact h

/-- A Delete that fails although the rule is in the chain failed for a reason
of the operating system. -/
theorem iptDelete_none {env : IptEnv} {st : Tables} {t c : String} {spec : List String}
    {rules : List (List String)} (hc : st t c = some rules) (hm : spec ∈ rules)
    (h : iptDelete env st t c spec = none) : env.fails st (.delete t c spec) = true := by
  unfold iptDelete at h
  by_cases hf : env.fails st (.delete t c spec) = true
  · exact hf
  · rw [if_neg hf] at h
    have hd : st.delete t c spec = some (st.set t c (rules.erase spec)) := by
      unfold Tables.delete
      rw [hc]
      simp only [if_pos hm]
    rw [hd] at h
    cases h

theorem iptNewChain_some {env : IptEnv} {st st1 : Tables} {t c : String}
    (h : iptNewChain env st t c = some st1) : st.newChain t c = some st1 := by
  unfold iptNewChain at h
  by_cases hf : env.fails st (.newChain t c) = true
  · rw [if_pos hf] at h; cases h
  · rw [if_neg hf] at h
    exact h

/-! ### The functions of the manager -/

theorem ensureChain_calm (st : Tables) (t c : String) :
    ensureChain noFailure st t c =
      if (st t c).isSome then .ok st
      else
        match st.newChain t c with
        | none => .error .ensureChain
        | some st1 => .ok st1 := by
  unfold ensureChain
  rw [iptListChains_calm]
  cases (st t c).isSome <;> rfl

/-- A call of ensureChain that returns without error returns what it returns
when no call of the library fails. -/
theorem ensureChain_of_ok {env : IptEnv} {st st1 : Tables} {t c : String}
    (h : ensureChain env st t c = .ok st1) : ensureChain noFailure st t c = .ok st1 := by
  rw [ensureChain_calm]
  unfold ensureChain at h
  cases hl : iptListChains env st t c with
  | none => rw [hl] at h; cases h
  | some b =>
    rw [hl] at h
    rw [iptListChains_some hl]
    cases b with
    | true => exact h
    | false =>
      simp only at h
      cases hn : iptNewChain env st t c with
      | none => rw [hn] at h; cases h
      | some s2 =>
        rw [hn] at h
        simp only [Bool.false_eq_true, if_false]
        rw [iptNewChain_some hn]
        exact h

theorem ensureChain_spec {env : IptEnv} {st st1 : Tables} {t c : String}
    (h : ensureChain env st t c = .ok st1) :
    st.le st1 ∧ (st1 t c).isSome = true ∧
      ∀ t' c', ¬ (t' = t ∧ c' = c) → st1 t' c' = st t' c' := by
  replace h := ensureChain_of_ok h
  rw [ensureChain_calm] at h
  by_cases hs : (st t c).isSome = true
  · rw [if_pos hs] at h
    injection h with h
    subst h
    exact ⟨Tables.le_refl _, hs, fun _ _ _ => rfl⟩
  · rw [if_neg hs] at h
    unfold Tables.newChain at h
    cases hc : st t c with
    | some rules => rw [hc] at hs; exact absurd rfl hs
    | none =>
      rw [hc] at h
      injection h with h
      subst h
      refine ⟨?_, by rw [Tables.set_same]; rfl, fun t' c' hk => Tables.set_other st t c [] hk⟩
      intro t' c' rules hr
      by_cases hk : t' = t ∧ c' = c
      · obtain ⟨rfl, rfl⟩ := hk
        rw [hc] at hr
        cases hr
      · exact ⟨rules, by rw [Tables.set_other st t c [] hk]; exact hr, fun _ hx => hx⟩

theorem ensureChain_noop {st : Tables} {t c : String} (h : (st t c).isSome = true) :
    ensureChain noFailure st t c = .ok st := by
  rw [ensureChain_calm, if_pos h]

theorem applyRule_calm (st : Tables) (rule : Rule) :
    applyRule noFailure st rule =
      if st.has rule.table rule.chain rule.spec then .ok st
      else
        match st.append rule.table rule.chain rule.spec with
        | none => .error .applyRule
        | some st1 => .ok st1 := by
  unfold applyRule
  rw [iptExists_calm]
  cases st.has rule.table rule.chain rule.spec <;> rfl

/-- A call of applyRule that returns without error returns what it returns
when no call of the library fails. -/
theorem applyRule_of_ok {env : IptEnv} {st st1 : Tables} {rule : Rule}
    (h : applyRule env st rule = .ok st1) : applyRule noFailure st rule = .ok st1 := by
  rw [applyRule_calm]
  unfold applyRule at h
  cases hl : iptExists env st rule.table rule.chain rule.spec with
  | none => rw [hl] at h; cases h
  | some b =>
    rw [hl] at h
    rw [iptExists_some hl]
    cases b with
    | true => exact h
    | false =>
      simp only at h
      cases hn : iptAppend env st rule.table rule.chain rule.spec with
      | none => rw [hn] at h; cases h
      | some s2 =>
        rw [hn] at h
        simp only [Bool.false_eq_true, if_false]
        rw [iptAppend_some hn]
        exact h

theorem applyRule_spec {env : IptEnv} {st st1 : Tables} {rule : Rule}
    (h : applyRule env st rule = .ok st1) :
    st.le st1 ∧ st1.has rule.table rule.chain rule.spec = true ∧
      ∀ t' c', ¬ (t' = rule.table ∧ c' = rule.chain) → st1 t' c' = st t' c' := by
  replace h := applyRule_of_ok h
  rw [applyRule_calm] at h
  by_cases he : st.has rule.table rule.chain rule.spec = true
  · rw [if_pos he] at h
    injection h with h
    subst h
    exact ⟨Tables.le_refl _, he, fun _ _ _ => rfl⟩
  · rw [if_neg he] at h
    unfold Tables.append at h
    cases hc : st rule.table rule.chain with
    | none => rw [hc] at h; cases h
    | some rules =>
      rw [hc] at h
      injection h with h
      subst h
      refine ⟨Tables.le_set hc (fun x hx => List.mem_append_left _ hx), ?_,
        fun t' c' hk => Tables.set_other st _ _ _ hk⟩
      unfold Tables.has
      rw [Tables.set_same]
      simp

theorem applyRule_noop {st : Tables} {rule : Rule}
    (h : st.has rule.table rule.chain rule.spec = true) :
    applyRule noFailure st rule = .ok st := by
  rw [applyRule_calm, if_pos h]

/-- A run of applyRules that returns without error returns what it returns
when no call of the library fails. -/
theorem applyRules_of_ok {env : IptEnv} : ∀ (rules : List Rule) {st st1 : Tables},
    applyRules env st rules = .ok st1 → applyRules noFailure st rules = .ok st1 := by
  intro rules
  induction rules with
  | nil => intro st st1 h; exact h
  | cons r rest ih =>
    intro st st1 h
    unfold applyRules at h ⊢
    cases h1 : applyRule env st r with
    | error e => rw [h1] at h; cases h
    | ok sa =>
      rw [h1] at h
      rw [applyRule_of_ok h1]
      exact ih h

theorem applyRules_spec {env : IptEnv} : ∀ (rules : List Rule) {st st1 : Tables},
    applyRules env st rules = .ok st1 →
    st.le st1 ∧ (∀ r, r ∈ rules → st1.has r.table r.chain r.spec = true) ∧
      ∀ t' c', (∀ r, r ∈ rules → ¬ (t' = r.table ∧ c' = r.chain)) → st1 t' c' = st t' c' := by
  intro rules
  induction rules with
  | nil =>
    intro st st1 h
    unfold applyRules at h
    injection h with h
    subst h
    exact ⟨Tables.le_refl _, fun _ hr => absurd hr (List.not_mem_nil _), fun _ _ _ => rfl⟩
  | cons r rest ih =>
    intro st st1 h
    unfold applyRules at h
    cases h1 : applyRule env st r with
    | error e => rw [h1] at h; cases h
    | ok sa =>
      rw [h1] at h
      obtain ⟨l1, e1, o1⟩ := applyRule_spec h1
      obtain ⟨l2, e2, o2⟩ := ih h
      refine ⟨Tables.le_trans l1 l2, ?_, ?_⟩
      · intro x hx
        rcases List.mem_cons.mp hx with rfl | hx'
        · exact has_mono l2 e1
        · exact e2 x hx'
      · intro t' c' hk
        rw [o2 t' c' (fun x hx => hk x (List.mem_cons_of_mem _ hx)),
          o1 t' c' (hk r (List.mem_cons_self _ _))]

theorem applyRules_noop : ∀ (rules : List Rule) {st : Tables},
    (∀ r, r ∈ rules → st.has r.table r.chain r.spec = true) →
    applyRules noFailure st rules = .ok st := by
  intro rules
  induction rules with
  | nil => intro st _; rfl
  | cons r rest ih =>
    intro st h
    unfold applyRules
    rw [applyRule_noop (h r (List.mem_cons_self _ _))]
    exact ih (fun x hx => h x (List.mem_cons_of_mem _ hx))

theorem has_of_some {st : Tables} {t c : String} {rules : List (List String)}
    (hc : st t c = some rules) (spec : List String) :
    st.has t c spec = decide (spec ∈ rules) := by
  unfold Tables.has
  rw [hc]

theorem has_of_none {st : Tables} {t c : String} (hc : st t c = none)
    (spec : List String) : st.has t c spec = false := by
  unfold Tables.has
  rw [hc]

theorem insertAt_of_some {st : Tables} {t c : String} {rules : List (List String)}
    (hc : st t c = some rules) (pos : Nat) (spec : List String) :
    st.insertAt t c pos spec =
      if 1 ≤ pos ∧ pos ≤ rules.length + 1 then
        some (st.set t c (rules.take (pos - 1) ++ spec :: rules.drop (pos - 1)))
      else none := by
  unfold Tables.insertAt
  rw [hc]

theorem insertAt_of_none {st : Tables} {t c : String} (hc : st t c = none)
    (pos : Nat) (spec : List String) : st.insertAt t c pos spec = none := by
  unfold Tables.insertAt
  rw [hc]

theorem delete_of_some {st : Tables} {t c : String} {rules : List (List String)}
    (hc : st t c = some rules) (spec : List String) :
    st.delete t c spec =
      if spec ∈ rules then some (st.set t c (rules.erase spec)) else none := by
  unfold Tables.delete
  rw [hc]

theorem Tables.set_set (st : Tables) (t c : String) (a b : List (List String)) :
    (st.set t c a).set t c b = st.set t c b := by
  funext t1 c1
  unfold Tables.set
  by_cases hk : t1 = t ∧ c1 = c
  · simp only [if_pos hk]
  · simp only [if_neg hk]

theorem Tables.set_self {st : Tables} {t c : String} {a : List (List String)}
    (h : st t c = some a) : st.set t c a = st := by
  funext t1 c1
  unfold Tables.set
  by_cases hk : t1 = t ∧ c1 = c
  · obtain ⟨rfl, rfl⟩ := hk
    rw [if_pos ⟨rfl, rfl⟩, h]
  · rw [if_neg hk]

theorem mem_insert_at {α : Type} (l : List α) (k : Nat) (a x : α) (hx : x ∈ l) :
    x ∈ l.take k ++ a :: l.drop k := by
  rw [← List.take_append_drop k l] at hx
  rcases List.mem_append.mp hx with h | h
  · exact List.mem_append_left _ h
  · exact List.mem_append_right _ (List.mem_cons_of_mem _ h)

theorem insertAt_spec {st st1 : Tables} {t c : String} {pos : Nat} {spec : List String}
    (h : st.insertAt t c pos spec = some st1) :
    ∃ rules, st t c = some rules ∧ 1 ≤ pos ∧ pos ≤ rules.length + 1 ∧
      st1 = st.set t c (rules.take (pos - 1) ++ spec :: rules.drop (pos - 1)) := by
  cases hc : st t c with
  | none => rw [insertAt_of_none hc] at h; cases h
  | some rules =>
    rw [insertAt_of_some hc] at h
    by_cases hp : 1 ≤ pos ∧ pos ≤ rules.length + 1
    · rw [if_pos hp] at h
      injection h with h
      exact ⟨rules, rfl, hp.1, hp.2, h.symm⟩
    · rw [if_neg hp] at h; cases h

theorem ensureIsolationRule_calm (st : Tables) (rule : Rule) :
    ensureIsolationRule noFailure st rule =
      if st.has rule.table rule.chain rule.spec then .ok st
      else
        match st.insertAt rule.table rule.chain 2 rule.spec with
        | none => .error .isolationRule
        | some st1 => .ok st1 := by
  unfold ensureIsolationRule
  rw [iptExists_calm]
  cases st.has rule.table rule.chain rule.spec <;> rfl

/-- A call of ensureIsolationRule that returns without error returns what it
returns when no call of the library fails. -/
theorem ensureIsolationRule_of_ok {env : IptEnv} {st st1 : Tables} {rule : Rule}
    (h : ensureIsolationRule env st rule = .ok st1) :
    ensureIsolationRule noFailure st rule = .ok st1 := by
  rw [ensureIsolationRule_calm]
  unfold ensureIsolationRule at h
  cases hl : iptExists env st rule.table rule.chain rule.spec with
  | none => rw [hl] at h; cases h
  | some b =>
    rw [hl] at h
    rw [iptExists_some hl]
    cases b with
    | true => exact h
    | false =>
      simp only at h
      cases hn : iptInsert env st rule.table rule.chain 2 rule.spec with
      | none => rw [hn] at h; cases h
      | some s2 =>
        rw [hn] at h
        simp only [Bool.false_eq_true, if_false]
        rw [iptInsert_some hn]
        exact h

theorem ensureIsolationRule_spec {env : IptEnv} {st st1 : Tables} {rule : Rule}
    (h : ensureIsolationRule env st rule = .ok st1) :
    st.le st1 ∧ st1.has rule.table rule.chain rule.spec = true := by
  replace h := ensureIsolationRule_of_ok h
  rw [ensureIsolationRule_calm] at h
  by_cases he : st.has rule.table rule.chain rule.spec = true
  · rw [if_pos he] at h
    injection h with h
    subst h
    exact ⟨Tables.le_refl _, he⟩
  · rw [if_neg he] at h
    cases hi : st.insertAt rule.table rule.chain 2 rule.spec with
    | none => rw [hi] at h; cases h
    | some sa =>
      rw [hi] at h
      injection h with h
      subst h
      obtain ⟨rules, hc, _, _, rfl⟩ := insertAt_spec hi
      refine ⟨Tables.le_set hc (fun x hx => mem_insert_at rules _ _ x hx), ?_⟩
      unfold Tables.has
      rw [Tables.set_same]
      simp

/-- A run of ensureIsolationRules that returns without error returns what it
returns when no call of the library fails. -/
theorem ensureIsolationRules_of_ok {env : IptEnv} : ∀ (rules : List Rule) {st st1 : Tables},
    ensureIsolationRules env st rules = .ok st1 →
    ensureIsolationRules noFailure st rules = .ok st1 := by
  intro rules
  induction rules with
  | nil => intro st st1 h; exact h
  | cons r rest ih =>
    intro st st1 h
    unfold ensureIsolationRules at h ⊢
    cases h1 : ensureIsolationRule env st r with
    | error e => rw [h1] at h; cases h
    | ok sa =>
      rw [h1] at h
      rw [ensureIsolationRule_of_ok h1]
      exact ih h

theorem ensureIsolationRules_spec {env : IptEnv} : ∀ (rules : List Rule) {st st1 : Tables},
    ensureIsolationRules env st rules = .ok st1 →
    st.le st1 ∧ ∀ r, r ∈ rules → st1.has r.table r.chain r.spec = true := by
  intro rules
  induction rules with
  | nil =>
    intro st st1 h
    unfold ensureIsolationRules at h
    injection h with h
    subst h
    exact ⟨Tables.le_refl _, fun _ hr => absurd hr (List.not_mem_nil _)⟩
  | cons r rest ih =>
    intro st st1 h
    unfold ensureIsolationRules at h
    cases h1 : ensureIsolationRule env st r with
    | error e => rw [h1] at h; cases h
    | ok sa =>
      rw [h1] at h
      obtain ⟨l1, e1⟩ := ensureIsolationRule_spec h1
      obtain ⟨l2, e2⟩ := ih h
      refine ⟨Tables.le_trans l1 l2, ?_⟩
      intro x hx
      rcases List.mem_cons.mp hx with rfl | hx'
      · exact has_mono l2 e1
      · exact e2 x hx'

theorem ensureIsolationRules_noop : ∀ (rules : List Rule) {st : Tables},
    (∀ r, r ∈ rules → st.has r.table r.chain r.spec = true) →
    ensureIsolationRules noFailure st rules = .ok st := by
  intro rules
  induction rules with
  | nil => intro st _; rfl
  | cons r rest ih =>
    intro st h
    unfold ensureIsolationRules
    have h1 : ensureIsolationRule noFailure st r = .ok st := by
      rw [ensureIsolationRule_calm, if_pos (h r (List.mem_cons_self _ _))]
    rw [h1]
    exact ih (fun x hx => h x (List.mem_cons_of_mem _ hx))

/-- A call of EnsureIsolation that returns without error returns what it
returns when no call of the library fails. -/
theorem EnsureIsolation_of_ok {env : IptEnv} {st st1 : Tables} {networks : List Network}
    (h : EnsureIsolation env st networks = .ok st1) :
    EnsureIsolation noFailure st networks = .ok st1 := by
  unfold EnsureIsolation at h ⊢
  by_cases hl : networks.length < 2
  · rw [if_pos hl] at h ⊢
    exact h
  · rw [if_neg hl] at h ⊢
    cases h1 : ensureChain env st "filter" smuggleForwardChainName with
    | error e => rw [h1] at h; cases h
    | ok sa =>
      rw [h1] at h
      rw [ensureChain_of_ok h1]
      exact ensureIsolationRules_of_ok _ h

/-- A call of SetupMasqRules that returns without error returns what it returns
when no call of the library fails. -/
theorem SetupMasqRules_of_ok {env : IptEnv} {randomFully : Bool} {st st1 : Tables}
    {network : Network} {subnet : Subnet}
    (h : SetupMasqRules env randomFully st network subnet = .ok st1) :
    SetupMasqRules noFailure randomFully st network subnet = .ok st1 := by
  unfold SetupMasqRules at h ⊢
  cases hn : network.IPv4.bind (fun v4 => v4.Network) with
  | none => rw [hn] at h; cases h
  | some ipv4Network =>
    cases hs : subnet.IPv4Network with
    | none => rw [hn, hs] at h; cases h
    | some ipv4Subnet =>
      rw [hn, hs] at h
      simp only at h ⊢
      cases h1 : ensureChain env st natTableName smugglePostroutingChainName with
      | error e => rw [h1] at h; cases h
      | ok sa =>
        rw [h1] at h
        rw [ensureChain_of_ok h1]
        exact applyRules_of_ok _ h

theorem ensureJumpRuleFirst_calm (st : Tables) (t c target : String) :
    ensureJumpRuleFirst noFailure st t c target =
      match (if st.has t c (jumpSpec target) then
          match st.delete t c (jumpSpec target) with
          | none => st
          | some deleted => deleted
        else st).insertAt t c 1 (jumpSpec target) with
      | none => .error .jumpRule
      | some st2 => .ok st2 := rfl

/-- The outcome of ensureJumpRuleFirst: the chain exists, and afterwards it is
the jump followed by the chain without the first copy of the jump; or, when
the Delete failed, the jump followed by the whole chain. -/
theorem ensureJumpRuleFirst_spec {env : IptEnv} {st st1 : Tables} {t c target : String}
    (h : ensureJumpRuleFirst env st t c target = .ok st1) :
    ∃ rules, st t c = some rules ∧
      (st1 = st.set t c (jumpSpec target :: rules.erase (jumpSpec target)) ∨
        (jumpSpec target ∈ rules ∧ env.fails st (.delete t c (jumpSpec target)) = true ∧
          st1 = st.set t c (jumpSpec target :: rules))) := by
  unfold ensureJumpRuleFirst at h
  cases hl : iptExists env st t c (jumpSpec target) with
  | none => rw [hl] at h; cases h
  | some found =>
    rw [hl] at h
    simp only at h
    have hfound := iptExists_some hl
    cases hc : st t c with
    | none =>
      rw [has_of_none hc] at hfound
      subst hfound
      simp only [Bool.false_eq_true, if_false] at h
      cases hi : iptInsert env st t c 1 (jumpSpec target) with
      | none => rw [hi] at h; cases h
      | some s2 =>
        have := iptInsert_some hi
        rw [insertAt_of_none hc] at this
        cases this
    | some rules =>
      refine ⟨rules, rfl, ?_⟩
      rw [has_of_some hc] at hfound
      by_cases hm : jumpSpec target ∈ rules
      · have hft : found = true := by rw [← hfound]; exact decide_eq_true hm
        subst hft
        simp only [if_true] at h
        cases hd : iptDelete env st t c (jumpSpec target) with
        | none =>
          rw [hd] at h
          simp only at h
          cases hi : iptInsert env st t c 1 (jumpSpec target) with
          | none => rw [hi] at h; cases h
          | some s2 =>
            rw [hi] at h
            injection h with h
            subst h
            have h2 := iptInsert_some hi
            rw [insertAt_of_some hc, if_pos (by simp)] at h2
            injection h2 with h2
            exact Or.inr ⟨hm, iptDelete_none hc hm hd, h2.symm⟩
        | some deleted =>
          rw [hd] at h
          simp only at h
          have hdel := iptDelete_some hd
          rw [delete_of_some hc, if_pos hm] at hdel
          injection hdel with hdel
          subst hdel
          cases hi : iptInsert env (st.set t c (rules.erase (jumpSpec target))) t c 1
              (jumpSpec target) with
          | none => rw [hi] at h; cases h
          | some s2 =>
            rw [hi] at h
            injection h with h
            subst h
            have h2 := iptInsert_some hi
            rw [insertAt_of_some (Tables.set_same st t c _), if_pos (by simp)] at h2
            injection h2 with h2
            left
            rw [← h2, Tables.set_set]
            rfl
      · have hff : found = false := by rw [← hfound]; exact decide_eq_false hm
        subst hff
        simp only [Bool.false_eq_true, if_false] at h
        cases hi : iptInsert env st t c 1 (jumpSpec target) with
        | none => rw [hi] at h; cases h
        | some s2 =>
          rw [hi] at h
          injection h with h
          subst h
          have h2 := iptInsert_some hi
          rw [insertAt_of_some hc, if_pos (by simp)] at h2
          injection h2 with h2
          left
          rw [← h2, List.erase_of_not_mem hm]
          rfl

theorem ensureJumpRuleFirst_fixed {st : Tables} {t c target : String}
    {rest : List (List String)} (h : st t c = some (jumpSpec target :: rest)) :
    ensureJumpRuleFirst noFailure st t c target = .ok st := by
  rw [ensureJumpRuleFirst_calm]
  rw [has_of_some h, delete_of_some h, if_pos (List.mem_cons_self _ _),
    List.erase_cons_head]
  simp only [List.mem_cons, true_or, decide_True, if_true]
  rw [insertAt_of_some (Tables.set_same st t c _), if_pos (by simp), Tables.set_set]
  simp only [Nat.sub_self, List.take_zero, List.drop_zero, List.nil_append]
  rw [Tables.set_self h]

theorem ok_okTables (result : Except FirewallError Tables) (h : result.isOk = true) :
    result = .ok (okTables result) := by
  cases result with
  | error e => cases h
  | ok st => rfl

theorem customForwardRules_chain (supernet : IPv4Net) (network : Network) :
    ∀ r, r ∈ customForwardRules supernet network →
      r.table = "filter" ∧ r.chain = smuggleForwardChainName := by
  intro r hr
  unfold customForwardRules forwardRules at hr
  simp [List.filter, forwardChainName, smuggleForwardChainName] at hr
  rcases hr with h | h | h | h | h | h <;> subst h <;> exact ⟨rfl, rfl⟩

theorem SetupForwardRules_steps {env : IptEnv} {st st3 : Tables} {network : Network}
    (h : SetupForwardRules env st network = .ok st3) :
    ∃ supernet st1 st2, network.IPv4.bind (fun v4 => v4.Network) = some supernet ∧
      ensureChain env st "filter" smuggleForwardChainName = .ok st1 ∧
      applyRules env st1 (customForwardRules supernet network) = .ok st2 ∧
      ensureJumpRuleFirst env st2 "filter" forwardChainName smuggleForwardChainName =
        .ok st3 := by
  unfold SetupForwardRules at h
  cases hn : network.IPv4.bind (fun v4 => v4.Network) with
  | none => rw [hn] at h; cases h
  | some supernet =>
    rw [hn] at h
    simp only at h
    cases h1 : ensureChain env st "filter" smuggleForwardChainName with
    | error e => rw [h1] at h; cases h
    | ok st1 =>
      rw [h1] at h
      simp only at h
      cases h2 : applyRules env st1 (customForwardRules supernet network) with
      | error e =>
        unfold customForwardRules at h2
        rw [h2] at h
        cases h
      | ok st2 =>
        unfold customForwardRules at h2
        rw [h2] at h
        exact ⟨supernet, st1, st2, rfl, rfl, h2, h⟩

theorem SetupForwardRules_of_steps {env : IptEnv} {st st1 st2 : Tables} {network : Network}
    {supernet : IPv4Net} (hn : network.IPv4.bind (fun v4 => v4.Network) = some supernet)
    (h1 : ensureChain env st "filter" smuggleForwardChainName = .ok st1)
    (h2 : applyRules env st1 (customForwardRules supernet network) = .ok st2) :
    SetupForwardRules env st network =
      ensureJumpRuleFirst env st2 "filter" forwardChainName smuggleForwardChainName := by
  unfold SetupForwardRules
  unfold customForwardRules at h2
  rw [hn]
  simp only
  rw [h1]
  simp only
  rw [h2]

/-- The steps of SetupForwardRules before the jump leave the top-level FORWARD
chain as it is. -/
theorem SetupForwardRules_before_jump {env : IptEnv} {st st1 st2 : Tables}
    {network : Network} {supernet : IPv4Net}
    (h1 : ensureChain env st "filter" smuggleForwardChainName = .ok st1)
    (h2 : applyRules env st1 (customForwardRules supernet network) = .ok st2) :
    st2 "filter" forwardChainName = st "filter" forwardChainName := by
  obtain ⟨_, _, o1⟩ := ensureChain_spec h1
  obtain ⟨_, _, o2⟩ := applyRules_spec _ h2
  have hne : ¬ ("filter" = "filter" ∧ forwardChainName = smuggleForwardChainName) := by decide
  have e2 : st2 "filter" forwardChainName = st1 "filter" forwardChainName := by
    apply o2
    intro r hr hk
    rw [(customForwardRules_chain supernet network r hr).2] at hk
    exact hne ⟨rfl, hk.2⟩
  rw [e2]
  exact o1 _ _ hne

/-- The top-level FORWARD chain after a successful SetupForwardRules: the jump,
then the rules it held before without the first copy of the jump; or, when the
Delete of the jump failed, the jump and then all the rules it held before. -/
theorem SetupForwardRules_forward {env : IptEnv} {st st3 : Tables} {network : Network}
    (h : SetupForwardRules env st network = .ok st3) :
    ∃ fwd, st "filter" forwardChainName = some fwd ∧
      (st3 "filter" forwardChainName =
          some (jumpSpec smuggleForwardChainName ::
            fwd.erase (jumpSpec smuggleForwardChainName)) ∨
        (jumpSpec smuggleForwardChainName ∈ fwd ∧
          (∃ st2, env.fails st2
            (.delete "filter" forwardChainName (jumpSpec smuggleForwardChainName)) = true) ∧
          st3 "filter" forwardChainName = some (jumpSpec smuggleForwardChainName :: fwd))) := by
  obtain ⟨supernet, st1, st2, _, h1, h2, h3⟩ := SetupForwardRules_steps h
  have hsame := SetupForwardRules_before_jump h1 h2
  obtain ⟨fwd, hf, hst3⟩ := ensureJumpRuleFirst_spec h3
  refine ⟨fwd, by rw [← hsame]; exact hf, ?_⟩
  rcases hst3 with rfl | ⟨hm, hfail, rfl⟩
  · exact Or.inl (Tables.set_same _ _ _ _)
  · exact Or.inr ⟨hm, ⟨st2, hfail⟩, Tables.set_same _ _ _ _⟩

theorem ensureChain_ok (st : Tables) (t c : String) :
    ∃ st1, ensureChain noFailure st t c = .ok st1 := by
  rw [ensureChain_calm]
  cases hc : st t c with
  | some rules => exact ⟨st, by simp⟩
  | none =>
    refine ⟨st.set t c [], ?_⟩
    unfold Tables.newChain
    rw [hc]
    simp

theorem applyRule_ok {st : Tables} {rule : Rule}
    (h : (st rule.table rule.chain).isSome = true) :
    ∃ st1, applyRule noFailure st rule = .ok st1 := by
  rw [applyRule_calm]
  by_cases he : st.has rule.table rule.chain rule.spec = true
  · exact ⟨st, by rw [if_pos he]⟩
  · rw [if_neg he]
    unfold Tables.append
    cases hc : st rule.table rule.chain with
    | none => rw [hc] at h; cases h
    | some rules => exact ⟨_, rfl⟩

theorem applyRules_ok : ∀ (rules : List Rule) (st : Tables),
    (∀ r, r ∈ rules → (st r.table r.chain).isSome = true) →
    ∃ st1, applyRules noFailure st rules = .ok st1 := by
  intro rules
  induction rules with
  | nil => intro st _; exact ⟨st, rfl⟩
  | cons r rest ih =>
    intro st h
    obtain ⟨sa, h1⟩ := applyRule_ok (h r (List.mem_cons_self _ _))
    obtain ⟨l1, _, _⟩ := applyRule_spec h1
    obtain ⟨sb, h2⟩ := ih sa (fun x hx => isSome_mono l1 (h x (List.mem_cons_of_mem _ hx)))
    refine ⟨sb, ?_⟩
    unfold applyRules
    rw [h1]
    exact h2

/-- When no call of the library fails, SetupForwardRules succeeds on every
state in which the top-level FORWARD chain exists, whatever it holds, for a
network with a supernet. -/
theorem SetupForwardRules_succeeds (st : Tables) (network : Network) (supernet : IPv4Net)
    (fwd : List (List String))
    (hn : network.IPv4.bind (fun v4 => v4.Network) = some supernet)
    (hf : st "filter" forwardChainName = some fwd) :
    ∃ st1, SetupForwardRules noFailure st network = .ok st1 := by
  obtain ⟨sa, h1⟩ := ensureChain_ok st "filter" smuggleForwardChainName
  obtain ⟨l1, c1, _⟩ := ensureChain_spec h1
  obtain ⟨sb, h2⟩ := applyRules_ok (customForwardRules supernet network) sa (fun r hr => by
    obtain ⟨ht, hc⟩ := customForwardRules_chain supernet network r hr
    rw [ht, hc]
    exact c1)
  obtain ⟨l2, _, _⟩ := applyRules_spec _ h2
  obtain ⟨fwd2, hf2, _⟩ := (Tables.le_trans l1 l2) _ _ fwd hf
  rw [SetupForwardRules_of_steps hn h1 h2, ensureJumpRuleFirst_calm]
  by_cases hm : jumpSpec smuggleForwardChainName ∈ fwd2
  · rw [has_of_some hf2, delete_of_some hf2, if_pos hm]
    simp only [hm, decide_True, if_true]
    rw [insertAt_of_some (Tables.set_same sb _ _ _), if_pos (by simp)]
    exact ⟨_, rfl⟩
  · rw [has_of_some hf2]
    simp only [hm, decide_False, Bool.false_eq_true, if_false]
    rw [insertAt_of_some hf2, if_pos (by simp)]
    exact ⟨_, rfl⟩

/-- When no call of the library fails, ensureJumpRuleFirst on a chain that
exists leaves the jump followed by the chain without the first copy of the
jump. -/
theorem ensureJumpRuleFirst_run {st : Tables} {t c target : String}
    {rules : List (List String)} (hc : st t c = some rules) :
    ensureJumpRuleFirst noFailure st t c target =
      .ok (st.set t c (jumpSpec target :: rules.erase (jumpSpec target))) := by
  rw [ensureJumpRuleFirst_calm]
  by_cases hm : jumpSpec target ∈ rules
  · rw [has_of_some hc, delete_of_some hc, if_pos hm]
    simp only [hm, decide_True, if_true]
    rw [insertAt_of_some (Tables.set_same st _ _ _), if_pos (by simp), Tables.set_set]
    rfl
  · rw [has_of_some hc]
    simp only [hm, decide_False, Bool.false_eq_true, if_false]
    rw [insertAt_of_some hc, if_pos (by simp), List.erase_of_not_mem hm]
    rfl

/-- A call of ensureJumpRuleFirst that returns without error and in which the
Delete did not fail returns what it returns when no call of the library
fails. -/
theorem ensureJumpRuleFirst_of_ok {env : IptEnv} {st st1 : Tables} {t c target : String}
    (h : ensureJumpRuleFirst env st t c target = .ok st1)
    (hdel : env.fails st (.delete t c (jumpSpec target)) = false) :
    ensureJumpRuleFirst noFailure st t c target = .ok st1 := by
  obtain ⟨rules, hc, hcase⟩ := ensureJumpRuleFirst_spec h
  rcases hcase with rfl | ⟨_, hfail, _⟩
  · exact ensureJumpRuleFirst_run hc
  · rw [hdel] at hfail
    cases hfail

/-- A call of SetupForwardRules that returns without error and in which no
Delete of the jump failed returns what it returns when no call of the library
fails. -/
theorem SetupForwardRules_of_ok {env : IptEnv} {st st3 : Tables} {network : Network}
    (h : SetupForwardRules env st network = .ok st3)
    (hdel : ∀ st2, env.fails st2
      (.delete "filter" forwardChainName (jumpSpec smuggleForwardChainName)) = false) :
    SetupForwardRules noFailure st network = .ok st3 := by
  obtain ⟨supernet, st1, st2, hn, h1, h2, h3⟩ := SetupForwardRules_steps h
  rw [SetupForwardRules_of_steps hn (ensureChain_of_ok h1) (applyRules_of_ok _ h2)]
  exact ensureJumpRuleFirst_of_ok h3 (hdel st2)

/-- Claim C19, as the code has it: after a successful SetupForwardRules the
first rule of the top-level FORWARD chain is the jump to the custom forward
chain, whatever the chain held before and whichever calls of the library
failed. The rules behind it are the former chain without the first copy of the
jump, or, when the Delete of the jump failed, the whole former chain. So when
no Delete of the jump fails, a chain that held at most one copy of the jump
holds exactly one afterwards. -/
theorem forward_jump_is_first (env : IptEnv) (st st1 : Tables) (network : Network)
    (h : SetupForwardRules env st network = .ok st1) :
    ∃ fwd rest, st "filter" forwardChainName = some fwd ∧
      st1 "filter" forwardChainName = some (jumpSpec smuggleForwardChainName :: rest) ∧
      (rest = fwd.erase (jumpSpec smuggleForwardChainName) ∨
        (jumpSpec smuggleForwardChainName ∈ fwd ∧
          (∃ st2, env.fails st2
            (.delete "filter" forwardChainName (jumpSpec smuggleForwardChainName)) = true) ∧
          rest = fwd)) ∧
      ((∀ st2, env.fails st2
          (.delete "filter" forwardChainName (jumpSpec smuggleForwardChainName)) = false) →
        rest = fwd.erase (jumpSpec smuggleForwardChainName) ∧
        (fwd.count (jumpSpec smuggleForwardChainName) ≤ 1 →
          (jumpSpec smuggleForwardChainName :: rest).count
            (jumpSpec smuggleForwardChainName) = 1)) := by
  obtain ⟨fwd, hf, hcase⟩ := SetupForwardRules_forward h
  rcases hcase with h1 | ⟨hm, ⟨s2, hfail⟩, h1⟩
  · refine ⟨fwd, _, hf, h1, Or.inl rfl, fun _ => ⟨rfl, ?_⟩⟩
    intro hc
    rw [List.count_cons_self, List.count_erase_self]
    omega
  · refine ⟨fwd, fwd, hf, h1, Or.inr ⟨hm, ⟨s2, hfail⟩, rfl⟩, fun hno => ?_⟩
    rw [hno s2] at hfail
    cases hfail

theorem forward_jump_is_first_witness :
    ∃ fwd rest, dockerTables "filter" forwardChainName = some fwd ∧
      okTables (SetupForwardRules noFailure dockerTables (namedNetwork "a" 1))
          "filter" forwardChainName =
        some (jumpSpec smuggleForwardChainName :: rest) ∧
      (rest = fwd.erase (jumpSpec smuggleForwardChainName) ∨
        (jumpSpec smuggleForwardChainName ∈ fwd ∧
          (∃ st2, noFailure.fails st2
            (.delete "filter" forwardChainName (jumpSpec smuggleForwardChainName)) = true) ∧
          rest = fwd)) ∧
      ((∀ st2, noFailure.fails st2
          (.delete "filter" forwardChainName (jumpSpec smuggleForwardChainName)) = false) →
        rest = fwd.erase (jumpSpec smuggleForwardChainName) ∧
        (fwd.count (jumpSpec smuggleForwardChainName) ≤ 1 →
          (jumpSpec smuggleForwardChainName :: rest).count
            (jumpSpec smuggleForwardChainName) = 1)) :=
  forward_jump_is_first noFailure dockerTables _ (namedNetwork "a" 1)
    (ok_okTables _ (by decide))

/-- Claim C19, the count of the jump does not hold as stated: on a host whose
FORWARD chain holds the rules of Docker and one copy of the jump behind them,
a SetupForwardRules in which the Delete of the jump fails returns without
error, since ensureJumpRuleFirst only logs that failure and inserts the jump
all the same; FORWARD then holds two copies of the jump. -/
theorem failed_delete_leaves_two_jumps :
    dockerTables "filter" forwardChainName =
      some [["-j", "DOCKER-USER"], ["-j", "DOCKER-FORWARD"],
        jumpSpec smuggleForwardChainName] ∧
    [["-j", "DOCKER-USER"], ["-j", "DOCKER-FORWARD"],
      jumpSpec smuggleForwardChainName].count (jumpSpec smuggleForwardChainName) = 1 ∧
    (SetupForwardRules deleteFails dockerTables (namedNetwork "a" 1)).isOk = true ∧
    chainAfter (SetupForwardRules deleteFails dockerTables (namedNetwork "a" 1))
        "filter" forwardChainName =
      some [jumpSpec smuggleForwardChainName, ["-j", "DOCKER-USER"], ["-j", "DOCKER-FORWARD"],
        jumpSpec smuggleForwardChainName] ∧
    [jumpSpec smuggleForwardChainName, ["-j", "DOCKER-USER"], ["-j", "DOCKER-FORWARD"],
      jumpSpec smuggleForwardChainName].count (jumpSpec smuggleForwardChainName) = 2 := by
  refine ⟨by decide, by decide, by decide, by decide, by decide⟩

/-- When no call of the library fails, a repeated SetupMasqRules succeeds and
changes nothing. -/
theorem SetupMasqRules_again {env : IptEnv} {randomFully : Bool} {st st1 : Tables}
    {network : Network} {subnet : Subnet}
    (h : SetupMasqRules env randomFully st network subnet = .ok st1) :
    SetupMasqRules noFailure randomFully st1 network subnet = .ok st1 := by
  unfold SetupMasqRules at h ⊢
  cases hn : network.IPv4.bind (fun v4 => v4.Network) with
  | none => rw [hn] at h; cases h
  | some ipv4Network =>
    cases hs : subnet.IPv4Network with
    | none => rw [hn, hs] at h; cases h
    | some ipv4Subnet =>
      rw [hn, hs] at h
      simp only at h ⊢
      cases h1 : ensureChain env st natTableName smugglePostroutingChainName with
      | error e => rw [h1] at h; cases h
      | ok sa =>
        rw [h1] at h
        simp only at h
        obtain ⟨_, c1, _⟩ := ensureChain_spec h1
        obtain ⟨l2, e2, _⟩ := applyRules_spec _ h
        rw [ensureChain_noop (isSome_mono l2 c1)]
        exact applyRules_noop _ e2

/-- When no call of the library fails, a repeated SetupForwardRules succeeds
and changes nothing. -/
theorem SetupForwardRules_again {env : IptEnv} {st st3 : Tables} {network : Network}
    (h : SetupForwardRules env st network = .ok st3) :
    SetupForwardRules noFailure st3 network = .ok st3 := by
  obtain ⟨supernet, sa, sb, hn, h1, h2, h3⟩ := SetupForwardRules_steps h
  obtain ⟨_, c1, _⟩ := ensureChain_spec h1
  obtain ⟨l2, e2, _⟩ := applyRules_spec _ h2
  obtain ⟨fwd, hf, hcase⟩ := ensureJumpRuleFirst_spec h3
  have hshape : ∃ rest, (∀ x, x ∈ fwd → x ∈ jumpSpec smuggleForwardChainName :: rest) ∧
      st3 = sb.set "filter" forwardChainName (jumpSpec smuggleForwardChainName :: rest) := by
    rcases hcase with h4 | ⟨_, _, h4⟩
    · refine ⟨_, fun x hx => ?_, h4⟩
      by_cases hx0 : x = jumpSpec smuggleForwardChainName
      · rw [hx0]; exact List.mem_cons_self _ _
      · exact List.mem_cons_of_mem _ ((List.mem_erase_of_ne hx0).mpr hx)
    · exact ⟨_, fun x hx => List.mem_cons_of_mem _ hx, h4⟩
  obtain ⟨rest, hsub, hst3⟩ := hshape
  have l3 : sb.le st3 := by
    rw [hst3]
    exact Tables.le_set hf hsub
  have hfix : st3 "filter" forwardChainName =
      some (jumpSpec smuggleForwardChainName :: rest) := by
    rw [hst3]
    exact Tables.set_same _ _ _ _
  rw [SetupForwardRules_of_steps hn
    (ensureChain_noop (isSome_mono (Tables.le_trans l2 l3) c1))
    (applyRules_noop _ (fun r hr => has_mono l3 (e2 r hr)))]
  exact ensureJumpRuleFirst_fixed hfix

/-- When no call of the library fails, a repeated EnsureIsolation succeeds and
changes nothing. -/
theorem EnsureIsolation_again {env : IptEnv} {st st1 : Tables} {networks : List Network}
    (h : EnsureIsolation env st networks = .ok st1) :
    EnsureIsolation noFailure st1 networks = .ok st1 := by
  unfold EnsureIsolation at h ⊢
  by_cases hl : networks.length < 2
  · rw [if_pos hl] at h ⊢
  · rw [if_neg hl] at h ⊢
    cases h1 : ensureChain env st "filter" smuggleForwardChainName with
    | error e => rw [h1] at h; cases h
    | ok sa =>
      rw [h1] at h
      simp only at h
      obtain ⟨_, c1, _⟩ := ensureChain_spec h1
      obtain ⟨l2, e2⟩ := ensureIsolationRules_spec _ h
      rw [ensureChain_noop (isSome_mono l2 c1)]
      exact ensureIsolationRules_noop _ e2

/-- Claim C20, as the code has it. Let a first call succeed and leave the
tables `st1`, whichever calls of the library failed in it. For SetupMasqRules
and EnsureIsolation, a repeated call on `st1` that returns without error leaves
`st1`, every chain with the same rules in the same order, and it does return
without error when no call of the library fails. For SetupForwardRules the same
holds provided no Delete of the jump fails in the repeated call. -/
theorem firewall_calls_idempotent (env env2 : IptEnv) (randomFully : Bool) (st : Tables)
    (network : Network) (subnet : Subnet) (networks : List Network) :
    (∀ st1 st2, SetupMasqRules env randomFully st network subnet = .ok st1 →
      SetupMasqRules env2 randomFully st1 network subnet = .ok st2 → st2 = st1) ∧
    (∀ st1, SetupMasqRules env randomFully st network subnet = .ok st1 →
      SetupMasqRules noFailure randomFully st1 network subnet = .ok st1) ∧
    (∀ st1 st2, SetupForwardRules env st network = .ok st1 →
      SetupForwardRules env2 st1 network = .ok st2 →
      (∀ st3, env2.fails st3
        (.delete "filter" forwardChainName (jumpSpec smuggleForwardChainName)) = false) →
      st2 = st1) ∧
    (∀ st1, SetupForwardRules env st network = .ok st1 →
      SetupForwardRules noFailure st1 network = .ok st1) ∧
    (∀ st1 st2, EnsureIsolation env st networks = .ok st1 →
      EnsureIsolation env2 st1 networks = .ok st2 → st2 = st1) ∧
    (∀ st1, EnsureIsolation env st networks = .ok st1 →
      EnsureIsolation noFailure st1 networks = .ok st1) := by
  refine ⟨?_, fun _ h => SetupMasqRules_again h, ?_, fun _ h => SetupForwardRules_again h, ?_,
    fun _ h => EnsureIsolation_again h⟩
  · intro st1 st2 h h2
    exact Except.ok.inj ((SetupMasqRules_of_ok h2).symm.trans (SetupMasqRules_again h))
  · intro st1 st2 h h2 hdel
    exact Except.ok.inj ((SetupForwardRules_of_ok h2 hdel).symm.trans (SetupForwardRules_again h))
  · intro st1 st2 h h2
    exact Except.ok.inj ((EnsureIsolation_of_ok h2).symm.trans (EnsureIsolation_again h))

theorem firewall_calls_idempotent_witness :
    SetupMasqRules noFailure true
        (okTables (SetupMasqRules noFailure true dockerTables (namedNetwork "a" 1) leaseA))
        (namedNetwork "a" 1) leaseA =
      .ok (okTables (SetupMasqRules noFailure true dockerTables (namedNetwork "a" 1) leaseA)) ∧
    SetupForwardRules noFailure
        (okTables (SetupForwardRules deleteFails dockerTables (namedNetwork "a" 1)))
        (namedNetwork "a" 1) =
      .ok (okTables (SetupForwardRules deleteFails dockerTables (namedNetwork "a" 1))) ∧
    EnsureIsolation noFailure (okTables isolatedTablesAB)
        [namedNetwork "a" 1, namedNetwork "b" 2] =
      .ok (okTables isolatedTablesAB) :=
  ⟨(firewall_calls_idempotent noFailure noFailure true dockerTables (namedNetwork "a" 1)
      leaseA []).2.1 _ (ok_okTables _ (by decide)),
    (firewall_calls_idempotent deleteFails noFailure true dockerTables (namedNetwork "a" 1)
      leaseA []).2.2.2.1 _ (ok_okTables _ (by decide)),
    (firewall_calls_idempotent noFailure noFailure true (okTables forwardTablesAB)
      (namedNetwork "a" 1) leaseA
      [namedNetwork "a" 1, namedNetwork "b" 2]).2.2.2.2.2 _ (ok_okTables _ (by decide))⟩

/-- Claim C20, SetupForwardRules is not idempotent as stated: after a first
call that succeeds on a host with the rules of Docker in FORWARD, the jump is
rule 1 of FORWARD; a repeated call in which the Delete of the jump fails
returns without error and leaves a second copy of the jump in FORWARD. -/
theorem repeated_forward_setup_adds_jump :
    (SetupForwardRules noFailure dockerTables (namedNetwork "a" 1)).isOk = true ∧
    chainAfter (SetupForwardRules noFailure dockerTables (namedNetwork "a" 1))
        "filter" forwardChainName =
      some [jumpSpec smuggleForwardChainName, ["-j", "DOCKER-USER"],
        ["-j", "DOCKER-FORWARD"]] ∧
    (SetupForwardRules deleteFails
      (okTables (SetupForwardRules noFailure dockerTables (namedNetwork "a" 1)))
      (namedNetwork "a" 1)).isOk = true ∧
    chainAfter (SetupForwardRules deleteFails
        (okTables (SetupForwardRules noFailure dockerTables (namedNetwork "a" 1)))
        (namedNetwork "a" 1)) "filter" forwardChainName =
      some [jumpSpec smuggleForwardChainName, jumpSpec smuggleForwardChainName,
        ["-j", "DOCKER-USER"], ["-j", "DOCKER-FORWARD"]] := by
  refine ⟨by decide, by decide, by decide, by decide⟩

theorem append_plus_cancel {a b : String} (h : a ++ "+" = b ++ "+") : a = b := by
  have h1 := congrArg String.data h
  rw [String.data_append, String.data_append] at h1
  exact String.ext (List.append_cancel_right h1)

/-- The specification of an isolation rule determines the two names. -/
theorem isolationRule_spec_inj {a b c d : String}
    (h : (isolationRule a b).spec = (isolationRule c d).spec) : a = c ∧ b = d := by
  have h1 : (isolationRule a b).spec.get? 1 = (isolationRule c d).spec.get? 1 := by rw [h]
  have h3 : (isolationRule a b).spec.get? 3 = (isolationRule c d).spec.get? 3 := by rw [h]
  have h1a : some (a ++ "+") = some (c ++ "+") := h1
  have h3a : some (b ++ "+") = some (d ++ "+") := h3
  exact ⟨append_plus_cancel (Option.some.inj h1a), append_plus_cancel (Option.some.inj h3a)⟩

theorem mem_isolationRulesFrom (s : Network) : ∀ (dests : List Network) (r : Rule),
    r ∈ isolationRulesFrom s dests →
    ∃ d, d ∈ dests ∧ s.Name ≠ d.Name ∧ r = isolationRule s.Name d.Name := by
  intro dests
  induction dests with
  | nil => intro r hr; exact absurd hr (List.not_mem_nil _)
  | cons d rest ih =>
    intro r hr
    unfold isolationRulesFrom at hr
    by_cases hk : s.Name = d.Name
    · rw [if_pos hk] at hr
      obtain ⟨d1, hd, hne, he⟩ := ih r hr
      exact ⟨d1, List.mem_cons_of_mem _ hd, hne, he⟩
    · rw [if_neg hk] at hr
      rcases List.mem_cons.mp hr with rfl | hr1
      · exact ⟨d, List.mem_cons_self _ _, hk, rfl⟩
      · obtain ⟨d1, hd, hne, he⟩ := ih r hr1
        exact ⟨d1, List.mem_cons_of_mem _ hd, hne, he⟩

theorem mem_isolationRulesLoop (networks : List Network) : ∀ (srcs : List Network) (r : Rule),
    r ∈ isolationRulesLoop networks srcs →
    ∃ s d, s ∈ srcs ∧ d ∈ networks ∧ s.Name ≠ d.Name ∧ r = isolationRule s.Name d.Name := by
  intro srcs
  induction srcs with
  | nil => intro r hr; exact absurd hr (List.not_mem_nil _)
  | cons s rest ih =>
    intro r hr
    unfold isolationRulesLoop at hr
    rcases List.mem_append.mp hr with h | h
    · obtain ⟨d, hd, hne, he⟩ := mem_isolationRulesFrom s networks r h
      exact ⟨s, d, List.mem_cons_self _ _, hd, hne, he⟩
    · obtain ⟨s1, d, hs, hd, hne, he⟩ := ih r h
      exact ⟨s1, d, List.mem_cons_of_mem _ hs, hd, hne, he⟩

theorem mem_ruleSpecs {rules : List Rule} {x : List String} (h : x ∈ ruleSpecs rules) :
    ∃ r, r ∈ rules ∧ r.spec = x := by
  unfold ruleSpecs at h
  exact List.mem_map.mp h

theorem isolationRulesFrom_nodup (s : Network) : ∀ (dests : List Network),
    (dests.map (fun n => n.Name)).Nodup → (ruleSpecs (isolationRulesFrom s dests)).Nodup := by
  intro dests
  induction dests with
  | nil => intro _; exact List.nodup_nil
  | cons d rest ih =>
    intro hn
    rw [List.map_cons, List.nodup_cons] at hn
    unfold isolationRulesFrom
    by_cases hk : s.Name = d.Name
    · rw [if_pos hk]
      exact ih hn.2
    · rw [if_neg hk]
      show (((isolationRule s.Name d.Name).spec) ::
        ruleSpecs (isolationRulesFrom s rest)).Nodup
      rw [List.nodup_cons]
      refine ⟨?_, ih hn.2⟩
      intro hm
      obtain ⟨r, hr, hspec⟩ := mem_ruleSpecs hm
      obtain ⟨d1, hd1, _, rfl⟩ := mem_isolationRulesFrom s rest r hr
      have hdd := (isolationRule_spec_inj hspec).2
      apply hn.1
      rw [← hdd]
      exact List.mem_map.mpr ⟨d1, hd1, rfl⟩

theorem isolationRulesLoop_nodup (networks : List Network)
    (hn : (networks.map (fun n => n.Name)).Nodup) : ∀ (srcs : List Network),
    (srcs.map (fun n => n.Name)).Nodup →
    (ruleSpecs (isolationRulesLoop networks srcs)).Nodup := by
  intro srcs
  induction srcs with
  | nil => intro _; exact List.nodup_nil
  | cons s rest ih =>
    intro hs
    rw [List.map_cons, List.nodup_cons] at hs
    unfold isolationRulesLoop
    show (List.map (fun rule => rule.spec)
      (isolationRulesFrom s networks ++ isolationRulesLoop networks rest)).Nodup
    rw [List.map_append]
    refine List.Nodup.append (isolationRulesFrom_nodup s networks hn) (ih hs.2) ?_
    intro x hx1 hx2
    obtain ⟨r1, hr1, e1⟩ := mem_ruleSpecs hx1
    obtain ⟨r2, hr2, e2⟩ := mem_ruleSpecs hx2
    obtain ⟨d1, _, _, rfl⟩ := mem_isolationRulesFrom s networks r1 hr1
    obtain ⟨s2, d2, hs2, _, _, rfl⟩ := mem_isolationRulesLoop networks rest r2 hr2
    have hss := (isolationRule_spec_inj (e1.trans e2.symm)).1
    apply hs.1
    rw [hss]
    exact List.mem_map.mpr ⟨s2, hs2, rfl⟩

theorem isolationRules_small {networks : List Network} (h : networks.length < 2) :
    isolationRules networks = [] := by
  match networks, h with
  | [], _ => rfl
  | [n], _ =>
    unfold isolationRules isolationRulesLoop isolationRulesFrom
    rw [if_pos rfl]
    rfl
  | _ :: _ :: _, h => exact absurd h (by simp)

/-- When no call of the library fails, isolation rules that are pairwise
distinct and absent from a chain `e :: mid` are all inserted, each right behind
`e`, so that they end in the reverse of their order. -/
theorem ensureIsolationRules_fresh : ∀ (rules : List Rule) (st : Tables)
    (e : List String) (mid : List (List String)),
    (∀ r, r ∈ rules → r.table = "filter" ∧ r.chain = smuggleForwardChainName) →
    st "filter" smuggleForwardChainName = some (e :: mid) →
    (ruleSpecs rules).Nodup →
    (∀ r, r ∈ rules → r.spec ∉ e :: mid) →
    ∃ st1, ensureIsolationRules noFailure st rules = .ok st1 ∧
      st1 "filter" smuggleForwardChainName = some (e :: ((ruleSpecs rules).reverse ++ mid)) := by
  intro rules
  induction rules with
  | nil =>
    intro st e mid _ hc _ _
    exact ⟨st, rfl, hc⟩
  | cons r rest ih =>
    intro st e mid hch hc hnd hfresh
    have hnd1 : (r.spec :: ruleSpecs rest).Nodup := hnd
    rw [List.nodup_cons] at hnd1
    obtain ⟨ht, hcn⟩ := hch r (List.mem_cons_self _ _)
    have hnot : st.has r.table r.chain r.spec = false := by
      rw [ht, hcn, has_of_some hc]
      exact decide_eq_false (hfresh r (List.mem_cons_self _ _))
    have hins : ensureIsolationRule noFailure st r =
        .ok (st.set "filter" smuggleForwardChainName (e :: r.spec :: mid)) := by
      rw [ensureIsolationRule_calm, hnot]
      simp only [Bool.false_eq_true, if_false]
      rw [ht, hcn, insertAt_of_some hc, if_pos (by simp)]
      rfl
    obtain ⟨st1, h1, h2⟩ := ih (st.set "filter" smuggleForwardChainName (e :: r.spec :: mid))
      e (r.spec :: mid) (fun x hx => hch x (List.mem_cons_of_mem _ hx))
      (Tables.set_same _ _ _ _) hnd1.2
      (fun x hx hm => by
        rcases List.mem_cons.mp hm with h | h
        · exact hfresh x (List.mem_cons_of_mem _ hx) (h ▸ List.mem_cons_self _ _)
        · rcases List.mem_cons.mp h with h | h
          · exact hnd1.1 (h ▸ List.mem_map.mpr ⟨x, hx, rfl⟩)
          · exact hfresh x (List.mem_cons_of_mem _ hx) (List.mem_cons_of_mem _ h))
    refine ⟨st1, ?_, ?_⟩
    · unfold ensureIsolationRules
      rw [hins]
      exact h1
    · rw [h2]
      show some (e :: ((ruleSpecs rest).reverse ++ r.spec :: mid)) =
        some (e :: ((r.spec :: ruleSpecs rest).reverse ++ mid))
      simp

/-- Claim C18, as the code has it: for networks with distinct names and a
custom forward chain `e :: mid` that holds none of the REJECT rules yet, an
EnsureIsolation that returns without error leaves the chain `e`, then the
REJECT rules in the reverse of the order in which the pairs (source,
destination) are enumerated, then `mid`: the rule enumerated last is rule 2. -/
theorem isolation_rules_in_reverse_order (env : IptEnv) (st st1 : Tables)
    (networks : List Network) (e : List String) (mid : List (List String))
    (hnames : (networks.map (fun n => n.Name)).Nodup)
    (hchain : st "filter" smuggleForwardChainName = some (e :: mid))
    (hfresh : ∀ r, r ∈ isolationRules networks → r.spec ∉ e :: mid)
    (hrun : EnsureIsolation env st networks = .ok st1) :
    st1 "filter" smuggleForwardChainName =
      some (e :: ((ruleSpecs (isolationRules networks)).reverse ++ mid)) := by
  replace hrun := EnsureIsolation_of_ok hrun
  unfold EnsureIsolation at hrun
  by_cases hl : networks.length < 2
  · rw [if_pos hl] at hrun
    injection hrun with hrun
    subst hrun
    rw [isolationRules_small hl]
    exact hchain
  · rw [if_neg hl, ensureChain_noop (by rw [hchain]; rfl)] at hrun
    obtain ⟨sx, h1, h2⟩ := ensureIsolationRules_fresh (isolationRules networks) st e mid
      (fun r hr => by
        obtain ⟨s, d, _, _, _, rfl⟩ := mem_isolationRulesLoop networks networks r hr
        exact ⟨rfl, rfl⟩)
      hchain (isolationRulesLoop_nodup networks hnames networks hnames) hfresh
    simp only at hrun
    rw [h1] at hrun
    injection hrun with hrun
    subst hrun
    exact h2

theorem isolation_rules_in_reverse_order_witness :
    okTables (EnsureIsolation noFailure (okTables forwardTablesAB)
        [namedNetwork "a" 1, namedNetwork "b" 2]) "filter" smuggleForwardChainName =
      some (establishedSpec ::
        ((ruleSpecs (isolationRules [namedNetwork "a" 1, namedNetwork "b" 2])).reverse ++
          (acceptSpecs "a" 1 ++ acceptSpecs "b" 2))) :=
  isolation_rules_in_reverse_order noFailure (okTables forwardTablesAB) _
    [namedNetwork "a" 1, namedNetwork "b" 2] establishedSpec
    (acceptSpecs "a" 1 ++ acceptSpecs "b" 2) (by decide) (by decide) (by decide)
    (ok_okTables _ (by decide))

/-- Claim C18, the order the spec states does not hold: starting from the
custom forward chain that holds only the forward rules of `a` and `b`, the
pairs are enumerated (a, b) then (b, a), yet after EnsureIsolation rule 2 is
the REJECT from b+ to a+ and rule 3 the REJECT from a+ to b+. -/
theorem isolation_rules_ab_swapped :
    chainAfter forwardTablesAB "filter" smuggleForwardChainName =
      some (establishedSpec :: (acceptSpecs "a" 1 ++ acceptSpecs "b" 2)) ∧
    ruleSpecs (isolationRules [namedNetwork "a" 1, namedNetwork "b" 2]) =
      [(isolationRule "a" "b").spec, (isolationRule "b" "a").spec] ∧
    chainAfter isolatedTablesAB "filter" smuggleForwardChainName =
      some (establishedSpec :: (isolationRule "b" "a").spec :: (isolationRule "a" "b").spec ::
        (acceptSpecs "a" 1 ++ acceptSpecs "b" 2)) ∧
    (isolationRule "b" "a").spec ≠ (isolationRule "a" "b").spec := by
  decide

theorem initLoop_append (env : ClientEnv) : ∀ (pre post : List Network) (st : ClientState),
    initLoop env st (pre ++ post) =
      match initLoop env st pre with
      | (st1, some e) => (st1, some e)
      | (st1, none) => initLoop env st1 post := by
  intro pre
  induction pre with
  | nil => intro post st; rfl
  | cons n rest ih =>
    intro post st
    simp only [List.cons_append, initLoop]
    rcases hn : initNetwork env st n with ⟨st1, _ | e⟩
    · simp only
      exact ih post st1
    · rfl

theorem initSubnet_ne_generate (env : ClientEnv) (st : ClientState) (netCfg : Network)
    (cfg : Subnet) (e : AllocError) :
    (initSubnet env st netCfg cfg).2 ≠ some (.generate e) := by
  unfold initSubnet
  simp only
  split
  · simp
  · split
    · simp
    · split
      · simp
      · split <;> simp

/-- An allocation error of initNetwork is returned before any call for the
network is made: the calls and the leases held are those of before. -/
theorem initNetwork_generate {env : ClientEnv} {st st2 : ClientState} {n : Network}
    {e : AllocError} (h : initNetwork env st n = (st2, some (.generate e))) :
    st2.effects = st.effects ∧ st2.subnets = st.subnets := by
  unfold initNetwork at h
  split at h
  · simp at h
  · split at h
    · simp at h
    · split at h
      · simp at h
      · simp only at h
        split at h
        · rename_i e1 he1
          injection h with h1 h2
          subst h1
          exact ⟨rfl, rfl⟩
        · rename_i subnet hs
          split at h
          · rename_i st1 e1 hi
            exfalso
            injection h with h1 h2
            have hne := congrArg Prod.snd hi
            exact initSubnet_ne_generate _ _ _ _ e (hne.trans h2)
          · split at h
            · rename_i st3 e3 hm
              exfalso
              injection h with h1 h2
              split at hm
              · injection hm with hm1 hm2
                split at hm2
                · rw [← hm2] at h2
                  simp at h2
                · simp at hm2
              · simp at hm
            · injection h with h1 h2
              split at h2 <;> simp at h2

/-- Claim C21, as the code has it: when the allocation for a network `n`
fails during bootstrap, after the networks `pre` listed before it were set up,
Init returns that error at once. The calls made and the leases held are those
of the networks `pre`: `n` gets nothing, and the networks `post` listed after
it are not processed at all, whatever they are. -/
theorem init_returns_at_allocation_failure (env : ClientEnv) (pre post : List Network)
    (n : Network) (st1 st2 : ClientState) (e : AllocError)
    (hlist : env.listNetworks = .ok (pre ++ n :: post))
    (hpre : initLoop env { networks := [], subnets := [], effects := [] } pre = (st1, none))
    (hn : initNetwork env st1 n = (st2, some (.generate e))) :
    Client.Init env = (st2, some (.generate e)) ∧
      st2.effects = st1.effects ∧ st2.subnets = st1.subnets := by
  refine ⟨?_, initNetwork_generate hn⟩
  unfold Client.Init
  simp only [hlist]
  have hlen : ¬ (pre ++ n :: post).length = 0 := by simp
  rw [if_neg hlen, initLoop_append, hpre]
  simp only [initLoop, hn]

theorem init_returns_at_allocation_failure_witness :
    Client.Init fullThenFreeEnv =
        ({ networks := [oneBlock], subnets := [], effects := [] },
          some (.generate .networkFull)) ∧
      ({ networks := [oneBlock], subnets := [], effects := [] } : ClientState).effects = [] ∧
      ({ networks := [oneBlock], subnets := [], effects := [] } : ClientState).subnets = [] :=
  init_returns_at_allocation_failure fullThenFreeEnv [] [unsetRange] oneBlock
    { networks := [], subnets := [], effects := [] }
    { networks := [oneBlock], subnets := [], effects := [] } .networkFull rfl rfl (by decide)

/-- Claim C21, the behaviour the spec states does not hold: the network
`oneBlock` is full and listed before the empty network `unsetRange`. Alone,
`unsetRange` is set up (a lease is written and the forward rules are
installed). Listed after `oneBlock` it is not: Init returns the allocation
error of `oneBlock` and has made no call at all. -/
theorem full_network_aborts_bootstrap :
    (Client.Init freeOnlyEnv).2 = none ∧
    (Client.Init freeOnlyEnv).1.subnets = [freshLease "v" (dotted 10 10 6 0)] ∧
    Effect.store (.setSubnet enrichedLease) ∈ (Client.Init freeOnlyEnv).1.effects ∧
    (Client.Init fullThenFreeEnv).2 = some (.generate .networkFull) ∧
    (Client.Init fullThenFreeEnv).1.subnets = [] ∧
    (Client.Init fullThenFreeEnv).1.effects = [] := by
  refine ⟨by decide, by decide, by decide, by decide, by decide, by decide⟩

/-- Claim C24, evaluated at a failing input. Init does not read the
configuration of the client: its outcome is the same for every configuration.
For the client `noMasqReq`, created with DisableIPMasq set, and a network
without an `ipmasq` setting, bootstrap succeeds and calls SetupMasqRules for
the network, and that call, no call of the library failing, puts a MASQUERADE
rule in the nat table. -/
theorem disable_ipmasq_is_not_consulted :
    (∀ (req : ClientReq) (cfg : ClientConfig),
      Client.Start { req with Config := cfg } = Client.Start req) ∧
    noMasqReq.Config.DisableIPMasq = true ∧
    (Client.Start noMasqReq).2 = none ∧
    ((Client.Start noMasqReq).1.effects.filter Effect.isMasq).length = 1 ∧
    Effect.setupMasqRules { unsetRange with
        IPv4 := some { unsetRangeV4 with Min := dotted 10 10 1 0, Max := dotted 10 10 254 255 } }
      (freshLease "v" (dotted 10 10 6 0)) ∈ (Client.Start noMasqReq).1.effects ∧
    chainAfter (SetupMasqRules noFailure true builtinTables
        { unsetRange with
          IPv4 := some { unsetRangeV4 with Min := dotted 10 10 1 0, Max := dotted 10 10 254 255 } }
        (freshLease "v" (dotted 10 10 6 0))) "nat" smugglePostroutingChainName =
      some [["-s", "10.10.6.0/24", "!", "-d", "10.10.0.0/16", "-m", "comment", "--comment",
        "smuggle masq", "-j", "MASQUERADE", "--random-fully"]] := by
  refine ⟨fun _ _ => rfl, by decide, by decide, by decide, by decide, by decide⟩

/-- A network that passes Validate has an ipv4 section with a supernet, a
block length between 1 and 32 and a provider section. -/
theorem validate_none {n : Network} (h : n.Validate = none) :
    ∃ v4 net p, n.IPv4 = some v4 ∧ v4.Network = some net ∧ 1 ≤ v4.Size ∧ v4.Size ≤ 32 ∧
      n.Provider = some p := by
  unfold Network.Validate at h
  cases hv4 : n.IPv4 with
  | none => rw [hv4] at h; cases h
  | some v4 =>
    rw [hv4] at h
    simp only at h
    cases hnet : v4.Network with
    | none => rw [hnet] at h; cases h
    | some net =>
      rw [hnet] at h
      simp only at h
      by_cases hs : v4.Size = 0 ∨ v4.Size > 32
      · rw [if_pos hs] at h; cases h
      · rw [if_neg hs] at h
        cases hp : n.Provider with
        | none =>
          rw [hp] at h
          split_ifs at h
        | some p => exact ⟨v4, net, p, rfl, hnet, by omega, by omega, rfl⟩

/-- Canonicalize succeeds on a network that passes Validate; it keeps the
name, the provider section, the supernet and the block length, and a `min` or
`max` that is set. -/
theorem canonicalize_of_validate {n : Network} (h : n.Validate = none) :
    ∃ n1 v4 v1, n.Canonicalize = .ok n1 ∧ n.IPv4 = some v4 ∧ n1.IPv4 = some v1 ∧
      n1.Name = n.Name ∧ n1.Provider = n.Provider ∧ v1.Size = v4.Size ∧
      v1.Network = v4.Network ∧ (v4.Min ≠ 0 → v1.Min = v4.Min) ∧
      (v4.Max ≠ 0 → v1.Max = v4.Max) := by
  obtain ⟨v4, net, p, hv4, hnet, _, _, _⟩ := validate_none h
  obtain ⟨va, ha, _, han, hax, has, hak⟩ := canonicalizeMin_spec v4 net hnet
  obtain ⟨vb, hb, _, hbn, hbm, hbs, hbk⟩ := canonicalizeMax_spec va net (han.trans hnet)
  have hcan : n.Canonicalize = .ok { n with
      IPv4 := some vb
      IPMasq := match n.IPMasq with
        | none => some true
        | some b => some b } := by
    unfold Network.Canonicalize
    rw [hv4]
    simp only
    rw [ha]
    simp only
    rw [hb]
  refine ⟨_, v4, vb, hcan, hv4, rfl, rfl, rfl, hbs.trans has, hbn.trans han, ?_, ?_⟩
  · intro h0
    rw [hbm, hak h0]
  · intro h0
    have : va.Max ≠ 0 := by rw [hax]; exact h0
    rw [hbk this, hax]

theorem storeWrites_append (a b : List Effect) :
    storeWrites (a ++ b) = storeWrites a ++ storeWrites b := by
  unfold storeWrites
  exact List.filterMap_append _ _ _

/-- The subnet SetLocal returns is the subnet it was given with another
provider configuration. -/
theorem SetLocal_ok {m : Manager} {link : Except String String} {client resp : Subnet}
    (h : m.SetLocal link client = .ok resp) : resp = { client with Config := resp.Config } := by
  unfold Manager.SetLocal at h
  split_ifs at h
  unfold vxlanSetLocal at h
  simp only at h
  split at h
  · cases h
  · split at h
    · cases h
    · split at h
      · cases h
      · split_ifs at h
        injection h with h
        subst h
        rfl

/-- The SetSubnet requests of initSubnet: the subnet SetLocal returned, if it
returned one. -/
theorem initSubnet_storeWrites (env : ClientEnv) (st : ClientState) (netCfg : Network)
    (cfg : Subnet) :
    storeWrites (initSubnet env st netCfg cfg).1.effects =
      storeWrites st.effects ++
        (match env.manager.SetLocal (env.link cfg.NetworkName) cfg with
          | .ok resp => [resp]
          | .error _ => []) := by
  unfold initSubnet
  simp only
  cases hs : env.manager.SetLocal (env.link cfg.NetworkName) cfg with
  | error e => simp [ClientState.emit, storeWrites_append, storeWrites]
  | ok resp =>
    simp only
    split_ifs <;> simp [ClientState.emit, storeWrites_append, storeWrites]

/-- Claim C29: when the store holds a lease `stored` of the host for a
network that passes Validate, the loop body of Init makes no allocation (its
outcome does not depend on the listing of the leases, the random generator or
the clock, which only the allocation reads), the only lease it writes to the
store is the one SetLocal returned for `stored`, and that lease equals
`stored` in every field but the provider configuration: the same block, the
same expiration and the same expired flag. -/
theorem stored_lease_is_written_back (env : ClientEnv) (st : ClientState) (n : Network)
    (stored : Subnet) (hval : n.Validate = none)
    (hget : env.getSubnet n.Name = .ok (some stored)) :
    (∀ listSubnets clock draws,
      initNetwork { env with listSubnets := listSubnets, clock := clock, draws := draws } st n =
        initNetwork env st n) ∧
    storeWrites (initNetwork env st n).1.effects =
      storeWrites st.effects ++
        (match env.manager.SetLocal (env.link stored.NetworkName) stored with
          | .ok resp => [resp]
          | .error _ => []) ∧
    (∀ resp, env.manager.SetLocal (env.link stored.NetworkName) stored = .ok resp →
      resp = { stored with Config := resp.Config } ∧
      resp.IPv4Network = stored.IPv4Network ∧ resp.Expiration = stored.Expiration ∧
      resp.Expired = stored.Expired) := by
  obtain ⟨n1, _, _, hcan, _⟩ := canonicalize_of_validate hval
  refine ⟨?_, ?_, ?_⟩
  · intro ls ck dr
    unfold initNetwork initSubnet
    simp only [hval, hget, hcan]
  · unfold initNetwork
    simp only [hval, hget, hcan]
    have hi := initSubnet_storeWrites env
      { st with networks := st.networks ++ [n1] } n1 stored
    rcases hs : initSubnet env { st with networks := st.networks ++ [n1] } n1 stored with
      ⟨st1, _ | e⟩
    · rw [hs] at hi
      simp only at hi ⊢
      rw [← hi]
      split_ifs <;> simp [ClientState.emit, storeWrites_append, storeWrites]
    · rw [hs] at hi
      simp only at hi ⊢
      exact hi
  · intro resp hr
    have h := SetLocal_ok hr
    refine ⟨h, ?_, ?_, ?_⟩ <;> rw [h]

theorem stored_lease_is_written_back_witness :
    storeWrites (initNetwork storedEnv { networks := [], subnets := [], effects := [] }
        unsetRange).1.effects =
      [{ storedLease with
          Config := some (.object (some 1) (some 4789) (some 1450) (some sampleMAC)) }] :=
  (stored_lease_is_written_back storedEnv { networks := [], subnets := [], effects := [] }
    unsetRange storedLease (by decide) (by rfl)).2.1.trans (by decide)

theorem pollVariable_sent (read : String → Except String (List (String × String)))
    (decode : String → Option Subnet) (w : Nat) (varList : List VariableMetadata) :
    ∀ acc : PollAcc,
      (varList.foldl (pollVariable read decode w) acc).sent =
        acc.sent ++ pollErrors read decode w varList := by
  induction varList with
  | nil => intro acc; simp [pollErrors]
  | cons v rest ih =>
    intro acc
    rw [List.foldl_cons, ih]
    unfold pollVariable pollErrors pollError
    by_cases hlt : v.ModifyIndex < w
    · have hle : ¬ w ≤ v.ModifyIndex := by omega
      simp [hlt, hle]
    · have hle : w ≤ v.ModifyIndex := by omega
      rw [if_neg hlt]
      cases hr : read v.Path with
      | error e => simp [hle, hr]
      | ok items =>
        cases hp : parseClientSubnetConfig decode items with
        | none => simp [hle, hr, hp]
        | some cfg =>
          cases he : cfg.Expired <;> simp [hle, hr, hp, he]

/-- Claim C30: in a poll with wait index `w` whose last index `i` exceeds `w`,
the wait index advances to `i`, and the events sent are: one error event for
each variable with modify index at least `w` whose read or parse fails, in
listing order, then the Delete batch and the Modify batch of the leases of all
the variables that are read and parsed, whether they come before or after a
failing one; a failing variable yields no lease, so it is in neither batch. -/
theorem watch_poll_errors (read : String → Except String (List (String × String)))
    (decode : String → Option Subnet) (w i : Nat) (varList : List VariableMetadata)
    (h : w < i) :
    (watchPoll read decode w (.ok (varList, i))).2 = i ∧
    (watchPoll read decode w (.ok (varList, i))).1 =
      pollErrors read decode w varList ++
        ((if (readAndParsed read decode w varList).filter (fun s => s.Expired) = [] then []
          else [.delete ((readAndParsed read decode w varList).filter (fun s => s.Expired))]) ++
        (if (readAndParsed read decode w varList).filter (fun s => !s.Expired) = [] then []
          else [.modify ((readAndParsed read decode w varList).filter (fun s => !s.Expired))])) ∧
    (∀ v, v ∈ varList → w ≤ v.ModifyIndex →
      (∀ e, read v.Path = .error e →
        WatchEvent.readError v.Path ∈ pollErrors read decode w varList) ∧
      (∀ items, read v.Path = .ok items → parseClientSubnetConfig decode items = none →
        WatchEvent.parseError v.Path ∈ pollErrors read decode w varList) ∧
      (∀ items s, read v.Path = .ok items → parseClientSubnetConfig decode items = some s →
        s ∈ readAndParsed read decode w varList)) := by
  have hle : ¬ i ≤ w := by omega
  refine ⟨?_, ?_, ?_⟩
  · unfold watchPoll
    simp only [hle, if_false]
  · unfold watchPoll
    simp only [hle, if_false]
    obtain ⟨h1, h2, _⟩ := pollVariable_fold read decode w varList
      { modifiedConfigs := [], expiredConfigs := [], sent := [] }
    have h3 := pollVariable_sent read decode w varList
      { modifiedConfigs := [], expiredConfigs := [], sent := [] }
    simp only [List.nil_append, List.filter_nil] at h1 h2 h3
    rw [h1, h2, h3]
    generalize (readAndParsed read decode w varList).filter (fun s => s.Expired) = del
    generalize (readAndParsed read decode w varList).filter (fun s => !s.Expired) = mod
    cases del <;> cases mod <;> simp
  · intro v hv hw
    have hmem : v ∈ varList.filter (fun v => decide (w ≤ v.ModifyIndex)) :=
      List.mem_filter.mpr ⟨hv, by simpa using hw⟩
    refine ⟨?_, ?_, ?_⟩
    · intro e he
      unfold pollErrors
      exact List.mem_filterMap.mpr ⟨v, hmem, by unfold pollError; rw [he]⟩
    · intro items hr hp
      unfold pollErrors
      exact List.mem_filterMap.mpr ⟨v, hmem, by unfold pollError; rw [hr]; simp only; rw [hp]⟩
    · intro items s hr hp
      unfold readAndParsed
      exact List.mem_filterMap.mpr ⟨v, hmem, by rw [hr]; exact hp⟩

theorem watch_poll_errors_witness :
    (watchPoll sampleRead sampleDecode 7 (.ok (sampleListing, 9))).2 = 9 ∧
    (watchPoll sampleRead sampleDecode 7 (.ok (sampleListing, 9))).1 =
      [.readError "a", .parseError "c",
        .delete [{ sampleLease "d" "v" (dotted 10 10 3 0) 24 with Expired := true }],
        .modify [sampleLease "b" "v" (dotted 10 10 2 0) 24]] :=
  ⟨(watch_poll_errors sampleRead sampleDecode 7 9 sampleListing (by decide)).1,
    (watch_poll_errors sampleRead sampleDecode 7 9 sampleListing (by decide)).2.1.trans
      (by decide)⟩

/-- The candidates the sequential loop examines are `c`, `c + bs`,
`c + 2 * bs`, ... as natural numbers, none above `max`: the addition of the
loop never wraps. -/
theorem seqCandidates_get (v4 : IPv4Config) (used : List Nat) (bs : Nat)
    (hbs31 : bs ≤ 2 ^ 31) (hmax : v4.Max < 2 ^ 32) :
    ∀ fuel c k, k < (seqCandidates v4 used bs fuel c).length →
      (seqCandidates v4 used bs fuel c).get? k = some (c + k * bs) ∧ c + k * bs ≤ v4.Max := by
  intro fuel
  induction fuel with
  | zero => intro c k hk; simp [seqCandidates] at hk
  | succ fuel ih =>
    intro c k hk
    unfold seqCandidates at hk ⊢
    by_cases hc : c ≤ v4.Max
    · rw [if_pos hc] at hk ⊢
      cases k with
      | zero => simpa using hc
      | succ k =>
        rw [List.length_cons] at hk
        rw [List.get?_cons_succ]
        by_cases hu : c ∉ used
        · rw [if_pos hu] at hk; simp at hk
        · rw [if_neg hu] at hk ⊢
          by_cases hb : c > sub32 v4.Max bs
          · rw [if_pos hb] at hk; simp at hk
          · rw [if_neg hb] at hk ⊢
            have hnext : add32 c bs = c + bs := by
              apply add32_of_lt
              by_cases hmb : bs ≤ v4.Max
              · have h2 : sub32 v4.Max bs = v4.Max - bs := sub32_of_le hmax hmb
                omega
              · omega
            rw [hnext] at hk ⊢
            obtain ⟨h1, h2⟩ := ih (c + bs) k (by omega)
            have e : c + (k + 1) * bs = c + bs + k * bs := by rw [Nat.succ_mul]; omega
            rw [e]
            exact ⟨h1, h2⟩
    · rw [if_neg hc] at hk; simp at hk

/-- The block the sequential loop returns is the last candidate it examined. -/
theorem seqLoop_last_candidate (v4 : IPv4Config) (used : List Nat) (bs : Nat) :
    ∀ fuel c ip, seqLoop v4 used bs fuel c = some (some ip) →
      (seqCandidates v4 used bs fuel c).getLast? = some ip := by
  intro fuel
  induction fuel with
  | zero => intro c ip h; simp [seqLoop] at h
  | succ fuel ih =>
    intro c ip h
    unfold seqLoop at h
    unfold seqCandidates
    by_cases hc : c ≤ v4.Max
    · rw [if_pos hc] at h ⊢
      by_cases hu : c ∉ used
      · rw [if_pos hu] at h ⊢
        simp only [Option.some.injEq] at h
        subst h
        rfl
      · rw [if_neg hu] at h ⊢
        by_cases hb : c > sub32 v4.Max bs
        · rw [if_pos hb] at h; cases h
        · rw [if_neg hb] at h ⊢
          have h1 := ih _ ip h
          cases hl : seqCandidates v4 used bs fuel (add32 c bs) with
          | nil => rw [hl] at h1; cases h1
          | cons x xs =>
            rw [hl] at h1
            rw [List.getLast?_cons_cons]
            exact h1
    · rw [if_neg hc] at h; cases h

theorem candidates_bound {mn mx bs k : Nat} (hbs : 0 < bs) (h : mn + k * bs ≤ mx) :
    k + 1 ≤ (mx - mn) / bs + 1 := by
  have h1 : k * bs ≤ mx - mn := by omega
  have h2 : k ≤ (mx - mn) / bs := (Nat.le_div_iff_mul_le hbs).mpr h1
  omega

/-- Claim C27: for a block length between 1 and 32 and every set of used
addresses, the sequential search ends within `(max - min) / blockSize + 1`
runs of its body (one more evaluation of the loop condition may follow), and
the candidate number `k` it examines is `min + k * blockSize` as a natural
number, which does not exceed `max`: the 32-bit addition never wraps. -/
theorem sequential_search_bounded (v4 : IPv4Config) (used : List Nat)
    (hs1 : 1 ≤ v4.Size) (hs32 : v4.Size ≤ 32) (hmax : v4.Max < 2 ^ 32) :
    seqLoop v4 used (blockSize v4.Size)
        ((v4.Max - v4.Min) / blockSize v4.Size + 1 + 1) v4.Min ≠ none ∧
    (∀ fuel, (seqCandidates v4 used (blockSize v4.Size) fuel v4.Min).length ≤
        (v4.Max - v4.Min) / blockSize v4.Size + 1) ∧
    (∀ fuel k, k < (seqCandidates v4 used (blockSize v4.Size) fuel v4.Min).length →
      (seqCandidates v4 used (blockSize v4.Size) fuel v4.Min).get? k =
          some (v4.Min + k * blockSize v4.Size) ∧
        v4.Min + k * blockSize v4.Size ≤ v4.Max ∧
        v4.Min + k * blockSize v4.Size < 2 ^ 32) := by
  have hbs : blockSize v4.Size = 2 ^ (32 - v4.Size) := blockSize_of_valid hs1 hs32
  have hbs0 : 0 < blockSize v4.Size := by rw [hbs]; exact pow_pos (by norm_num) _
  have hbs31 : blockSize v4.Size ≤ 2 ^ 31 := by rw [hbs]; exact pow_le_two31 (by omega)
  refine ⟨?_, ?_, ?_⟩
  · have hlt : v4.Max - v4.Min < ((v4.Max - v4.Min) / blockSize v4.Size + 1) *
        blockSize v4.Size := by
      rw [Nat.mul_comm]
      exact Nat.lt_mul_div_succ _ hbs0
    have hfuel : v4.Max + blockSize v4.Size <
        v4.Min + ((v4.Max - v4.Min) / blockSize v4.Size + 1 + 1) * blockSize v4.Size := by
      rw [Nat.succ_mul]
      omega
    rcases seqLoop_spec v4 used (blockSize v4.Size) hbs0 hbs31 hmax _ v4.Min
      (Nat.succ_pos _) hfuel with ⟨k, hk, _⟩ | ⟨hk, _⟩
    · rw [hk]; simp
    · rw [hk]; simp
  · intro fuel
    rcases Nat.eq_zero_or_pos
      (seqCandidates v4 used (blockSize v4.Size) fuel v4.Min).length with h0 | hpos
    · rw [h0]; exact Nat.zero_le _
    · obtain ⟨_, h2⟩ := seqCandidates_get v4 used (blockSize v4.Size) hbs31 hmax fuel v4.Min
        ((seqCandidates v4 used (blockSize v4.Size) fuel v4.Min).length - 1) (by omega)
      have h3 := candidates_bound hbs0 h2
      generalize (v4.Max - v4.Min) / blockSize v4.Size = q at h3 ⊢
      omega
  · intro fuel k hk
    obtain ⟨h1, h2⟩ := seqCandidates_get v4 used (blockSize v4.Size) hbs31 hmax fuel v4.Min k hk
    exact ⟨h1, h2, by omega⟩

theorem sequential_search_bounded_witness :
    seqLoop fiveBlocksV4 [dotted 10 10 1 0, dotted 10 10 2 0] (blockSize fiveBlocksV4.Size)
        ((fiveBlocksV4.Max - fiveBlocksV4.Min) / blockSize fiveBlocksV4.Size + 1 + 1)
        fiveBlocksV4.Min ≠ none ∧
    (∀ fuel, (seqCandidates fiveBlocksV4 [dotted 10 10 1 0, dotted 10 10 2 0]
        (blockSize fiveBlocksV4.Size) fuel fiveBlocksV4.Min).length ≤
        (fiveBlocksV4.Max - fiveBlocksV4.Min) / blockSize fiveBlocksV4.Size + 1) ∧
    (∀ fuel k, k < (seqCandidates fiveBlocksV4 [dotted 10 10 1 0, dotted 10 10 2 0]
        (blockSize fiveBlocksV4.Size) fuel fiveBlocksV4.Min).length →
      (seqCandidates fiveBlocksV4 [dotted 10 10 1 0, dotted 10 10 2 0]
          (blockSize fiveBlocksV4.Size) fuel fiveBlocksV4.Min).get? k =
          some (fiveBlocksV4.Min + k * blockSize fiveBlocksV4.Size) ∧
        fiveBlocksV4.Min + k * blockSize fiveBlocksV4.Size ≤ fiveBlocksV4.Max ∧
        fiveBlocksV4.Min + k * blockSize fiveBlocksV4.Size < 2 ^ 32) :=
  sequential_search_bounded fiveBlocksV4 [dotted 10 10 1 0, dotted 10 10 2 0]
    (by decide) (by decide) (by decide)

theorem maxAttempts_pos (used : List Nat) : ∃ k, maxAttempts used = k + 1 := by
  refine ⟨maxAttempts used - 1, ?_⟩
  have h : 1000 ≤ maxAttempts used := by
    unfold maxAttempts
    exact Nat.le_max_right _ _
  omega

/-- The first probe panics when the number of blocks is not a positive
`int32`. -/
theorem probeLoop_panics (draws : Nat → Nat) (v4 : IPv4Config) (used : List Nat)
    (bs : Nat) (total : Int) (h : toInt32 total ≤ 0) (remaining attempt : Nat) :
    probeLoop draws v4 used bs total (remaining + 1) attempt =
      .error (.panic .int31nArgument) := by
  unfold probeLoop randInt
  simp [h]

/-- For a network that passed Validate and was canonicalized, the only panic
of GenerateIPv4Subnet is the one of the random index: it occurs exactly when
the random strategy is chosen and the number of blocks, narrowed to `int32`, is
not positive. There is no division by zero and no nil dereference. -/
theorem validated_allocation_panics_iff (m : Manager) (now : Int) (draws : Nat → Nat)
    (id : String) {n n1 : Network} {v1 : IPv4Config} (subnets : List Subnet)
    (hval : n.Validate = none) (hcan : n.Canonicalize = .ok n1) (hv1 : n1.IPv4 = some v1)
    (hmax : v1.Max < 2 ^ 32) :
    (∃ p, GenerateIPv4Subnet m now draws id n1 subnets = .error (.panic p)) ↔
      (utilizationReached (usedSubnets n1.Name subnets).length (totalBlocks v1) = false ∧
        toInt32 (totalBlocks v1) ≤ 0) := by
  obtain ⟨v4, net, p, hv4, _, hs1, hs32, hp⟩ := validate_none hval
  obtain ⟨n2, v4b, v2, hcan2, hv4b, hv2, _, hprov, hsize, _⟩ := canonicalize_of_validate hval
  rw [hcan] at hcan2
  injection hcan2 with hn
  subst hn
  rw [hv4] at hv4b
  injection hv4b with hv
  subst hv
  rw [hv1] at hv2
  injection hv2 with hv
  subst hv
  have hp1 : n1.Provider = some p := hprov.trans hp
  have hs1b : 1 ≤ v1.Size := by rw [hsize]; exact hs1
  have hs32b : v1.Size ≤ 32 := by rw [hsize]; exact hs32
  have hbs : blockSize v1.Size = 2 ^ (32 - v1.Size) := blockSize_of_valid hs1b hs32b
  have hbs0 : 0 < blockSize v1.Size := by rw [hbs]; exact pow_pos (by norm_num) _
  have hbs31 : blockSize v1.Size ≤ 2 ^ 31 := by rw [hbs]; exact pow_le_two31 (by omega)
  have hseq : ∀ p1, findSequentialSubnet m now id n1 v1 (usedSubnets n1.Name subnets)
      (blockSize v1.Size) ≠ .error (.panic p1) := by
    intro p1 hcontra
    rcases findSequentialSubnet_spec m now id n1 v1 (usedSubnets n1.Name subnets)
      (blockSize v1.Size) hbs0 hbs31 hmax with ⟨k, hk, _⟩ | ⟨hk, _⟩
    · obtain ⟨sub, hsub⟩ := createSubnet_of_provider m now id v1
        (v1.Min + k * blockSize v1.Size) hp1
      rw [hk, hsub] at hcontra
      cases hcontra
    · rw [hk] at hcontra
      cases hcontra
  rw [generate_unfold m now draws id subnets hv1 (Nat.pos_iff_ne_zero.mp hbs0)]
  by_cases hu : utilizationReached (usedSubnets n1.Name subnets).length (totalBlocks v1) = true
  · rw [if_pos hu]
    constructor
    · rintro ⟨p1, h1⟩
      exact absurd h1 (hseq p1)
    · rintro ⟨h1, _⟩
      rw [hu] at h1
      cases h1
  · rw [if_neg hu]
    have hu2 : utilizationReached (usedSubnets n1.Name subnets).length (totalBlocks v1) =
        false := by simpa using hu
    unfold findRandomSubnet
    obtain ⟨k, hk⟩ := maxAttempts_pos (usedSubnets n1.Name subnets)
    by_cases ht : toInt32 (totalBlocks v1) ≤ 0
    · rw [hk, probeLoop_panics draws v1 _ _ _ ht]
      exact ⟨fun _ => ⟨hu2, ht⟩, fun _ => ⟨_, rfl⟩⟩
    · constructor
      · rintro ⟨p1, h1⟩
        exfalso
        cases hpl : probeLoop draws v1 (usedSubnets n1.Name subnets) (blockSize v1.Size)
            (totalBlocks v1) (maxAttempts (usedSubnets n1.Name subnets)) 0 with
        | error e => exact ht (probeLoop_error draws v1 _ _ _ _ _ e hpl).2
        | ok found =>
          rw [hpl] at h1
          cases found with
          | none => exact hseq p1 h1
          | some ip =>
            obtain ⟨sub, hsub⟩ := createSubnet_of_provider m now id v1 ip hp1
            simp only at h1
            rw [hsub] at h1
            cases h1
      · rintro ⟨_, h1⟩
        exact absurd h1 ht

/-- Claim C28, evaluated at a failing input. The network 10.0.0.0/8 with
blocks of length 32, no `min` and the `max` 255.255.255.255 passes Validate,
which does not look at `max`; Canonicalize gives it the `min` 10.0.0.1. The
block size is 1, so nothing is divided by zero, but the number of blocks,
4127195135, is converted to a negative `int32`: with an empty lease store the
random strategy is chosen and, for every sequence of raw random values, the
first call of randInt panics. -/
theorem validated_network_allocation_panics (draws : Nat → Nat) :
    wideMaxStored.Validate = none ∧ wideMaxStored.Canonicalize = .ok wideMax ∧
    wideMax.IPv4 = some wideMaxV4 ∧ blockSize wideMaxV4.Size = 1 ∧
    totalBlocks wideMaxV4 = 4127195135 ∧ toInt32 (totalBlocks wideMaxV4) = -167772161 ∧
    utilizationReached (usedSubnets wideMax.Name []).length (totalBlocks wideMaxV4) = false ∧
    GenerateIPv4Subnet hostA 0 draws "h" wideMax [] = .error (.panic .int31nArgument) :=
  ⟨by decide, by decide, rfl, by decide, by decide, by decide, by decide, rfl⟩

/-- The loop of retry.Do for a function that returns neither deadline errors
nor errors of the library: it ends without an error exactly when one of the
invocations it makes returns nil, and otherwise `last` is the error of its last
invocation. -/
theorem retryDo_of_plain (fn : Nat → Option FnError)
    (hplain : ∀ k e, fn k = some e → e.deadlineExceeded = false) :
    ∀ waits k last,
      ((∃ j, j ≤ waits ∧ fn (k + j) = none) → (retryDo fn waits k last).1 = false) ∧
      ((∀ j, j ≤ waits → fn (k + j) ≠ none) →
        retryDo fn waits k last = (true, fn (k + waits))) := by
  intro waits
  induction waits with
  | zero =>
    intro k last
    unfold retryDo retryStep
    cases hf : fn k with
    | none =>
      refine ⟨fun _ => rfl, fun h => absurd hf (h 0 (Nat.le_refl _))⟩
    | some e =>
      have hd := hplain k e hf
      simp only [hd, Bool.false_eq_true, if_false]
      refine ⟨?_, fun _ => by simp [hf]⟩
      rintro ⟨j, hj, hnone⟩
      have : j = 0 := by omega
      subst this
      rw [Nat.add_zero, hf] at hnone
      cases hnone
  | succ waits ih =>
    intro k last
    unfold retryDo retryStep
    cases hf : fn k with
    | none =>
      refine ⟨fun _ => rfl, fun h => absurd hf (h 0 (Nat.zero_le _))⟩
    | some e =>
      have hd := hplain k e hf
      simp only [hd, Bool.false_eq_true, if_false]
      obtain ⟨ih1, ih2⟩ := ih (k + 1) (some e)
      constructor
      · rintro ⟨j, hj, hnone⟩
        cases j with
        | zero => rw [Nat.add_zero, hf] at hnone; cases hnone
        | succ j =>
          apply ih1
          refine ⟨j, by omega, ?_⟩
          rw [← hnone]
          congr 1
          omega
      · intro hall
        have e1 : k + (waits + 1) = k + 1 + waits := by omega
        rw [e1]
        apply ih2
        intro j hj
        have e2 : k + 1 + j = k + (j + 1) := by omega
        rw [e2]
        exact hall (j + 1) (by omega)

/-- Retry for a function that returns no deadline error: nil exactly when an
invocation within the envelope returned nil, and otherwise the error of the
last invocation, which is not nil. -/
theorem Retry_of_plain (fn : Nat → Option FnError) (waits : Nat)
    (hplain : ∀ k e, fn k = some e → e.deadlineExceeded = false) :
    ((∃ j, j ≤ waits ∧ fn j = none) → Retry fn waits = none) ∧
    ((∀ j, j ≤ waits → fn j ≠ none) → Retry fn waits = fn waits ∧ fn waits ≠ none) := by
  obtain ⟨h1, h2⟩ := retryDo_of_plain fn hplain waits 0 none
  simp only [Nat.zero_add] at h1 h2
  constructor
  · intro h
    have := h1 h
    unfold Retry
    rcases hr : retryDo fn waits 0 none with ⟨b, l⟩
    rw [hr] at this
    simp only at this
    subst this
    rfl
  · intro h
    unfold Retry
    rw [h2 h]
    exact ⟨rfl, h waits (Nat.le_refl _)⟩

/-- Claim C22, evaluated at failing inputs. A function whose every invocation
returns a deadline error never returns nil, yet Retry returns nil, whatever the
time left in the envelope: the function literal returns `last`, which is still
nil, and the library takes that for success. A function that is refused once
and then returns a deadline error makes Retry return the refusal, which is not
the last error the function returned. For functions without deadline errors
Retry behaves as stated, as for one that succeeds at its third invocation. -/
theorem retry_returns_nil_after_deadline_error :
    (∀ k, alwaysTimesOut k ≠ none) ∧
    (∀ waits, Retry alwaysTimesOut waits = none) ∧
    (∀ k, refusedThenTimesOut k ≠ none) ∧
    (∀ waits, Retry refusedThenTimesOut (waits + 1) = some (plainError "connection refused")) ∧
    refusedThenTimesOut 1 = some timeoutError ∧
    Retry refusedTwice 6 = none ∧
    Retry refusedTwice 1 = some (plainError "connection refused") := by
  refine ⟨fun k => by simp [alwaysTimesOut], ?_, ?_, ?_, by decide, by decide, by decide⟩
  · intro waits
    cases waits <;> rfl
  · intro k
    unfold refusedThenTimesOut
    split_ifs <;> simp
  · intro waits
    cases waits <;> rfl

theorem clientMerge_receiver (c other : Option ClientConfig) :
    (ClientConfig.Merge c other).2 = c := by
  cases c <;> cases other <;> rfl

theorem httpMerge_receiver (h other : Option HTTPConfig) :
    (HTTPConfig.Merge h other).2 = h := by
  cases h <;> cases other <;> rfl

theorem logMerge_receiver (l other : Option LogConfig) :
    (LogConfig.Merge l other).2 = l := by
  cases l <;> cases other <;> rfl

theorem nomadMerge_receiver (n other : Option NomadConfig) :
    (NomadConfig.Merge n other).2 = n := by
  cases n <;> cases other <;> rfl

/-- The client, http, log and nomad sections runCommand runs with are those of
the default configuration merged with the flags: no value of a config file
reaches them. -/
theorem runCommandConfig_sections (fileCfg : Option AgentConfig) (cmd : Command) :
    runCommandConfig fileCfg cmd =
      some { Client := (ClientConfig.Merge (some DefaultClientConfig)
                (some (ClientConfigFromCommand cmd))).1
             HTTP := (HTTPConfig.Merge (some DefaultHTTPConfig)
                (some (HTTPConfigFromCommand cmd))).1
             Log := (LogConfig.Merge (some DefaultLogConfig)
                (some (LogConfigFromCommand cmd))).1
             Nomad := (NomadConfig.Merge (some DefaultNomadConfig)
                (some (NomadConfigFromCommand cmd))).1
             Server := (runCommandConfig fileCfg cmd).bind (fun c => c.Server)
             Store := (runCommandConfig fileCfg cmd).bind (fun c => c.Store) } := by
  cases fileCfg with
  | none => rfl
  | some f =>
    simp only [runCommandConfig, AgentConfig.Merge, DefaultAgentConfig, AgentConfigFromCommand,
      clientMerge_receiver, httpMerge_receiver, logMerge_receiver,
      nomadMerge_receiver, Option.some_bind]

/-- Claim C25, evaluated at a failing input. The configuration runCommand
validates and runs with has, for every config file and command line, the
client, http, log and nomad sections of a run without any config file. With
the file `sampleFileConfig` and no flag, merging as the claim describes gives
the client enabled, the data directory `/opt/smuggle` and the log level
`debug`; the agent runs with the client disabled, `/var/lib/smuggle/client` and
`info`. Only the values of the file that Merge writes into its receiver arrive:
the reaper interval and the variable path. -/
theorem file_config_is_dropped :
    (∀ fileCfg cmd,
      (runCommandConfig fileCfg cmd).bind (fun c => c.Client) =
          (runCommandConfig none cmd).bind (fun c => c.Client) ∧
        (runCommandConfig fileCfg cmd).bind (fun c => c.HTTP) =
          (runCommandConfig none cmd).bind (fun c => c.HTTP) ∧
        (runCommandConfig fileCfg cmd).bind (fun c => c.Log) =
          (runCommandConfig none cmd).bind (fun c => c.Log) ∧
        (runCommandConfig fileCfg cmd).bind (fun c => c.Nomad) =
          (runCommandConfig none cmd).bind (fun c => c.Nomad)) ∧
    (mergedConfig (some sampleFileConfig) noFlags).bind (fun c => c.Client) =
      some { DefaultClientConfig with Enabled := some true, DataDir := "/opt/smuggle" } ∧
    (mergedConfig (some sampleFileConfig) noFlags).bind (fun c => c.Log) =
      some { DefaultLogConfig with Level := "debug" } ∧
    (runCommandConfig (some sampleFileConfig) noFlags).bind (fun c => c.Client) =
      some DefaultClientConfig ∧
    (runCommandConfig (some sampleFileConfig) noFlags).bind (fun c => c.Log) =
      some DefaultLogConfig ∧
    (runCommandConfig (some sampleFileConfig) noFlags).bind (fun c => c.Server) =
      some { Enabled := some false
             Reaper := some { IntervalHCL := "", Interval := 60000000000, ThresholdHCL := ""
                              Threshold := fiveMinutes } } ∧
    (runCommandConfig (some sampleFileConfig) noFlags).bind (fun c => c.Store) =
      some { Backend := "nvar", NVar := some { Path := "fabric/" } } := by
  refine ⟨?_, by decide, by decide, by decide, by decide, by decide, by decide⟩
  intro fileCfg cmd
  rw [runCommandConfig_sections fileCfg cmd, runCommandConfig_sections none cmd]
  exact ⟨rfl, rfl, rfl, rfl⟩

theorem mkdirAll_files (env : FileEnv) : ∀ (rest done : List String) (fs : FileSystem),
    (mkdirAll env fs done rest).1.files = fs.files := by
  intro rest
  induction rest with
  | nil => intro done fs; rfl
  | cons comp rest ih =>
    intro done fs
    unfold mkdirAll
    split_ifs
    · exact ih _ _
    · rfl
    · rw [ih]

theorem createTemp_fresh (env : FileEnv) (fs : FileSystem) (dir : List String) :
    ∀ tries i name, createTemp env fs dir tries i = some name →
      fs.files (dir ++ [name]) = none := by
  intro tries
  induction tries with
  | zero => intro i name h; simp [createTemp] at h
  | succ tries ih =>
    intro i name h
    unfold createTemp at h
    split_ifs at h with hex
    · exact ih _ _ h
    · injection h with h
      subst h
      have h1 : ¬ (fs.files (dir ++ [".cni-" ++ env.draws i ++ ".tmp"])).isSome = true :=
        fun hc => hex (Or.inl hc)
      cases hf : fs.files (dir ++ [".cni-" ++ env.draws i ++ ".tmp"]) with
      | none => rfl
      | some d => rw [hf] at h1; exact absurd rfl h1

theorem rename_files {env : FileEnv} {fs fs2 : FileSystem} {src dst : List String}
    (h : rename env fs src dst = some fs2) :
    ∃ data, fs.files src = some data ∧
      fs2.files = fun q => if q = dst then some data else if q = src then none else fs.files q := by
  unfold rename at h
  cases hs : fs.files src with
  | none => rw [hs] at h; cases h
  | some data =>
    rw [hs] at h
    simp only at h
    split_ifs at h
    injection h with h
    subst h
    exact ⟨data, rfl, rfl⟩

theorem splitSlash_plain : ∀ s : List Char, '/' ∉ s → splitSlash s = [s] := by
  intro s
  induction s with
  | nil => intro _; rfl
  | cons c rest ih =>
    intro h
    have hc : c ≠ '/' := fun e => h (e ▸ List.mem_cons_self _ _)
    have hr : '/' ∉ rest := fun e => h (List.mem_cons_of_mem _ e)
    unfold splitSlash
    rw [if_neg hc, ih hr]

/-- The file of a name without separator lies in the directory itself, under
that name followed by `.conf`. -/
theorem joinPath_conf (dir : List String) (name : String) (h : '/' ∉ name.data) :
    joinPath dir (name ++ ".conf") = dir ++ [name ++ ".conf"] := by
  have hdata : (name ++ ".conf").data = name.data ++ ['.', 'c', 'o', 'n', 'f'] :=
    String.data_append name ".conf"
  have hno : '/' ∉ (name ++ ".conf").data := by
    rw [hdata, List.mem_append]
    rintro (h1 | h1)
    · exact h h1
    · revert h1; decide
  have hlen : 5 ≤ (name ++ ".conf").data.length := by
    rw [hdata, List.length_append]
    simp
  have hne : ∀ t : String, t.data.length < 5 → name ++ ".conf" ≠ t := by
    intro t ht e
    rw [e] at hlen
    omega
  unfold joinPath
  rw [splitSlash_plain _ hno]
  simp only [List.map_cons, List.map_nil]
  unfold cleanInto
  rw [if_neg (by
    rintro (e | e)
    · exact hne "" (by decide) e
    · exact hne "." (by decide) e), if_neg (hne ".." (by decide))]
  rfl

/-- Claim C23, for names without a path separator: CNIStore.Set on nil returns
an error and leaves the file system as it is; a successful Set of a
configuration `cfg` whose name holds no `/` leaves the file
`cfg.Name + ".conf"` of the store directory with the encoded configuration,
which decodes to `cfg` when the decoding inverts the encoding, and every other
file as it was before the call: the files of the other names, and no temporary
file in addition. -/
theorem cni_set_writes_named_file (marshal : CNIConfig → String)
    (unmarshal : String → Option CNIConfig) (env : FileEnv) (fs fs2 : FileSystem)
    (path : List String) (cfg : CNIConfig) (hname : '/' ∉ cfg.Name.data)
    (hok : CNIStore.Set marshal env fs path (some cfg) = (fs2, none)) :
    (CNIStore.Set marshal env fs path none).2 = some .nilConfig ∧
    (CNIStore.Set marshal env fs path none).1.files = fs.files ∧
    fs2.files (path ++ [cfg.Name ++ ".conf"]) = some (marshal cfg) ∧
    (unmarshal (marshal cfg) = some cfg →
      (fs2.files (path ++ [cfg.Name ++ ".conf"])).bind unmarshal = some cfg) ∧
    (∀ p, p ≠ path ++ [cfg.Name ++ ".conf"] → fs2.files p = fs.files p) := by
  have hfile : fs2.files (path ++ [cfg.Name ++ ".conf"]) = some (marshal cfg) ∧
      (∀ p, p ≠ path ++ [cfg.Name ++ ".conf"] → fs2.files p = fs.files p) := by
    unfold CNIStore.Set at hok
    simp only at hok
    rcases hm : mkdirAll env fs [] path with ⟨fs1, ok⟩
    have hfiles1 : fs1.files = fs.files := by
      have := mkdirAll_files env path [] fs
      rw [hm] at this
      exact this
    rw [hm] at hok
    cases ok with
    | false => simp at hok
    | true =>
      simp only at hok
      by_cases hro : env.readOnly path = true
      · rw [if_pos hro] at hok; simp at hok
      rw [if_neg hro] at hok
      cases ht : createTemp env fs1 path 10000 0 with
      | none => rw [ht] at hok; simp at hok
      | some tempName =>
        rw [ht] at hok
        simp only at hok
        by_cases hw : env.writeFails = true
        · rw [if_pos hw] at hok; simp at hok
        rw [if_neg hw] at hok
        by_cases hs : env.syncFails = true
        · rw [if_pos hs] at hok; simp at hok
        rw [if_neg hs] at hok
        by_cases hc : env.closeFails = true
        · rw [if_pos hc] at hok; simp at hok
        rw [if_neg hc] at hok
        rw [joinPath_conf path cfg.Name hname] at hok
        cases hr : rename env (fs1.write (path ++ [tempName]) (marshal cfg))
            (path ++ [tempName]) (path ++ [cfg.Name ++ ".conf"]) with
        | none => rw [hr] at hok; simp at hok
        | some fs3 =>
          rw [hr] at hok
          simp only [Prod.mk.injEq, and_true] at hok
          subst hok
          obtain ⟨data, hsrc, hfs3⟩ := rename_files hr
          have hdata : data = marshal cfg := by
            unfold FileSystem.write at hsrc
            simp only [if_true] at hsrc
            injection hsrc with hsrc
            exact hsrc.symm
          subst hdata
          have hfresh := createTemp_fresh env fs1 path 10000 0 tempName ht
          rw [hfs3]
          refine ⟨by simp, ?_⟩
          intro p hp
          simp only [if_neg hp]
          by_cases hpt : p = path ++ [tempName]
          · rw [if_pos hpt, hpt, ← hfiles1, hfresh]
          · rw [if_neg hpt]
            unfold FileSystem.write
            simp only [if_neg hpt]
            rw [hfiles1]
  refine ⟨rfl, rfl, hfile.1, ?_, hfile.2⟩
  intro hround
  rw [hfile.1]
  exact hround

theorem pair_of_snd_none {α β : Type} (p : α × Option β) (h : p.2 = none) : p = (p.1, none) := by
  rcases p with ⟨a, b⟩
  simp only at h
  rw [h]

theorem cni_set_writes_named_file_witness :
    ((CNIStore.Set sampleMarshal sampleOS sampleFiles cniDir
        (some (sampleCNI "v" 1450))).1.files (cniDir ++ ["v" ++ ".conf"])).bind
      sampleUnmarshal = some (sampleCNI "v" 1450) ∧
    (CNIStore.Set sampleMarshal sampleOS sampleFiles cniDir
        (some (sampleCNI "v" 1450))).1.files ["etc", "cni", "a.conf"] =
      sampleFiles.files ["etc", "cni", "a.conf"] ∧
    (CNIStore.Set sampleMarshal sampleOS sampleFiles cniDir
        (some (sampleCNI "v" 1450))).1.files ["etc", "cni", ".cni-7.tmp"] =
      sampleFiles.files ["etc", "cni", ".cni-7.tmp"] :=
  have h := cni_set_writes_named_file sampleMarshal sampleUnmarshal sampleOS sampleFiles
    (CNIStore.Set sampleMarshal sampleOS sampleFiles cniDir (some (sampleCNI "v" 1450))).1
    cniDir (sampleCNI "v" 1450) (by decide) (pair_of_snd_none _ (by decide))
  ⟨h.2.2.2.1 (by decide), h.2.2.2.2 _ (by decide), h.2.2.2.2 _ (by decide)⟩

/-- Claim C23, the property does not hold for every configuration. A Set of
the configuration named `./a` succeeds, but filepath.Join cleans the path: the
store directory gets no file `./a.conf`, and the file `a.conf` of the network
`a`, another name, is replaced. A Set of the configuration named `../x`
succeeds and replaces the file `/etc/x.conf`, outside the store directory
`/etc/cni`. -/
theorem cni_set_name_with_separator :
    (CNIStore.Set sampleMarshal sampleOS sampleFiles cniDir
      (some (sampleCNI "./a" 9000))).2 = none ∧
    (CNIStore.Set sampleMarshal sampleOS sampleFiles cniDir
      (some (sampleCNI "./a" 9000))).1.files (cniDir ++ ["./a" ++ ".conf"]) = none ∧
    sampleFiles.files ["etc", "cni", "a.conf"] = some (sampleMarshal (sampleCNI "a" 1450)) ∧
    (CNIStore.Set sampleMarshal sampleOS sampleFiles cniDir
      (some (sampleCNI "./a" 9000))).1.files ["etc", "cni", "a.conf"] =
        some (sampleMarshal (sampleCNI "./a" 9000)) ∧
    sampleMarshal (sampleCNI "./a" 9000) ≠ sampleMarshal (sampleCNI "a" 1450) ∧
    (CNIStore.Set sampleMarshal sampleOS sampleFiles cniDir
      (some (sampleCNI "../x" 1450))).2 = none ∧
    (CNIStore.Set sampleMarshal sampleOS sampleFiles cniDir
      (some (sampleCNI "../x" 1450))).1.files (cniDir ++ ["../x" ++ ".conf"]) = none ∧
    sampleFiles.files ["etc", "x.conf"] = some "resolver" ∧
    (CNIStore.Set sampleMarshal sampleOS sampleFiles cniDir
      (some (sampleCNI "../x" 1450))).1.files ["etc", "x.conf"] =
        some (sampleMarshal (sampleCNI "../x" 1450)) := by
  refine ⟨by decide, by decide, by decide, by decide, by decide, by decide, by decide,
    by decide, by decide⟩

theorem appendMissing_spec : ∀ (specs c : List (List String)),
    ∃ added, appendMissing c specs = c ++ added ∧
      (∀ x, x ∈ added → x ∈ specs ∧ x ∉ c) ∧ (∀ x, x ∈ specs → x ∈ c ++ added) := by
  intro specs
  induction specs with
  | nil => intro c; exact ⟨[], by simp [appendMissing], by simp, by simp⟩
  | cons s rest ih =>
    intro c
    unfold appendMissing
    by_cases hs : s ∈ c
    · rw [if_pos hs]
      obtain ⟨added, h1, h2, h3⟩ := ih c
      refine ⟨added, h1, fun x hx => ⟨List.mem_cons_of_mem _ (h2 x hx).1, (h2 x hx).2⟩, ?_⟩
      intro x hx
      rcases List.mem_cons.mp hx with rfl | hx
      · exact List.mem_append_left _ hs
      · exact h3 x hx
    · rw [if_neg hs]
      obtain ⟨added, h1, h2, h3⟩ := ih (c ++ [s])
      refine ⟨s :: added, by rw [h1]; simp, ?_, ?_⟩
      · intro x hx
        rcases List.mem_cons.mp hx with rfl | hx
        · exact ⟨List.mem_cons_self _ _, hs⟩
        · obtain ⟨ha, hb⟩ := h2 x hx
          exact ⟨List.mem_cons_of_mem _ ha, fun hc => hb (List.mem_append_left _ hc)⟩
      · intro x hx
        rcases List.mem_cons.mp hx with rfl | hx
        · simp
        · have := h3 x hx
          simpa using this

theorem insertMissing_spec (e : List String) : ∀ (specs mid : List (List String)),
    ∃ added, insertMissing e mid specs = added ++ mid ∧ added.Nodup ∧
      (∀ x, x ∈ added → x ∈ specs ∧ x ∉ e :: mid) ∧
      (∀ x, x ∈ specs → x ∈ e :: (added ++ mid)) := by
  intro specs
  induction specs with
  | nil => intro mid; exact ⟨[], by simp [insertMissing], List.nodup_nil, by simp, by simp⟩
  | cons s rest ih =>
    intro mid
    unfold insertMissing
    by_cases hs : s ∈ e :: mid
    · rw [if_pos hs]
      obtain ⟨added, h1, h2, h3, h4⟩ := ih mid
      refine ⟨added, h1, h2, fun x hx => ⟨List.mem_cons_of_mem _ (h3 x hx).1, (h3 x hx).2⟩, ?_⟩
      intro x hx
      rcases List.mem_cons.mp hx with rfl | hx
      · rcases List.mem_cons.mp hs with h | h
        · rw [h]; exact List.mem_cons_self _ _
        · exact List.mem_cons_of_mem _ (List.mem_append_right _ h)
      · exact h4 x hx
    · rw [if_neg hs]
      obtain ⟨added, h1, h2, h3, h4⟩ := ih (s :: mid)
      have hsn : s ∉ added := by
        intro hc
        exact (h3 s hc).2 (List.mem_cons_of_mem _ (List.mem_cons_self _ _))
      refine ⟨added ++ [s], by rw [h1]; simp, ?_, ?_, ?_⟩
      · rw [List.nodup_append]
        refine ⟨h2, List.nodup_singleton s, ?_⟩
        intro x hx hx2
        rw [List.mem_singleton] at hx2
        exact hsn (hx2 ▸ hx)
      · intro x hx
        rcases List.mem_append.mp hx with hx | hx
        · obtain ⟨ha, hb⟩ := h3 x hx
          refine ⟨List.mem_cons_of_mem _ ha, ?_⟩
          intro hc
          apply hb
          rcases List.mem_cons.mp hc with h | h
          · rw [h]; exact List.mem_cons_self _ _
          · exact List.mem_cons_of_mem _ (List.mem_cons_of_mem _ h)
        · rw [List.mem_singleton] at hx
          subst hx
          exact ⟨List.mem_cons_self _ _, hs⟩
      · intro x hx
        rcases List.mem_cons.mp hx with rfl | hx
        · simp
        · have := h4 x hx
          simpa using this

theorem ensureChain_chain {env : IptEnv} {st st1 : Tables} {t c : String}
    (h : ensureChain env st t c = .ok st1) : st1 t c = some ((st t c).getD []) := by
  replace h := ensureChain_of_ok h
  rw [ensureChain_calm] at h
  cases hc : st t c with
  | some rules =>
    rw [hc] at h
    simp only [Option.isSome_some, if_true] at h
    injection h with h
    subst h
    rw [hc]
    rfl
  | none =>
    rw [hc] at h
    simp only [Option.isSome_none, Bool.false_eq_true, if_false] at h
    unfold Tables.newChain at h
    rw [hc] at h
    simp only at h
    injection h with h
    subst h
    rw [Tables.set_same]
    rfl

/-- The chain applyRules leaves when all its rules go to one chain. -/
theorem applyRules_chain {env : IptEnv} (T C : String) : ∀ (rules : List Rule)
    (st st1 : Tables) (c : List (List String)),
    (∀ r, r ∈ rules → r.table = T ∧ r.chain = C) → st T C = some c →
    applyRules env st rules = .ok st1 → st1 T C = some (appendMissing c (ruleSpecs rules)) := by
  intro rules
  induction rules with
  | nil =>
    intro st st1 c _ hc h
    unfold applyRules at h
    injection h with h
    subst h
    exact hc
  | cons r rest ih =>
    intro st st1 c hch hc h
    obtain ⟨ht, hcn⟩ := hch r (List.mem_cons_self _ _)
    unfold applyRules at h
    cases h1 : applyRule env st r with
    | error e => rw [h1] at h; cases h
    | ok sa =>
      rw [h1] at h
      simp only at h
      have hrest : ∀ x, x ∈ rest → x.table = T ∧ x.chain = C :=
        fun x hx => hch x (List.mem_cons_of_mem _ hx)
      show st1 T C = some (appendMissing c (r.spec :: ruleSpecs rest))
      unfold appendMissing
      replace h1 := applyRule_of_ok h1
      rw [applyRule_calm, ht, hcn, has_of_some hc] at h1
      by_cases hm : r.spec ∈ c
      · rw [if_pos hm]
        simp only [hm, decide_True, if_true] at h1
        injection h1 with h1
        subst h1
        exact ih st st1 c hrest hc h
      · rw [if_neg hm]
        simp only [hm, decide_False, Bool.false_eq_true, if_false] at h1
        unfold Tables.append at h1
        rw [hc] at h1
        simp only at h1
        injection h1 with h1
        subst h1
        exact ih _ st1 (c ++ [r.spec]) hrest (Tables.set_same _ _ _ _) h

/-- The chain ensureIsolationRules leaves when all its rules go to one chain
that is not empty. -/
theorem ensureIsolationRules_chain {env : IptEnv} (T C : String) : ∀ (rules : List Rule)
    (st st1 : Tables) (e : List String) (mid : List (List String)),
    (∀ r, r ∈ rules → r.table = T ∧ r.chain = C) → st T C = some (e :: mid) →
    ensureIsolationRules env st rules = .ok st1 →
    st1 T C = some (e :: insertMissing e mid (ruleSpecs rules)) := by
  intro rules
  induction rules with
  | nil =>
    intro st st1 e mid _ hc h
    unfold ensureIsolationRules at h
    injection h with h
    subst h
    exact hc
  | cons r rest ih =>
    intro st st1 e mid hch hc h
    obtain ⟨ht, hcn⟩ := hch r (List.mem_cons_self _ _)
    unfold ensureIsolationRules at h
    cases h1 : ensureIsolationRule env st r with
    | error err => rw [h1] at h; cases h
    | ok sa =>
      rw [h1] at h
      simp only at h
      have hrest : ∀ x, x ∈ rest → x.table = T ∧ x.chain = C :=
        fun x hx => hch x (List.mem_cons_of_mem _ hx)
      show st1 T C = some (e :: insertMissing e mid (r.spec :: ruleSpecs rest))
      unfold insertMissing
      replace h1 := ensureIsolationRule_of_ok h1
      rw [ensureIsolationRule_calm, ht, hcn, has_of_some hc] at h1
      by_cases hm : r.spec ∈ e :: mid
      · rw [if_pos hm]
        simp only [hm, decide_True, if_true] at h1
        injection h1 with h1
        subst h1
        exact ih st st1 e mid hrest hc h
      · rw [if_neg hm]
        simp only [hm, decide_False, Bool.false_eq_true, if_false] at h1
        rw [insertAt_of_some hc, if_pos (by simp)] at h1
        simp only at h1
        injection h1 with h1
        subst h1
        exact ih _ st1 e (r.spec :: mid) hrest (Tables.set_same _ _ _ _) h

theorem customForwardRules_specs {network : Network} {supernet : IPv4Net}
    (hn : network.IPv4.bind (fun v4 => v4.Network) = some supernet) :
    ruleSpecs (customForwardRules supernet network) =
      establishedSpec :: acceptSpecsOf network := by
  unfold acceptSpecsOf
  rw [hn]
  rfl

/-- The custom forward chain after a successful SetupForwardRules. -/
theorem SetupForwardRules_custom {env : IptEnv} {st st3 : Tables} {network : Network}
    (h : SetupForwardRules env st network = .ok st3) :
    st3 "filter" smuggleForwardChainName =
      some (appendMissing ((st "filter" smuggleForwardChainName).getD [])
        (establishedSpec :: acceptSpecsOf network)) := by
  obtain ⟨supernet, st1, st2, hn, h1, h2, h3⟩ := SetupForwardRules_steps h
  have c1 := ensureChain_chain h1
  have c2 := applyRules_chain "filter" smuggleForwardChainName _ st1 st2 _
    (customForwardRules_chain supernet network) c1 h2
  obtain ⟨fwd, _, hcase⟩ := ensureJumpRuleFirst_spec h3
  rcases hcase with rfl | ⟨_, _, rfl⟩ <;>
    rw [Tables.set_other _ _ _ _ (by decide), c2, customForwardRules_specs hn]

theorem setupForwardAll_chain {envs : Nat → IptEnv} : ∀ (networks : List Network) (k : Nat)
    (st st1 : Tables) (c : List (List String)),
    st "filter" smuggleForwardChainName = some c →
    setupForwardAll envs k st networks = .ok st1 →
    st1 "filter" smuggleForwardChainName = some (chainAfterSetup c networks) := by
  intro networks
  induction networks with
  | nil =>
    intro k st st1 c hc h
    unfold setupForwardAll at h
    injection h with h
    subst h
    exact hc
  | cons n rest ih =>
    intro k st st1 c hc h
    unfold setupForwardAll at h
    cases h1 : SetupForwardRules (envs k) st n with
    | error e => rw [h1] at h; cases h
    | ok sa =>
      rw [h1] at h
      simp only at h
      have hc1 := SetupForwardRules_custom h1
      rw [hc] at hc1
      exact ih (k + 1) sa st1 _ hc1 h

theorem IsAcceptOf_mono {a b : List Network} (h : ∀ n, n ∈ a → n ∈ b) {x : List String}
    (hx : IsAcceptOf a x) : IsAcceptOf b x := by
  obtain ⟨n, hn, hm⟩ := hx
  exact ⟨n, h n hn, hm⟩

theorem IsRejectOf_mono {a b : List Network} (h : ∀ n, n ∈ a → n ∈ b) {x : List String}
    (hx : IsRejectOf a x) : IsRejectOf b x := by
  obtain ⟨s, d, hs, hd, hne, he⟩ := hx
  exact ⟨s, d, h s hs, h d hd, hne, he⟩

/-- The shape of the custom chain after SetupForwardRules for each network of
a list, from a chain that starts with the rule for established connections:
rules are only appended, each an ACCEPT rule of a network of the list, and the
ACCEPT rules of every network of the list are in the chain. -/
theorem chainAfterSetup_shape : ∀ (networks : List Network) (R A : List (List String)),
    ∃ A1, chainAfterSetup (establishedSpec :: (R ++ A)) networks =
        establishedSpec :: (R ++ (A ++ A1)) ∧
      (∀ x, x ∈ A1 → IsAcceptOf networks x) ∧
      (∀ x, IsAcceptOf networks x → x ∈ establishedSpec :: (R ++ (A ++ A1))) := by
  intro networks
  induction networks with
  | nil =>
    intro R A
    refine ⟨[], by simp [chainAfterSetup], by simp, ?_⟩
    rintro x ⟨n, hn, _⟩
    exact absurd hn (List.not_mem_nil _)
  | cons n rest ih =>
    intro R A
    unfold chainAfterSetup appendMissing
    rw [if_pos (List.mem_cons_self _ _)]
    obtain ⟨added, h1, h2, h3⟩ := appendMissing_spec (acceptSpecsOf n)
      (establishedSpec :: (R ++ A))
    have e1 : establishedSpec :: (R ++ A) ++ added = establishedSpec :: (R ++ (A ++ added)) := by
      simp
    rw [h1, e1]
    obtain ⟨A2, k1, k2, k3⟩ := ih R (A ++ added)
    refine ⟨added ++ A2, by rw [k1]; simp, ?_, ?_⟩
    · intro x hx
      rcases List.mem_append.mp hx with hx | hx
      · exact ⟨n, List.mem_cons_self _ _, (h2 x hx).1⟩
      · exact IsAcceptOf_mono (fun m hm => List.mem_cons_of_mem _ hm) (k2 x hx)
    · rintro x ⟨m, hm, hxm⟩
      have e2 : establishedSpec :: (R ++ (A ++ (added ++ A2))) =
          establishedSpec :: (R ++ (A ++ added ++ A2)) := by simp
      rw [e2]
      rcases List.mem_cons.mp hm with rfl | hm
      · have := h3 x hxm
        rw [e1] at this
        rcases List.mem_cons.mp this with h | h
        · rw [h]; exact List.mem_cons_self _ _
        · apply List.mem_cons_of_mem
          rcases List.mem_append.mp h with h | h
          · exact List.mem_append_left _ h
          · exact List.mem_append_right _ (List.mem_append_left _ h)
      · exact k3 x ⟨m, hm, hxm⟩

/-- The same from an empty chain, for a list that is not empty. -/
theorem chainAfterSetup_empty (networks : List Network) (hne : networks ≠ []) :
    ∃ A1, chainAfterSetup [] networks = establishedSpec :: ([] ++ ([] ++ A1)) ∧
      (∀ x, x ∈ A1 → IsAcceptOf networks x) ∧
      (∀ x, IsAcceptOf networks x → x ∈ establishedSpec :: ([] ++ ([] ++ A1))) := by
  cases networks with
  | nil => exact absurd rfl hne
  | cons n rest =>
    unfold chainAfterSetup appendMissing
    rw [if_neg (List.not_mem_nil _)]
    obtain ⟨added, h1, h2, h3⟩ := appendMissing_spec (acceptSpecsOf n) ([] ++ [establishedSpec])
    have e1 : ([] : List (List String)) ++ [establishedSpec] ++ added =
        establishedSpec :: ([] ++ added) := by simp
    rw [h1, e1]
    obtain ⟨A2, k1, k2, k3⟩ := chainAfterSetup_shape rest [] added
    refine ⟨added ++ A2, by rw [k1]; simp, ?_, ?_⟩
    · intro x hx
      rcases List.mem_append.mp hx with hx | hx
      · exact ⟨n, List.mem_cons_self _ _, (h2 x hx).1⟩
      · exact IsAcceptOf_mono (fun m hm => List.mem_cons_of_mem _ hm) (k2 x hx)
    · rintro x ⟨m, hm, hxm⟩
      rcases List.mem_cons.mp hm with rfl | hm
      · have := h3 x hxm
        rw [e1] at this
        rcases List.mem_cons.mp this with h | h
        · rw [h]; exact List.mem_cons_self _ _
        · apply List.mem_cons_of_mem
          simp only [List.nil_append] at h ⊢
          exact List.mem_append_left _ h
      · have := k3 x ⟨m, hm, hxm⟩
        simpa using this

theorem isolationRule_mem_from (s : Network) : ∀ (dests : List Network) (d : Network),
    d ∈ dests → s.Name ≠ d.Name →
    isolationRule s.Name d.Name ∈ isolationRulesFrom s dests := by
  intro dests
  induction dests with
  | nil => intro d hd; exact absurd hd (List.not_mem_nil _)
  | cons d0 rest ih =>
    intro d hd hne
    unfold isolationRulesFrom
    by_cases hk : s.Name = d0.Name
    · rw [if_pos hk]
      rcases List.mem_cons.mp hd with rfl | hd
      · exact absurd hk hne
      · exact ih d hd hne
    · rw [if_neg hk]
      rcases List.mem_cons.mp hd with rfl | hd
      · exact List.mem_cons_self _ _
      · exact List.mem_cons_of_mem _ (ih d hd hne)

theorem isolationRule_mem_loop (networks : List Network) : ∀ (srcs : List Network)
    (s d : Network), s ∈ srcs → d ∈ networks → s.Name ≠ d.Name →
    isolationRule s.Name d.Name ∈ isolationRulesLoop networks srcs := by
  intro srcs
  induction srcs with
  | nil => intro s d hs; exact absurd hs (List.not_mem_nil _)
  | cons s0 rest ih =>
    intro s d hs hd hne
    unfold isolationRulesLoop
    rcases List.mem_cons.mp hs with rfl | hs
    · exact List.mem_append_left _ (isolationRule_mem_from s networks d hd hne)
    · exact List.mem_append_right _ (ih s d hs hd hne)

/-- The rules EnsureIsolation builds are the REJECT rules of the ordered pairs
of networks with different names. -/
theorem mem_isolation_specs (networks : List Network) (x : List String) :
    x ∈ ruleSpecs (isolationRules networks) ↔ IsRejectOf networks x := by
  constructor
  · intro hx
    obtain ⟨r, hr, hspec⟩ := mem_ruleSpecs hx
    obtain ⟨s, d, hs, hd, hne, rfl⟩ := mem_isolationRulesLoop networks networks r hr
    exact ⟨s, d, hs, hd, hne, hspec.symm⟩
  · rintro ⟨s, d, hs, hd, hne, rfl⟩
    unfold ruleSpecs
    exact List.mem_map.mpr ⟨_, isolationRule_mem_loop networks networks s d hs hd hne, rfl⟩

/-- The custom forward chain after a successful EnsureIsolation, for a chain
that is not empty. -/
theorem EnsureIsolation_chain {env : IptEnv} {st st1 : Tables} {networks : List Network}
    {e : List String} {mid : List (List String)}
    (hc : st "filter" smuggleForwardChainName = some (e :: mid))
    (h : EnsureIsolation env st networks = .ok st1) :
    st1 "filter" smuggleForwardChainName =
      some (e :: insertMissing e mid (ruleSpecs (isolationRules networks))) := by
  replace h := EnsureIsolation_of_ok h
  unfold EnsureIsolation at h
  by_cases hl : networks.length < 2
  · rw [if_pos hl] at h
    injection h with h
    subst h
    rw [isolationRules_small hl]
    exact hc
  · rw [if_neg hl, ensureChain_noop (by rw [hc]; rfl)] at h
    refine ensureIsolationRules_chain "filter" smuggleForwardChainName _ st st1 e mid ?_ hc h
    intro r hr
    obtain ⟨s, d, _, _, _, rfl⟩ := mem_isolationRulesLoop networks networks r hr
    exact ⟨rfl, rfl⟩

theorem reject_spec_length {networks : List Network} {x : List String}
    (h : IsRejectOf networks x) : x.length = 12 := by
  obtain ⟨s, d, _, _, _, rfl⟩ := h
  rfl

theorem accept_spec_length {networks : List Network} {x : List String}
    (h : IsAcceptOf networks x) : x.length = 13 ∨ x.length = 14 := by
  obtain ⟨n, _, hx⟩ := h
  unfold acceptSpecsOf at hx
  cases hs : n.IPv4.bind (fun v4 => v4.Network) with
  | none => rw [hs] at hx; exact absurd hx (List.not_mem_nil _)
  | some supernet =>
    rw [hs] at hx
    simp only [ruleSpecs, customForwardRules, forwardRules, List.filter, forwardChainName,
      smuggleForwardChainName] at hx
    simp at hx
    rcases hx with h | h | h | h | h <;> subst h <;> simp

theorem setupForwardAll_chain_of_ne {envs : Nat → IptEnv} : ∀ (networks : List Network)
    (k : Nat) (st st1 : Tables), networks ≠ [] →
    setupForwardAll envs k st networks = .ok st1 →
    st1 "filter" smuggleForwardChainName =
      some (chainAfterSetup ((st "filter" smuggleForwardChainName).getD []) networks) := by
  intro networks k st st1 hne h
  cases networks with
  | nil => exact absurd rfl hne
  | cons n rest =>
    unfold setupForwardAll at h
    cases h1 : SetupForwardRules (envs k) st n with
    | error e => rw [h1] at h; cases h
    | ok sa =>
      rw [h1] at h
      simp only at h
      unfold chainAfterSetup
      exact setupForwardAll_chain rest (k + 1) sa st1 _ (SetupForwardRules_custom h1) h

/-- One round keeps the custom chain in order: from an empty chain, or from a
chain in order for networks that are all in the list of the round, a round
over a list that is not empty leaves the chain in order for its list. -/
theorem firewallRound_in_order (envs : Nat → IptEnv) (k : Nat) (st st1 : Tables)
    (prev networks : List Network)
    (hsub : ∀ n, n ∈ prev → n ∈ networks) (hne : networks ≠ [])
    (hpre : ((st "filter" smuggleForwardChainName = none ∨
          st "filter" smuggleForwardChainName = some []) ∧ prev = []) ∨
      ChainInOrder prev (st "filter" smuggleForwardChainName))
    (hrun : firewallRound envs k st networks = .ok st1) :
    ChainInOrder networks (st1 "filter" smuggleForwardChainName) := by
  unfold firewallRound at hrun
  cases hsetup : setupForwardAll envs k st networks with
  | error e => rw [hsetup] at hrun; cases hrun
  | ok sa =>
    rw [hsetup] at hrun
    simp only at hrun
    have hsa := setupForwardAll_chain_of_ne networks k st sa hne hsetup
    have hshape : ∃ R A A1, sa "filter" smuggleForwardChainName =
          some (establishedSpec :: (R ++ (A ++ A1))) ∧ R.Nodup ∧
        (∀ x, x ∈ R ↔ IsRejectOf prev x) ∧ (∀ x, x ∈ A ↔ IsAcceptOf prev x) ∧
        (∀ x, x ∈ A1 → IsAcceptOf networks x) ∧
        (∀ x, IsAcceptOf networks x → x ∈ establishedSpec :: (R ++ (A ++ A1))) := by
      rcases hpre with ⟨hempty, hprev⟩ | ⟨R, A, hc, hnd, hR, hA⟩
      · have hget : (st "filter" smuggleForwardChainName).getD [] = [] := by
          rcases hempty with h | h <;> rw [h] <;> rfl
        rw [hget] at hsa
        obtain ⟨A1, k1, k2, k3⟩ := chainAfterSetup_empty networks hne
        rw [k1] at hsa
        subst hprev
        refine ⟨[], [], A1, hsa, List.nodup_nil, ?_, ?_, k2, k3⟩
        · intro x
          constructor
          · intro hx; exact absurd hx (List.not_mem_nil _)
          · rintro ⟨s, _, hs, _⟩; exact absurd hs (List.not_mem_nil _)
        · intro x
          constructor
          · intro hx; exact absurd hx (List.not_mem_nil _)
          · rintro ⟨n, hn, _⟩; exact absurd hn (List.not_mem_nil _)
      · rw [hc] at hsa
        simp only [Option.getD_some] at hsa
        obtain ⟨A1, k1, k2, k3⟩ := chainAfterSetup_shape networks R A
        rw [k1] at hsa
        exact ⟨R, A, A1, hsa, hnd, hR, hA, k2, k3⟩
    obtain ⟨R, A, A1, hsa1, hnd, hR, hA, k2, k3⟩ := hshape
    have hfinal := EnsureIsolation_chain hsa1 hrun
    obtain ⟨added, i1, i2, i3, i4⟩ := insertMissing_spec establishedSpec
      (ruleSpecs (isolationRules networks)) (R ++ (A ++ A1))
    rw [i1] at hfinal
    have hAall : ∀ x, x ∈ A ++ A1 → IsAcceptOf networks x := by
      intro x hx
      rcases List.mem_append.mp hx with hx | hx
      · exact IsAcceptOf_mono hsub ((hA x).mp hx)
      · exact k2 x hx
    refine ⟨added ++ R, A ++ A1, ?_, ?_, ?_, ?_⟩
    · rw [hfinal]
      simp
    · rw [List.nodup_append]
      refine ⟨i2, hnd, ?_⟩
      intro x hx hx2
      exact (i3 x hx).2 (List.mem_cons_of_mem _ (List.mem_append_left _ hx2))
    · intro x
      constructor
      · intro hx
        rcases List.mem_append.mp hx with hx | hx
        · exact (mem_isolation_specs networks x).mp (i3 x hx).1
        · exact IsRejectOf_mono hsub ((hR x).mp hx)
      · intro hx
        have hlen := reject_spec_length hx
        have hmem := i4 x ((mem_isolation_specs networks x).mpr hx)
        rcases List.mem_cons.mp hmem with h | h
        · rw [h] at hlen
          exact absurd hlen (by decide)
        · rcases List.mem_append.mp h with h | h
          · exact List.mem_append_left _ h
          · rcases List.mem_append.mp h with h | h
            · exact List.mem_append_right _ h
            · have := accept_spec_length (hAall x h)
              omega
    · intro x
      constructor
      · exact hAall x
      · intro hx
        have hlen := accept_spec_length hx
        rcases List.mem_cons.mp (k3 x hx) with h | h
        · rw [h] at hlen
          rcases hlen with h1 | h1 <;> exact absurd h1 (by decide)
        · rcases List.mem_append.mp h with h | h
          · have := reject_spec_length ((hR x).mp h)
            omega
          · exact h

theorem firewallRounds_in_order (envs : Nat → IptEnv) : ∀ (rounds : List (List Network))
    (k : Nat) (st st1 : Tables) (prev last : List Network),
    (((st "filter" smuggleForwardChainName = none ∨
          st "filter" smuggleForwardChainName = some []) ∧ prev = []) ∨
      ChainInOrder prev (st "filter" smuggleForwardChainName)) →
    (∀ networks, networks ∈ rounds → networks ≠ []) → Growing (prev :: rounds) →
    rounds.getLast? = some last → firewallRounds envs k st rounds = .ok st1 →
    ChainInOrder last (st1 "filter" smuggleForwardChainName) := by
  intro rounds
  induction rounds with
  | nil => intro k st st1 prev last _ _ _ hlast; cases hlast
  | cons networks rest ih =>
    intro k st st1 prev last hpre hne hgrow hlast hrun
    unfold firewallRounds at hrun
    cases hround : firewallRound envs k st networks with
    | error e => rw [hround] at hrun; cases hrun
    | ok sa =>
      rw [hround] at hrun
      simp only at hrun
      have hin := firewallRound_in_order envs k st sa prev networks hgrow.1
        (hne networks (List.mem_cons_self _ _)) hpre hround
      cases rest with
      | nil =>
        unfold firewallRounds at hrun
        injection hrun with hrun
        subst hrun
        simp only [List.getLast?_singleton, Option.some.injEq] at hlast
        subst hlast
        exact hin
      | cons next more =>
        rw [List.getLast?_cons_cons] at hlast
        exact ih _ sa st1 networks last (Or.inr hin)
          (fun l hl => hne l (List.mem_cons_of_mem _ hl)) hgrow.2 hlast hrun

/-- Claim C26: start from a custom forward chain that is absent or empty and
run rounds of setup, each being SetupForwardRules for every network of a list
of one or more networks and then EnsureIsolation over that list, the list of a
round holding the networks of the round before (the same list again, or
networks added). When the rounds succeed, whichever calls of the library failed
on the way (only a failed Delete of the jump lets a round go on; `envs i` is
what the operating system answers during the call number `i` of the manager),
the custom chain is the ACCEPT for established connections as rule 1, then the
REJECT rules, then the ACCEPT rules of the networks: the REJECT block holds a rule exactly for the ordered pairs of
networks of the last list with different names, the chain holds each of these
rules exactly once, and the block behind holds exactly the ACCEPT rules of the
networks of the last list, so every REJECT precedes every ACCEPT. -/
theorem custom_chain_in_order (envs : Nat → IptEnv) (st st1 : Tables)
    (rounds : List (List Network)) (last : List Network)
    (hempty : st "filter" smuggleForwardChainName = none ∨
      st "filter" smuggleForwardChainName = some [])
    (hne : ∀ networks, networks ∈ rounds → networks ≠ [])
    (hgrow : Growing rounds) (hlast : rounds.getLast? = some last)
    (hrun : firewallRounds envs 0 st rounds = .ok st1) :
    ∃ rejects accepts,
      st1 "filter" smuggleForwardChainName = some (establishedSpec :: (rejects ++ accepts)) ∧
      (∀ x, x ∈ rejects ↔ IsRejectOf last x) ∧
      (∀ x, x ∈ accepts ↔ IsAcceptOf last x) ∧
      (∀ s d, s ∈ last → d ∈ last → s.Name ≠ d.Name →
        (establishedSpec :: (rejects ++ accepts)).count (isolationRule s.Name d.Name).spec = 1) := by
  have hg : Growing ([] :: rounds) := by
    cases rounds with
    | nil => trivial
    | cons a rest => exact ⟨fun n hn => absurd hn (List.not_mem_nil _), hgrow⟩
  obtain ⟨R, A, hc, hnd, hR, hA⟩ := firewallRounds_in_order envs rounds 0 st st1 [] last
    (Or.inl ⟨hempty, rfl⟩) hne hg hlast hrun
  refine ⟨R, A, hc, hR, hA, ?_⟩
  intro s d hs hd hsd
  have hrej : IsRejectOf last (isolationRule s.Name d.Name).spec := ⟨s, d, hs, hd, hsd, rfl⟩
  have hinR := (hR _).mpr hrej
  have hnotA : (isolationRule s.Name d.Name).spec ∉ A := by
    intro h
    have h1 := accept_spec_length ((hA _).mp h)
    have h2 := reject_spec_length hrej
    omega
  have hne1 : establishedSpec ≠ (isolationRule s.Name d.Name).spec := by
    intro h
    have h2 := reject_spec_length hrej
    rw [← h] at h2
    exact absurd h2 (by decide)
  have e1 : List.count (isolationRule s.Name d.Name).spec R = 1 := by
    convert List.count_eq_one_of_mem hnd hinR
  have e2 : List.count (isolationRule s.Name d.Name).spec A = 0 :=
    List.count_eq_zero_of_not_mem hnotA
  rw [List.count_cons_of_ne hne1.symm, List.count_append, e1, e2]

theorem custom_chain_in_order_witness :
    ∃ rejects accepts,
      okTables (firewallRounds noFailures 0 builtinTables sampleRounds)
          "filter" smuggleForwardChainName =
        some (establishedSpec :: (rejects ++ accepts)) ∧
      (∀ x, x ∈ rejects ↔
        IsRejectOf [namedNetwork "a" 1, namedNetwork "b" 2, networkC] x) ∧
      (∀ x, x ∈ accepts ↔
        IsAcceptOf [namedNetwork "a" 1, namedNetwork "b" 2, networkC] x) ∧
      (∀ s d, s ∈ [namedNetwork "a" 1, namedNetwork "b" 2, networkC] →
        d ∈ [namedNetwork "a" 1, namedNetwork "b" 2, networkC] → s.Name ≠ d.Name →
        (establishedSpec :: (rejects ++ accepts)).count
          (isolationRule s.Name d.Name).spec = 1) :=
  custom_chain_in_order noFailures builtinTables _ sampleRounds
    [namedNetwork "a" 1, namedNetwork "b" 2, networkC] (Or.inl rfl)
    (by decide) ⟨by decide, by decide, trivial⟩ rfl (ok_okTables _ (by decide))

theorem ensureIsolationRules_ok (T C : String) : ∀ (rules : List Rule) (st : Tables)
    (e : List String) (mid : List (List String)),
    (∀ r, r ∈ rules → r.table = T ∧ r.chain = C) → st T C = some (e :: mid) →
    ∃ st1, ensureIsolationRules noFailure st rules = .ok st1 := by
  intro rules
  induction rules with
  | nil => intro st e mid _ _; exact ⟨st, rfl⟩
  | cons r rest ih =>
    intro st e mid hch hc
    obtain ⟨ht, hcn⟩ := hch r (List.mem_cons_self _ _)
    have hrest : ∀ x, x ∈ rest → x.table = T ∧ x.chain = C :=
      fun x hx => hch x (List.mem_cons_of_mem _ hx)
    unfold ensureIsolationRules
    rw [ensureIsolationRule_calm, ht, hcn, has_of_some hc]
    by_cases hm : r.spec ∈ e :: mid
    · simp only [hm, decide_True, if_true]
      exact ih st e mid hrest hc
    · simp only [hm, decide_False, Bool.false_eq_true, if_false]
      rw [insertAt_of_some hc, if_pos (by simp)]
      simp only
      exact ih _ e (r.spec :: mid) hrest (Tables.set_same _ _ _ _)

theorem chainAfterSetup_prefix : ∀ (networks : List Network) (c : List (List String)),
    ∃ t, chainAfterSetup c networks = c ++ t := by
  intro networks
  induction networks with
  | nil => intro c; exact ⟨[], by simp [chainAfterSetup]⟩
  | cons n rest ih =>
    intro c
    unfold chainAfterSetup
    obtain ⟨added, a1, _, _⟩ := appendMissing_spec (establishedSpec :: acceptSpecsOf n) c
    obtain ⟨t, ht⟩ := ih (appendMissing c (establishedSpec :: acceptSpecsOf n))
    exact ⟨added ++ t, by rw [ht, a1]; simp⟩

theorem chainAfterSetup_ne_nil (networks : List Network) (c : List (List String))
    (hne : networks ≠ []) : ∃ e mid, chainAfterSetup c networks = e :: mid := by
  cases networks with
  | nil => exact absurd rfl hne
  | cons n rest =>
    unfold chainAfterSetup
    obtain ⟨added, a1, _, a3⟩ := appendMissing_spec (establishedSpec :: acceptSpecsOf n) c
    obtain ⟨t, ht⟩ := chainAfterSetup_prefix rest
      (appendMissing c (establishedSpec :: acceptSpecsOf n))
    have hmem : establishedSpec ∈ chainAfterSetup
        (appendMissing c (establishedSpec :: acceptSpecsOf n)) rest := by
      rw [ht, a1]
      exact List.mem_append_left _ (a3 _ (List.mem_cons_self _ _))
    cases hl : chainAfterSetup (appendMissing c (establishedSpec :: acceptSpecsOf n)) rest with
    | nil => rw [hl] at hmem; exact absurd hmem (List.not_mem_nil _)
    | cons e mid => exact ⟨e, mid, rfl⟩

theorem setupForwardAll_succeeds : ∀ (networks : List Network) (k : Nat) (st : Tables),
    (st "filter" forwardChainName).isSome = true →
    (∀ n, n ∈ networks → (n.IPv4.bind (fun v4 => v4.Network)).isSome = true) →
    ∃ st1, setupForwardAll noFailures k st networks = .ok st1 ∧
      (st1 "filter" forwardChainName).isSome = true := by
  intro networks
  induction networks with
  | nil => intro k st hf _; exact ⟨st, rfl, hf⟩
  | cons n rest ih =>
    intro k st hf hsup
    obtain ⟨supernet, hs⟩ := Option.isSome_iff_exists.mp (hsup n (List.mem_cons_self _ _))
    obtain ⟨fwd, hfwd⟩ := Option.isSome_iff_exists.mp hf
    obtain ⟨sa, hsa⟩ := SetupForwardRules_succeeds st n supernet fwd hs hfwd
    obtain ⟨fwd2, _, hcase⟩ := SetupForwardRules_forward hsa
    have hfa : (sa "filter" forwardChainName).isSome = true := by
      rcases hcase with hf2 | ⟨_, _, hf2⟩ <;> rw [hf2] <;> rfl
    obtain ⟨st1, h1, h2⟩ := ih (k + 1) sa hfa
      (fun m hm => hsup m (List.mem_cons_of_mem _ hm))
    refine ⟨st1, ?_, h2⟩
    unfold setupForwardAll
    show (match SetupForwardRules noFailure st n with
      | Except.error e => Except.error e
      | Except.ok st1 => setupForwardAll noFailures (k + 1) st1 rest) = Except.ok st1
    rw [hsa]
    exact h1

theorem EnsureIsolation_succeeds {st : Tables} {networks : List Network} {e : List String}
    {mid : List (List String)}
    (hc : st "filter" smuggleForwardChainName = some (e :: mid)) :
    ∃ st1, EnsureIsolation noFailure st networks = .ok st1 := by
  unfold EnsureIsolation
  by_cases hl : networks.length < 2
  · rw [if_pos hl]
    exact ⟨st, rfl⟩
  · rw [if_neg hl, ensureChain_noop (by rw [hc]; rfl)]
    refine ensureIsolationRules_ok "filter" smuggleForwardChainName _ st e mid ?_ hc
    intro r hr
    obtain ⟨s, d, _, _, _, rfl⟩ := mem_isolationRulesLoop networks networks r hr
    exact ⟨rfl, rfl⟩

/-- When no call of the library fails, the rounds succeed on every state in
which the top-level FORWARD chain exists, for networks that all have a supernet
and lists that are not empty. -/
theorem firewallRounds_succeeds : ∀ (rounds : List (List Network)) (k : Nat) (st : Tables),
    (st "filter" forwardChainName).isSome = true →
    (∀ networks, networks ∈ rounds → networks ≠ [] ∧
      ∀ n, n ∈ networks → (n.IPv4.bind (fun v4 => v4.Network)).isSome = true) →
    ∃ st1, firewallRounds noFailures k st rounds = .ok st1 := by
  intro rounds
  induction rounds with
  | nil => intro k st _ _; exact ⟨st, rfl⟩
  | cons networks rest ih =>
    intro k st hf hall
    obtain ⟨hne, hsup⟩ := hall networks (List.mem_cons_self _ _)
    obtain ⟨sa, hsa, hfa⟩ := setupForwardAll_succeeds networks k st hf hsup
    have hchain := setupForwardAll_chain_of_ne networks k st sa hne hsa
    obtain ⟨e, mid, hem⟩ := chainAfterSetup_ne_nil networks
      ((st "filter" smuggleForwardChainName).getD []) hne
    rw [hem] at hchain
    obtain ⟨sb, hsb⟩ := @EnsureIsolation_succeeds sa networks e mid hchain
    have hfb : (sb "filter" forwardChainName).isSome = true := by
      unfold EnsureIsolation at hsb
      by_cases hl : networks.length < 2
      · rw [if_pos hl] at hsb
        injection hsb with hsb
        subst hsb
        exact hfa
      · rw [if_neg hl, ensureChain_noop (by rw [hchain]; rfl)] at hsb
        exact isSome_mono (ensureIsolationRules_spec _ hsb).1 hfa
    obtain ⟨st1, h1⟩ := ih (k + networks.length + 1) sb hfb
      (fun l hl => hall l (List.mem_cons_of_mem _ hl))
    refine ⟨st1, ?_⟩
    unfold firewallRounds firewallRound
    rw [hsa]
    show (match EnsureIsolation noFailure sa networks with
      | Except.error e => Except.error e
      | Except.ok st1 => firewallRounds noFailures (k + networks.length + 1) st1 rest) =
        Except.ok st1
    rw [hsb]
    exact h1

end Smuggle
